import Mathlib

/-!
# A verification development for `GenericHashTable.c`

The generic hash table of the repository is embedded as pure functions over immutable
values.

* A bucket's chain (`head` followed through `next`) is a `List` of elements, head first.
  The stored counter `numberOfElements` is kept as a separate field, so that
  "counter = chain length" is a theorem and not a definition.
* The slot array `table` is a `List` of buckets; reading a slot beyond the end of the list
  is an invalid memory access.
* A pointer that may be `NULL` is an `Option`.  The data and key pointers stored inside an
  element are never `NULL` (`insert` rejects a `NULL` object and a `NULL` clone before an
  element is created or written), hence the fields `key : K` and `data : D`.
* `malloc` is an oracle: the outcomes of the successive allocation attempts are read from a
  list of booleans, and every attempt after the end of the list succeeds.  `free` has no
  effect on the values and is not represented.  The clone function of the key strategy is
  one allocation attempt followed by the pure function `cloneKey` (as `cloneInt` and
  `cloneStr` are).
* A failed `assert` and a read outside the slot array end the run with `Exec.abort`.
  The recursion of `insert` is bounded by a fuel argument; `Exec.timeout` reports that the
  fuel ran out.
* The table functions are embedded twice.  The functions of the first sections take the
  `size_t` and `int` quantities of the table (sizes, counters, indices, hash codes) as
  unbounded integers: they describe the code as long as every size fits `int` and no `int`
  product overflows.  The functions of the section on the machine model (namespace
  `Machine`) spell out the `(int)` casts of the sizes, the `int` product of
  `generateHashCode`, the `size_t` product of `resizeTable` and the release loop of
  `setTableBuckets`.  The two agree on every table reached from a `createTable` whose
  capacity is at most `INT_MAX`, for keys whose hash product stays within `int` and as long
  as no bucket allocation of a resize fails (`machine_findData_eq`, `machine_insert_room`,
  `machine_insert_full`, `machine_removeData_eq`, `machine_resizeTable_eq`,
  `machine_createTable_value`); the statements that depend on the casts are made about the
  machine model.  The integer and string key strategies spell out their 32 bit arithmetic.
* `reportError` appends the reported kind to the list of errors of the call.
* A string key is the list of its bytes before the terminator; `char` is a signed 8 bit
  type.
* The text written to the standard output is a `String`: `printTable` returns what it
  printed.
* The release of memory on the failing paths of `createTable` and `resizeTable` is studied
  on a separate model with an explicit heap (`createTableHeap`, `resizeTableHeap`): the
  blocks handed out and not released, and the log of the `free` calls.
-/

namespace GenericHashTable

/-! ## Constants -/

/-- `INITIAL_INDEX` of GenericHashTable.c. -/
abbrev INITIAL_INDEX : Int := 0

/-- `INVALID_INDEX` of GenericHashTable.c. -/
abbrev INVALID_INDEX : Int := -1

/-- `MINIMAL_TABLE_SIZE` of GenericHashTable.c. -/
abbrev MINIMAL_TABLE_SIZE : Nat := 1

/-- `INITIAL_SIZE_FACTOR` of GenericHashTable.c. -/
abbrev INITIAL_SIZE_FACTOR : Nat := 1

/-- `RESIZE_FACTOR` of GenericHashTable.c. -/
abbrev RESIZE_FACTOR : Nat := 2

/-- `NO_ELEMENTS` of GenericHashTable.c. -/
abbrev NO_ELEMENTS : Nat := 0

/-- `MAX_ROW_ELEMENTS` of GenericHashTable.c (its default value). -/
abbrev MAX_ROW_ELEMENTS : Nat := 2

/-- `HASH_CODE_LOWER_BOUND` of Key.h. -/
abbrev HASH_CODE_LOWER_BOUND : Int := 0

/-- `INVALID_HASH_CODE` of Key.h. -/
abbrev INVALID_HASH_CODE : Int := -1

/-- `EQUALITY_VALUE` of Key.h. -/
abbrev EQUALITY_VALUE : Int := 0

/-- `NON_EQUALITY_VALUE` of Key.h. -/
abbrev NON_EQUALITY_VALUE : Int := 1

/-- `COMPARE_ERROR_VALUE` of Key.h. -/
abbrev COMPARE_ERROR_VALUE : Int := -1

/-! ## Execution model -/

/-- Modelled from the spec: the two error kinds handed to `reportError`; their declaration
(`TableErrorHandle.h`) is not among the sources.  `GENERAL_ERROR` is the spec's
`InvalidArgument`, `MEM_OUT` its `OutOfMemory`. -/
inductive TableError where
  | GENERAL_ERROR
  | MEM_OUT
  deriving DecidableEq, Repr

/-- Outcome of running a C function: a normal return, an aborted run (failed `assert` or a
read outside the slot array), or exhausted fuel. -/
inductive Exec (α : Type) where
  | ret (a : α)
  | abort
  | timeout
  deriving DecidableEq, Repr

/-- The allocation oracle: outcomes of the successive `malloc` calls. -/
abbrev Alloc := List Bool

/-- One `malloc` call: its outcome and the remaining oracle. -/
def malloc : Alloc → Bool × Alloc
  | [] => (true, [])
  | b :: rest => (b, rest)

/-! ## Structs -/

/-- The struct `Element`: key, data; `next` is the tail of the chain. -/
structure Element (K D : Type) where
  key : K
  data : D
  deriving DecidableEq, Repr

/-- The struct `Bucket`: the chain starting at `head`, the capacity and the counter. -/
structure Bucket (K D : Type) where
  head : List (Element K D)
  bucketSize : Nat
  numberOfElements : Nat
  deriving DecidableEq, Repr

/-- The struct `Table`: slot array, sizes, size factor and the six bound functions. -/
structure Table (K D : Type) where
  table : List (Bucket K D)
  tableSize : Nat
  originalSize : Nat
  sizeFactor : Nat
  cloneKey : K → K
  freeKey : K → Unit
  hfun : K → Nat → Int
  printKeyFun : K → String
  printDataFun : D → String
  fcomp : K → K → Int

/-- What `findData` hands back: the returned data pointer, the two out-parameters and the
errors it reported. -/
structure FindRet (D : Type) where
  data : Option D
  arrCell : Int
  listNode : Int
  errs : List TableError
  deriving DecidableEq, Repr

/-- What `insert` hands back: the returned flag, the table and oracle afterwards, the
errors reported during the call and, as a ghost counter, the number of `resizeTable` calls
of this `insert` that returned `true`. -/
structure InsertRet (K D : Type) where
  ok : Bool
  table : Option (Table K D)
  alloc : Alloc
  errs : List TableError
  resizes : Nat

/-- What `removeData` hands back: the ejected data, the table afterwards and the errors
reported during the call. -/
structure RemoveRet (K D : Type) where
  data : Option D
  table : Option (Table K D)
  errs : List TableError

/-- What `createTable` hands back: the table pointer, the remaining oracle and the errors
reported during the call. -/
structure CreateRet (K D : Type) where
  table : Option (Table K D)
  alloc : Alloc
  errs : List TableError

variable {K D : Type}

/-! ## Element functions -/

/-- `initializeElement`: allocate an element holding the given key and data. -/
def initializeElement (key : K) (object : D) (o : Alloc) : Option (Element K D) × Alloc :=
  match malloc o with
  | (true, o1) => (some { key := key, data := object }, o1)
  | (false, o1) => (none, o1)

/-- `reachElement`: the element at position `listNode` of the bucket in slot `arrCell`,
or `NULL`.  The walk along `next` is the positional read of the chain. -/
def reachElement (pTable : Table K D) (arrCell listNode : Int) : Exec (Option (Element K D)) :=
  if ¬ (arrCell ≥ INITIAL_INDEX ∨ arrCell < (pTable.tableSize : Int) - 1) then .abort
  else if arrCell < 0 then .abort
  else
    match pTable.table[arrCell.toNat]? with
    | none => .abort
    | some currentBucket =>
      if ¬ (listNode ≥ INITIAL_INDEX) then .abort
      else if listNode ≥ (currentBucket.bucketSize : Int) then .ret none
      else .ret currentBucket.head[listNode.toNat]?

/-- The write `pElement -> data = object` through the pointer that `reachElement` returned
for `(arrCell, listNode)`. -/
def writeElementData (pTable : Table K D) (arrCell listNode : Nat) (object : D) : Table K D :=
  match pTable.table[arrCell]? with
  | none => pTable
  | some b =>
    match b.head[listNode]? with
    | none => pTable
    | some e =>
      { pTable with
        table := pTable.table.set arrCell
          { b with head := b.head.set listNode { e with data := object } } }

/-! ## Bucket functions -/

/-- `initializeBucket`: allocate an empty bucket of the given capacity. -/
def initializeBucket (bucketSize : Nat) (o : Alloc) : Option (Bucket K D) × Alloc :=
  match malloc o with
  | (true, o1) => (some { head := [], bucketSize := bucketSize, numberOfElements := NO_ELEMENTS }, o1)
  | (false, o1) => (none, o1)

/-- `bucketInsertElement`: append a new element at the end of the chain and count it. -/
def bucketInsertElement (pBucket : Bucket K D) (key : K) (object : D) (o : Alloc) :
    Exec (Bool × Bucket K D × Alloc) :=
  match initializeElement key object o with
  | (some newElement, o1) =>
    if pBucket.numberOfElements < pBucket.bucketSize then
      .ret (true, { pBucket with head := pBucket.head ++ [newElement],
                                 numberOfElements := pBucket.numberOfElements + 1 }, o1)
    else .abort
  | (none, o1) => .ret (false, pBucket, o1)

/-- The loop of `bucketRemoveElement`: unlink the first element whose key compares equal;
returns the data of the unlinked element and the remaining chain. -/
def bucketRemoveLoop (fcomp : K → K → Int) (key : K) :
    List (Element K D) → Option D × List (Element K D)
  | [] => (none, [])
  | currentElement :: next =>
    if fcomp currentElement.key key = 0 then (some currentElement.data, next)
    else
      match bucketRemoveLoop fcomp key next with
      | (removedItem, rest) => (removedItem, currentElement :: rest)

/-- `bucketRemoveElement`: remove the element with the given key; the counter is
decremented when an element was unlinked. -/
def bucketRemoveElement (pBucket : Bucket K D) (key : K) (fcomp : K → K → Int) :
    Option D × Bucket K D :=
  match bucketRemoveLoop fcomp key pBucket.head with
  | (some removedItem, rest) =>
    (some removedItem, { pBucket with head := rest,
                                      numberOfElements := pBucket.numberOfElements - 1 })
  | (none, _) => (none, pBucket)

/-- The loop of `bucketFindData`, `bucketPlacement` counting the elements passed. -/
def bucketFindLoop (fcomp : K → K → Int) (key : K) :
    List (Element K D) → Nat → Option (D × Nat)
  | [], _ => none
  | currentElement :: next, bucketPlacement =>
    if fcomp currentElement.key key = 0 then some (currentElement.data, bucketPlacement)
    else bucketFindLoop fcomp key next (bucketPlacement + 1)

/-- `bucketFindData`: the data of the first element whose key compares equal, with its
placement (the value written to `*listNode`); `none` when there is none, in which case
`*listNode` is not written. -/
def bucketFindData (pBucket : Bucket K D) (key : K) (fcomp : K → K → Int) : Option (D × Nat) :=
  bucketFindLoop fcomp key pBucket.head (Int.toNat INITIAL_INDEX)

/-- `printBucket`: the text printed for the chain of a bucket. -/
def printBucket (pBucket : Bucket K D) (printKeyFun : K → String) (printDataFun : D → String) :
    String :=
  pBucket.head.foldl
    (fun out e => out ++ "\t" ++ printKeyFun e.key ++ "," ++ printDataFun e.data ++ "\t-->") ""

/-! ## Table functions -/

/-- `generateHashCode`: the hash of the key against the original size, scaled by the size
factor. -/
def generateHashCode (pTable : Table K D) (key : K) : Int :=
  (pTable.sizeFactor : Int) * pTable.hfun key pTable.originalSize

/-- `updateSizeFactor`. -/
def updateSizeFactor (pTable : Table K D) : Table K D :=
  { pTable with sizeFactor := pTable.sizeFactor * RESIZE_FACTOR }

/-- `setTableBuckets`: allocate one empty bucket per slot, stopping at the first failed
allocation; `none` stands for the `false` result (the partly filled array is discarded by
both callers).  The release loop of the failing path acts on memory only and is not
represented here (see `Machine.setTableBuckets` and `setTableBucketsHeap`). -/
def setTableBuckets : Nat → Alloc → Option (List (Bucket K D)) × Alloc
  | 0, o => (some [], o)
  | n + 1, o =>
    match initializeBucket MAX_ROW_ELEMENTS o with
    | (none, o1) => (none, o1)
    | (some pBucket, o1) =>
      match setTableBuckets n o1 with
      | (none, o2) => (none, o2)
      | (some rest, o2) => (some (pBucket :: rest), o2)

/-- `initializeTable`: allocate the record, the slot array and the buckets. -/
def initializeTable (tableSize : Nat) (cloneKey : K → K) (freeKey : K → Unit)
    (hfun : K → Nat → Int) (printKeyFun : K → String) (printDataFun : D → String)
    (fcomp : K → K → Int) (o : Alloc) : Option (Table K D) × Alloc :=
  match malloc o with
  | (false, o1) => (none, o1)
  | (true, o1) =>
    match malloc o1 with
    | (false, o2) => (none, o2)
    | (true, o2) =>
      match setTableBuckets tableSize o2 with
      | (some buckets, o3) =>
        (some { table := buckets, tableSize := tableSize, originalSize := tableSize,
                sizeFactor := INITIAL_SIZE_FACTOR, cloneKey := cloneKey, freeKey := freeKey,
                hfun := hfun, printKeyFun := printKeyFun, printDataFun := printDataFun,
                fcomp := fcomp }, o3)
      | (none, o3) => (none, o3)

/-- The copy loop of `resizeTable`: slot `2 * i` of the new array receives the old bucket
of slot `i`. -/
def resizeCopyLoop (old : List (Bucket K D)) (newSize : Nat) :
    Nat → Nat → List (Bucket K D) → Exec (List (Bucket K D))
  | 0, _, newTable => .ret newTable
  | n + 1, i, newTable =>
    if ¬ (i * RESIZE_FACTOR < newSize) then .abort
    else
      match old[i]? with
      | none => .abort
      | some b =>
        if i * RESIZE_FACTOR < newTable.length then
          resizeCopyLoop old newSize n (i + 1) (newTable.set (i * RESIZE_FACTOR) b)
        else .abort

/-- `resizeTable`: double the slot array, keeping the old bucket of slot `i` in slot
`2 * i`.  Returns the flag, the table afterwards and the remaining oracle. -/
def resizeTable (pTable : Table K D) (o : Alloc) : Exec (Bool × Table K D × Alloc) :=
  let currentSize := pTable.tableSize
  let newSize := currentSize * RESIZE_FACTOR
  match malloc o with
  | (false, o1) => .ret (false, pTable, o1)
  | (true, o1) =>
    match setTableBuckets newSize o1 with
    | (none, o2) => .ret (false, pTable, o2)
    | (some fresh, o2) =>
      match resizeCopyLoop pTable.table newSize currentSize 0 fresh with
      | .ret newTable =>
        .ret (true, { updateSizeFactor { pTable with tableSize := newSize } with
                      table := newTable }, o2)
      | .abort => .abort
      | .timeout => .timeout

/-- `createTable`. -/
def createTable (tableSize : Nat) (cloneKey : Option (K → K)) (freeKey : Option (K → Unit))
    (hfun : Option (K → Nat → Int)) (printKeyFun : Option (K → String))
    (printDataFun : Option (D → String)) (fcomp : Option (K → K → Int)) (o : Alloc) :
    CreateRet K D :=
  if tableSize < MINIMAL_TABLE_SIZE then
    { table := none, alloc := o, errs := [TableError.GENERAL_ERROR] }
  else
    match cloneKey, freeKey, hfun, printKeyFun, printDataFun, fcomp with
    | some ck, some fk, some hf, some pk, some pd, some fc =>
      match initializeTable tableSize ck fk hf pk pd fc o with
      | (some pTable, o1) => { table := some pTable, alloc := o1, errs := [] }
      | (none, o1) => { table := none, alloc := o1, errs := [TableError.MEM_OUT] }
    | _, _, _, _, _, _ => { table := none, alloc := o, errs := [TableError.GENERAL_ERROR] }

/-- The bucket loop of `findData`: `n` iterations remain, `i` is the loop variable. -/
def findDataLoop (table : Table K D) (key : K) (hashCode : Nat) :
    Nat → Nat → Exec (Option (D × Nat × Nat))
  | 0, _ => .ret none
  | n + 1, i =>
    match table.table[hashCode + i]? with
    | none => .abort
    | some currentBucket =>
      match bucketFindData currentBucket key table.fcomp with
      | some (foundData, listNode) => .ret (some (foundData, hashCode + i, listNode))
      | none => findDataLoop table key hashCode n (i + 1)

/-- `findData`.  The arguments `arrCell` and `listNode` are the values the two
out-parameters hold before the call (the pointers themselves are taken to be valid). -/
def findData (table : Option (Table K D)) (key : Option K) (arrCell listNode : Int) :
    Exec (FindRet D) :=
  match table, key with
  | some table, some key =>
    let hashCode := generateHashCode table key
    if hashCode < HASH_CODE_LOWER_BOUND then
      .ret { data := none, arrCell := INVALID_INDEX, listNode := INVALID_INDEX,
             errs := [TableError.GENERAL_ERROR] }
    else if ¬ (hashCode ≤ (table.tableSize : Int) - 1) then .abort
    else
      match findDataLoop table key hashCode.toNat table.sizeFactor (Int.toNat INITIAL_INDEX) with
      | .ret (some (foundData, cell, node)) =>
        .ret { data := some foundData, arrCell := (cell : Int), listNode := (node : Int),
               errs := [] }
      | .ret none =>
        .ret { data := none, arrCell := INVALID_INDEX, listNode := INVALID_INDEX, errs := [] }
      | .abort => .abort
      | .timeout => .timeout
  | _, _ =>
    .ret { data := none, arrCell := arrCell, listNode := listNode,
           errs := [TableError.GENERAL_ERROR] }

/-- The body of the bucket loop of `insert` for a bucket that has room: clone the key and
append the new element to `currentBucket`, which sits in slot `cell`. -/
def insertAt (table : Table K D) (key : K) (object : D) (cell : Nat)
    (currentBucket : Bucket K D) (o : Alloc) : Exec (InsertRet K D) :=
  match malloc o with
  | (false, o1) =>
    -- the clone function has reported MEM_OUT and returned NULL
    .ret { ok := false, table := some table, alloc := o1, errs := [TableError.MEM_OUT],
           resizes := 0 }
  | (true, o1) =>
    match bucketInsertElement currentBucket (table.cloneKey key) object o1 with
    | .ret (true, newBucket, o2) =>
      .ret { ok := true,
             table := some { table with table := table.table.set cell newBucket },
             alloc := o2, errs := [], resizes := 0 }
    | .ret (false, _, o2) =>
      .ret { ok := false, table := some table, alloc := o2, errs := [TableError.MEM_OUT],
             resizes := 0 }
    | .abort => .abort
    | .timeout => .timeout

/-- The bucket loop of `insert`: `some r` when the loop returned from `insert` with `r`,
`none` when every bucket of the window was full; `n` iterations remain, `i` is the loop
variable. -/
def insertLoop (table : Table K D) (key : K) (object : D) (hashCode : Nat) (o : Alloc) :
    Nat → Nat → Exec (Option (InsertRet K D))
  | 0, _ => .ret none
  | n + 1, i =>
    match table.table[hashCode + i]? with
    | none => .abort
    | some currentBucket =>
      if currentBucket.numberOfElements < currentBucket.bucketSize then
        match insertAt table key object (hashCode + i) currentBucket o with
        | .ret r => .ret (some r)
        | .abort => .abort
        | .timeout => .timeout
      else insertLoop table key object hashCode o n (i + 1)

/-- `insert`; the first argument bounds the depth of the recursion. -/
def insert : Nat → Option (Table K D) → Option K → Option D → Alloc → Exec (InsertRet K D)
  | 0, _, _, _, _ => .timeout
  | fuel + 1, some table, some key, some object, o =>
    match findData (some table) (some key) INVALID_INDEX INVALID_INDEX with
    | .abort => .abort
    | .timeout => .timeout
    | .ret f =>
      if f.data.isSome ∧ f.arrCell ≠ INVALID_INDEX ∧ f.listNode ≠ INVALID_INDEX then
        match reachElement table f.arrCell f.listNode with
        | .ret (some _) =>
          .ret { ok := true,
                 table := some (writeElementData table f.arrCell.toNat f.listNode.toNat object),
                 alloc := o, errs := f.errs, resizes := 0 }
        | _ => .abort
      else
        let hashCode := generateHashCode table key
        if hashCode < HASH_CODE_LOWER_BOUND then
          .ret { ok := false, table := some table, alloc := o,
                 errs := f.errs ++ [TableError.GENERAL_ERROR], resizes := 0 }
        else if ¬ (hashCode ≤ (table.tableSize : Int) - 1) then .abort
        else
          match insertLoop table key object hashCode.toNat o table.sizeFactor
              (Int.toNat INITIAL_INDEX) with
          | .abort => .abort
          | .timeout => .timeout
          | .ret (some r) => .ret { r with errs := f.errs ++ r.errs }
          | .ret none =>
            match resizeTable table o with
            | .abort => .abort
            | .timeout => .timeout
            | .ret (true, resized, o1) =>
              match insert fuel (some resized) (some key) (some object) o1 with
              | .ret r => .ret { r with errs := f.errs ++ r.errs, resizes := r.resizes + 1 }
              | .abort => .abort
              | .timeout => .timeout
            | .ret (false, same, o1) =>
              .ret { ok := false, table := some same, alloc := o1,
                     errs := f.errs ++ [TableError.MEM_OUT], resizes := 0 }
  | _ + 1, table, _, _, o =>
    .ret { ok := false, table := table, alloc := o, errs := [TableError.GENERAL_ERROR],
           resizes := 0 }

/-- `removeData`. -/
def removeData (table : Option (Table K D)) (key : Option K) : Exec (RemoveRet K D) :=
  match table, key with
  | some table, some key =>
    match findData (some table) (some key) INVALID_INDEX INVALID_INDEX with
    | .abort => .abort
    | .timeout => .timeout
    | .ret f =>
      if f.data.isSome ∧ f.arrCell ≠ INVALID_INDEX ∧ f.listNode ≠ INVALID_INDEX then
        match table.table[f.arrCell.toNat]? with
        | none => .abort
        | some currentBucket =>
          match bucketRemoveElement currentBucket key table.fcomp with
          | (removedData, newBucket) =>
            .ret { data := removedData,
                   table := some { table with
                                   table := table.table.set f.arrCell.toNat newBucket },
                   errs := f.errs }
      else .ret { data := none, table := some table, errs := f.errs }
  | _, _ => .ret { data := none, table := table, errs := [TableError.GENERAL_ERROR] }

/-- `getDataAt`. -/
def getDataAt (table : Option (Table K D)) (arrCell listNode : Int) :
    Exec (Option D × List TableError) :=
  match table with
  | none => .ret (none, [TableError.GENERAL_ERROR])
  | some table =>
    if listNode < INITIAL_INDEX ∨ arrCell < INITIAL_INDEX
        ∨ arrCell > (table.tableSize : Int) - 1 then .ret (none, [])
    else
      match reachElement table arrCell listNode with
      | .ret (some pElement) => .ret (some pElement.data, [])
      | .ret none => .ret (none, [])
      | .abort => .abort
      | .timeout => .timeout

/-- `getKeyAt`. -/
def getKeyAt (table : Option (Table K D)) (arrCell listNode : Int) :
    Exec (Option K × List TableError) :=
  match table with
  | none => .ret (none, [TableError.GENERAL_ERROR])
  | some table =>
    if listNode < INITIAL_INDEX ∨ arrCell < INITIAL_INDEX
        ∨ arrCell > (table.tableSize : Int) - 1 then .ret (none, [])
    else
      match reachElement table arrCell listNode with
      | .ret (some pElement) => .ret (some pElement.key, [])
      | .ret none => .ret (none, [])
      | .abort => .abort
      | .timeout => .timeout

/-! ## The integer key strategy (MyIntFunctions.c) -/

/-- The cast `(int)` of a `size_t`: reduction to the signed 32 bit range. -/
def castInt (n : Nat) : Int :=
  if n % 2 ^ 32 < 2 ^ 31 then ((n % 2 ^ 32 : Nat) : Int) else ((n % 2 ^ 32 : Nat) : Int) - 2 ^ 32

/-- `cloneInt` once its allocation has succeeded: a copy of the int. -/
def cloneInt (i : Int) : Int := i

/-- `freeInt`. -/
def freeInt (_ : Int) : Unit := ()

/-- `intFcn`: the key modulo the table size, `%` being the truncating remainder of C. -/
def intFcn (key : Option Int) (tableSize : Nat) : Int :=
  match key with
  | none => INVALID_HASH_CODE
  | some intKey =>
    let hashCode := Int.tmod intKey (castInt tableSize)
    if hashCode < 0 then hashCode + castInt tableSize else hashCode

/-- `intPrint`. -/
def intPrint (key : Int) : String := toString key

/-- `intCompare`. -/
def intCompare (key1 key2 : Option Int) : Int :=
  match key1, key2 with
  | some intKey1, some intKey2 =>
    if intKey1 = intKey2 then EQUALITY_VALUE else NON_EQUALITY_VALUE
  | _, _ => COMPARE_ERROR_VALUE

/-! ## Reachable tables and the properties stated about them -/

/-- `Created n T`: `T` is the table returned by a call of `createTable` with capacity `n`. -/
def Created (n : Nat) (T : Table K D) : Prop :=
  ∃ ck fk hf pk pd fc o, (createTable n ck fk hf pk pd fc o).table = some T

/-- `ReachFrom T0 r T`: the table `T` results from `T0` by a finite sequence of calls of
`insert`, `removeData` and `resizeTable` that returned (with any arguments, any allocation
outcomes, successful or not), during which `resizeTable` returned `true` exactly `r`
times. -/
inductive ReachFrom (T0 : Table K D) : Nat → Table K D → Prop
  | start : ReachFrom T0 0 T0
  | insert {r : Nat} {T T1 : Table K D} {fuel : Nat} {key : Option K} {object : Option D}
      {o : Alloc} {res : InsertRet K D} :
      ReachFrom T0 r T → GenericHashTable.insert fuel (some T) key object o = .ret res →
      res.table = some T1 → ReachFrom T0 (r + res.resizes) T1
  | removeData {r : Nat} {T T1 : Table K D} {key : Option K} {res : RemoveRet K D} :
      ReachFrom T0 r T → GenericHashTable.removeData (some T) key = .ret res →
      res.table = some T1 → ReachFrom T0 r T1
  | resizeTable {r : Nat} {T T1 : Table K D} {o o1 : Alloc} {ok : Bool} :
      ReachFrom T0 r T → GenericHashTable.resizeTable T o = .ret (ok, T1, o1) →
      ReachFrom T0 (r + if ok then 1 else 0) T1

/-- A table reachable from `createTable`. -/
def Reachable (T : Table K D) : Prop :=
  ∃ n T0 r, Created n T0 ∧ ReachFrom T0 r T

/-- Every allocation attempt recorded in the oracle succeeds. -/
def AllocOK (o : Alloc) : Prop := ∀ b ∈ o, b = true

/-- The hash of the key against the original size lies in `[0, originalSize)`. -/
def ValidHash (T : Table K D) (k : K) : Prop :=
  0 ≤ T.hfun k T.originalSize ∧ T.hfun k T.originalSize < (T.originalSize : Int)

/-- The element `e` sits at position `s` of the chain `l`, compares equal to `key`, and no
element before it does. -/
def FirstAt (fcomp : K → K → Int) (key : K) (l : List (Element K D)) (s : Nat)
    (e : Element K D) : Prop :=
  l[s]? = some e ∧ fcomp e.key key = 0 ∧
    ∀ j e1, j < s → l[j]? = some e1 → fcomp e1.key key ≠ 0

/-- No element of the chain compares equal to `key`. -/
def NoMatch (fcomp : K → K → Int) (key : K) (l : List (Element K D)) : Prop :=
  ∀ e ∈ l, fcomp e.key key ≠ 0

/-- The bucket invariant: counter = chain length, counter within the capacity, capacity
`MAX_ROW_ELEMENTS`. -/
def BucketOK (b : Bucket K D) : Prop :=
  b.numberOfElements = b.head.length ∧ b.numberOfElements ≤ b.bucketSize ∧
    b.bucketSize = MAX_ROW_ELEMENTS

/-- The structural invariant of a table. -/
structure WF (T : Table K D) : Prop where
  size : T.tableSize = T.originalSize * T.sizeFactor
  len : T.table.length = T.tableSize
  orig : 1 ≤ T.originalSize
  sf : 1 ≤ T.sizeFactor
  bucket : ∀ b ∈ T.table, BucketOK b

/-- The two tables are bound to the same six functions. -/
def SameFns (T T1 : Table K D) : Prop :=
  T1.cloneKey = T.cloneKey ∧ T1.freeKey = T.freeKey ∧ T1.hfun = T.hfun ∧
    T1.printKeyFun = T.printKeyFun ∧ T1.printDataFun = T.printDataFun ∧ T1.fcomp = T.fcomp

/-- The empty bucket that `setTableBuckets` puts into a slot. -/
def emptyBucket : Bucket K D :=
  { head := [], bucketSize := MAX_ROW_ELEMENTS, numberOfElements := NO_ELEMENTS }

/-- The slot at which the address window of the key starts. -/
def windowStart (T : Table K D) (k : K) : Nat := (generateHashCode T k).toNat

/-- Every bucket of the address window of `k` exists and holds no element comparing equal
to `k`. -/
def Absent (T : Table K D) (k : K) : Prop :=
  ∀ c, windowStart T k ≤ c → c < windowStart T k + T.sizeFactor →
    ∃ b, T.table[c]? = some b ∧ NoMatch T.fcomp k b.head

/-- The first element of the address window of `k`, in scan order, that compares equal to
`k` sits at position `s` of the bucket in slot `c` and holds the data `d`. -/
def FoundAt (T : Table K D) (k : K) (d : D) (c s : Nat) : Prop :=
  windowStart T k ≤ c ∧ c < windowStart T k + T.sizeFactor ∧
    (∀ c1, windowStart T k ≤ c1 → c1 < c →
      ∃ b, T.table[c1]? = some b ∧ NoMatch T.fcomp k b.head) ∧
    ∃ b e, T.table[c]? = some b ∧ FirstAt T.fcomp k b.head s e ∧ e.data = d

/-- The table after the element `(cloneKey k, v)` has been appended to the bucket `b` of
slot `c`. -/
def placed (T : Table K D) (k : K) (v : D) (c : Nat) (b : Bucket K D) : Table K D :=
  { T with
    table := T.table.set c
      ({ b with head := b.head ++ [{ key := T.cloneKey k, data := v }],
                numberOfElements := b.numberOfElements + 1 }) }

/-- Slot `c` holds the bucket `b`, which is the first bucket of the address window of `k`
whose counter is below its capacity. -/
def PlaceAt (T : Table K D) (k : K) (c : Nat) (b : Bucket K D) : Prop :=
  windowStart T k ≤ c ∧ c < windowStart T k + T.sizeFactor ∧ T.table[c]? = some b ∧
    b.numberOfElements < b.bucketSize ∧
    ∀ c1, windowStart T k ≤ c1 → c1 < c →
      ∃ b1, T.table[c1]? = some b1 ∧ ¬ b1.numberOfElements < b1.bucketSize

/-- Every bucket of the address window of `k` is full. -/
def WindowFull (T : Table K D) (k : K) : Prop :=
  ∀ c, windowStart T k ≤ c → c < windowStart T k + T.sizeFactor →
    ∃ b, T.table[c]? = some b ∧ ¬ b.numberOfElements < b.bucketSize

/-- The layout after a successful `resizeTable`: sizes and size factor doubled, the old
bucket of slot `j` in slot `2 * j`, an empty bucket in slot `2 * j + 1`. -/
def Doubled (T T1 : Table K D) : Prop :=
  T1.tableSize = T.tableSize * 2 ∧ T1.sizeFactor = T.sizeFactor * 2 ∧
    T1.originalSize = T.originalSize ∧ SameFns T T1 ∧
    T1.table.length = T.tableSize * 2 ∧
    ∀ j, j < T.tableSize →
      T1.table[j * 2]? = T.table[j]? ∧ T1.table[j * 2 + 1]? = some emptyBucket

/-- The table after the element at position `s` has been unlinked from the bucket `b` of
slot `c`. -/
def removed (T : Table K D) (c s : Nat) (b : Bucket K D) : Table K D :=
  { T with
    table := T.table.set c
      ({ b with head := b.head.eraseIdx s, numberOfElements := b.numberOfElements - 1 }) }

/-- What every returning call preserves: well-formedness, the bound functions and the
original size; `r` counts the doublings of the size factor and of the table size. -/
def StepOK (T T1 : Table K D) (r : Nat) : Prop :=
  WF T1 ∧ SameFns T T1 ∧ T1.originalSize = T.originalSize ∧
    T1.sizeFactor = T.sizeFactor * 2 ^ r ∧ T1.tableSize = T.tableSize * 2 ^ r

/-- The two ways in which `insert` stores a key that is absent: in the first bucket of the
window that has room (`r = 0`), or, when the window is full, after one doubling in the
empty bucket next to the first slot of the doubled window (`r = 1`). -/
def InsertedFresh (T : Table K D) (k : K) (v : D) (T1 : Table K D) (r : Nat) : Prop :=
  (∃ c b, PlaceAt T k c b ∧ T1 = placed T k v c b ∧ r = 0) ∨
  (WindowFull T k ∧ ∃ T2, Doubled T T2 ∧
    T1 = placed T2 k v (windowStart T k * 2 + 1) emptyBucket ∧ r = 1)

/-- The element `e` sits at position `s` of the chain of the bucket in slot `c`. -/
def Entry (T : Table K D) (c s : Nat) (e : Element K D) : Prop :=
  ∃ b, T.table[c]? = some b ∧ b.head[s]? = some e

/-- A call of the public interface that changes the table. -/
inductive Op (K D : Type) where
  | insert (key : K) (object : D)
  | removeData (key : K)

/-- Run a sequence of `insert` and `removeData` calls, first call first, threading the
table and the allocation oracle. -/
def runOps (fuel : Nat) : List (Op K D) → Table K D → Alloc → Exec (Table K D × Alloc)
  | [], T, o => .ret (T, o)
  | Op.insert key object :: rest, T, o =>
    match GenericHashTable.insert fuel (some T) (some key) (some object) o with
    | .ret r =>
      match r.table with
      | some T1 => runOps fuel rest T1 r.alloc
      | none => .abort
    | .abort => .abort
    | .timeout => .timeout
  | Op.removeData key :: rest, T, o =>
    match GenericHashTable.removeData (some T) (some key) with
    | .ret r =>
      match r.table with
      | some T1 => runOps fuel rest T1 o
      | none => .abort
    | .abort => .abort
    | .timeout => .timeout

/-- The hash function of the integer strategy on a present key. -/
def intHash (k : Int) (n : Nat) : Int := intFcn (some k) n

/-- The comparison function of the integer strategy on present keys. -/
def intComp (a b : Int) : Int := intCompare (some a) (some b)

/-- An integer-keyed table with the given slots, sizes and size factor. -/
def intTable (slots : List (Bucket Int Int)) (size orig factor : Nat) : Table Int Int :=
  { table := slots, tableSize := size, originalSize := orig, sizeFactor := factor,
    cloneKey := cloneInt, freeKey := freeInt, hfun := intHash, printKeyFun := intPrint,
    printDataFun := intPrint, fcomp := intComp }

/-- A bucket of capacity `MAX_ROW_ELEMENTS` holding the given keys, each with the given
data. -/
def intBucket (entries : List (Int × Int)) : Bucket Int Int :=
  { head := entries.map (fun p => { key := p.1, data := p.2 }),
    bucketSize := MAX_ROW_ELEMENTS, numberOfElements := entries.length }

/-- The table `createTable 2` returns for the integer strategy. -/
def exT0 : Table Int Int := intTable [intBucket [], intBucket []] 2 2 1

/-- `exT0` after `insert 543`. -/
def exT1 : Table Int Int := intTable [intBucket [], intBucket [(543, 543)]] 2 2 1

/-- `exT1` after `insert 6543`. -/
def exT2 : Table Int Int := intTable [intBucket [], intBucket [(543, 543), (6543, 6543)]] 2 2 1

/-- `exT2` after `insert 3`, which resizes. -/
def exT3 : Table Int Int :=
  intTable [intBucket [], intBucket [], intBucket [(543, 543), (6543, 6543)],
    intBucket [(3, 3)]] 4 2 2

/-- `exT2` after a successful `resizeTable`. -/
def exT2r : Table Int Int :=
  intTable [intBucket [], intBucket [], intBucket [(543, 543), (6543, 6543)],
    intBucket []] 4 2 2

/-- A hash function that returns the key itself, whatever the table size. -/
def idHash (k : Int) (_ : Nat) : Int := k

/-- The table `createTable 2` returns for integer keys hashed by `idHash`. -/
def idT0 : Table Int Int :=
  { table := [intBucket [], intBucket []], tableSize := 2, originalSize := 2, sizeFactor := 1,
    cloneKey := cloneInt, freeKey := freeInt, hfun := idHash, printKeyFun := intPrint,
    printDataFun := intPrint, fcomp := intComp }

/-- The insertion loop of the driver (TableTester.c): every key of the array is inserted
with itself as data; the flags the calls returned are collected, first call first. -/
def insertArray (fuel : Nat) : List Int → Table Int Int → Alloc →
    Exec (List Bool × Table Int Int × Alloc)
  | [], T, o => .ret ([], T, o)
  | key :: rest, T, o =>
    match insert fuel (some T) (some key) (some key) o with
    | .ret r =>
      match r.table with
      | some T1 =>
        match insertArray fuel rest T1 r.alloc with
        | .ret (flags, T2, o2) => .ret (r.ok :: flags, T2, o2)
        | .abort => .abort
        | .timeout => .timeout
      | none => .abort
    | .abort => .abort
    | .timeout => .timeout

/-- The table of the driver after its keys 543, 6543, -22, 3, 4, -5, 10, 0 have been
inserted. -/
def exFinal : Table Int Int :=
  intTable [intBucket [(-22, -22), (4, 4)], intBucket [(10, 10), (0, 0)],
    intBucket [(543, 543), (6543, 6543)], intBucket [(3, 3), (-5, -5)]] 4 2 2

/-- The capacity (`tableSize`) of the table after each call of the insertion loop of the
driver (TableTester.c), first call first. -/
def insertSizes (fuel : Nat) : List Int → Table Int Int → Alloc → Exec (List Nat)
  | [], _, _ => .ret []
  | key :: rest, T, o =>
    match insert fuel (some T) (some key) (some key) o with
    | .ret r =>
      match r.table with
      | some T1 =>
        match insertSizes fuel rest T1 r.alloc with
        | .ret sizes => .ret (T1.tableSize :: sizes)
        | .abort => .abort
        | .timeout => .timeout
      | none => .abort
    | .abort => .abort
    | .timeout => .timeout

/-- `exT2` after `insert -22`: the table of the driver after its first three keys. -/
def exT2b : Table Int Int :=
  intTable [intBucket [(-22, -22)], intBucket [(543, 543), (6543, 6543)]] 2 2 1

/-- `exT2b` after `insert 3`, which resizes: the table of the driver after its first four
keys. -/
def exT3b : Table Int Int :=
  intTable [intBucket [(-22, -22)], intBucket [], intBucket [(543, 543), (6543, 6543)],
    intBucket [(3, 3)]] 4 2 2

/-- `INT_MAX` of limits.h for a 32 bit `int`. -/
abbrev INT_MAX : Int := 2147483647

/-- `INT_MIN` of limits.h for a 32 bit `int`. -/
abbrev INT_MIN : Int := -2147483648

/-! ## The string key strategy (MyStringFunctions.c) -/

/-- `ASCII_INITIAL_COUNT` of MyStringFunctions.c. -/
abbrev ASCII_INITIAL_COUNT : Int := 0

/-- The value of a byte read through a `char` lvalue, `char` being a signed 8 bit type. -/
def charValue (b : Nat) : Int :=
  if b % 256 < 128 then ((b % 256 : Nat) : Int) else ((b % 256 : Nat) : Int) - 256

/-- The result of an `int` addition: reduction to the signed 32 bit range. -/
def wrapInt (z : Int) : Int := (z + 2 ^ 31) % 2 ^ 32 - 2 ^ 31

/-- The loop of `strFcn`.  A string key is the list of its bytes before the terminator;
every character is added to `asciiValue`. -/
def strFcnLoop : List Nat → Int → Int
  | [], asciiValue => asciiValue
  | stringKey :: rest, asciiValue => strFcnLoop rest (wrapInt (asciiValue + charValue stringKey))

/-- `strFcn`: the sum of the characters modulo the table size, `%` being the truncating
remainder of C. -/
def strFcn (s : Option (List Nat)) (tableSize : Nat) : Int :=
  match s with
  | none => INVALID_HASH_CODE
  | some stringKey => Int.tmod (strFcnLoop stringKey ASCII_INITIAL_COUNT) (castInt tableSize)

/-- `strcmp` of the C library on two strings given by their bytes before the terminator:
zero when they are the same, otherwise the difference of the first two bytes that differ
(the terminator counting as the byte 0). -/
def strcmp : List Nat → List Nat → Int
  | [], [] => 0
  | [], c2 :: _ => 0 - (c2 : Int)
  | c1 :: _, [] => (c1 : Int)
  | c1 :: s1, c2 :: s2 => if c1 = c2 then strcmp s1 s2 else (c1 : Int) - (c2 : Int)

/-- `strCompare`. -/
def strCompare (key1 key2 : Option (List Nat)) : Int :=
  match key1, key2 with
  | some stringKey1, some stringKey2 =>
    if strcmp stringKey1 stringKey2 = EQUALITY_VALUE then EQUALITY_VALUE
    else NON_EQUALITY_VALUE
  | _, _ => COMPARE_ERROR_VALUE

/-- The bytes of a string before its terminator: none of them is the NUL byte. -/
def NulFree (s : List Nat) : Prop := ∀ c ∈ s, c ≠ 0

/-! ## The heap during `createTable` and `resizeTable` -/

/-- The heap as the allocation paths of `createTable` see it: the address the next block
gets, the blocks handed out by `malloc` and not yet released, and the arguments of the
`free` calls made so far, oldest first. -/
structure Heap where
  next : Nat
  live : List Nat
  released : List Nat
  deriving DecidableEq, Repr

/-- The heap before the first allocation. -/
def emptyHeap : Heap := { next := 0, live := [], released := [] }

/-- `malloc` on the heap: the address of a fresh block, or `NULL` when the oracle makes the
attempt fail. -/
def heapMalloc (o : Alloc) (h : Heap) : Option Nat × Alloc × Heap :=
  match malloc o with
  | (true, o1) => (some h.next, o1, { h with next := h.next + 1, live := h.live ++ [h.next] })
  | (false, o1) => (none, o1, h)

/-- `free` of a block. -/
def heapFree (p : Nat) (h : Heap) : Heap :=
  { h with live := h.live.erase p, released := h.released ++ [p] }

/-- `freeBucket` on a pointer read from the slot array, the buckets being empty: nothing
for `NULL`, `free` of the bucket otherwise.  A pointer that is not a block of the heap ends
the run. -/
def freeBucketHeap (pBucket : Option Nat) (h : Heap) : Exec Heap :=
  match pBucket with
  | none => .ret h
  | some p => if p ∈ h.live then .ret (heapFree p h) else .abort

/-- The `while` loop of `setTableBuckets` on the heap: `n` slots remain, `currentIndex` is
the loop variable; returns `currentIndex` as the loop leaves it. -/
def setBucketsLoop : Nat → Nat → List (Option Nat) → Alloc → Heap →
    Nat × List (Option Nat) × Alloc × Heap
  | 0, currentIndex, table, o, h => (currentIndex, table, o, h)
  | n + 1, currentIndex, table, o, h =>
    match heapMalloc o h with
    | (none, o1, h1) => (currentIndex, table, o1, h1)
    | (some pBucket, o1, h1) =>
      setBucketsLoop n (currentIndex + 1) (table.set currentIndex (some pBucket)) o1 h1

/-- The `for` loop of the failing path of `setTableBuckets`: `n` iterations remain; every
iteration passes `table[currentIndex]` to `freeBucket` and sets that slot to `NULL`. -/
def releaseLoop (currentIndex : Nat) : Nat → List (Option Nat) → Heap →
    Exec (List (Option Nat) × Heap)
  | 0, table, h => .ret (table, h)
  | n + 1, table, h =>
    match table[currentIndex]? with
    | none => .abort
    | some pBucket =>
      match freeBucketHeap pBucket h with
      | .ret h1 => releaseLoop currentIndex n (table.set currentIndex none) h1
      | .abort => .abort
      | .timeout => .timeout

/-- `setTableBuckets` on the heap; `table` is the content of the slot array. -/
def setTableBucketsHeap (table : List (Option Nat)) (tableSize : Nat) (o : Alloc) (h : Heap) :
    Exec (Bool × List (Option Nat) × Alloc × Heap) :=
  match setBucketsLoop tableSize 0 table o h with
  | (currentIndex, table1, o1, h1) =>
    if currentIndex ≠ tableSize then
      match releaseLoop currentIndex currentIndex table1 h1 with
      | .ret (table2, h2) => .ret (false, table2, o1, h2)
      | .abort => .abort
      | .timeout => .timeout
    else .ret (true, table1, o1, h1)

/-- `initializeTable` on the heap.  `junk` is what a slot of the freshly allocated array
reads as before it is written.  Returns the pointer to the table record. -/
def initializeTableHeap (tableSize : Nat) (junk : Option Nat) (o : Alloc) (h : Heap) :
    Exec (Option Nat × Alloc × Heap) :=
  match heapMalloc o h with
  | (none, o1, h1) => .ret (none, o1, h1)
  | (some pTable, o1, h1) =>
    match heapMalloc o1 h1 with
    | (none, o2, h2) => .ret (none, o2, heapFree pTable h2)
    | (some table, o2, h2) =>
      match setTableBucketsHeap (List.replicate tableSize junk) tableSize o2 h2 with
      | .ret (true, _, o3, h3) => .ret (some pTable, o3, h3)
      | .ret (false, _, o3, h3) => .ret (none, o3, heapFree pTable (heapFree table h3))
      | .abort => .abort
      | .timeout => .timeout

/-- `createTable` on the heap, its six function arguments being present. -/
def createTableHeap (tableSize : Nat) (junk : Option Nat) (o : Alloc) (h : Heap) :
    Exec (Option Nat × List TableError × Alloc × Heap) :=
  if tableSize < MINIMAL_TABLE_SIZE then .ret (none, [TableError.GENERAL_ERROR], o, h)
  else
    match initializeTableHeap tableSize junk o h with
    | .ret (some pTable, o1, h1) => .ret (some pTable, [], o1, h1)
    | .ret (none, o1, h1) => .ret (none, [TableError.MEM_OUT], o1, h1)
    | .abort => .abort
    | .timeout => .timeout

/-- The total number of elements, as counted by the buckets. -/
def totalElements (T : Table K D) : Nat :=
  (T.table.map (fun b => b.numberOfElements)).sum

/-! ## Printing -/

/-- The loop of `printTable`: `n` slots remain, `i` is the loop variable, `out` the text
printed so far. -/
def printTableLoop (table : Table K D) : Nat → Nat → String → Exec String
  | 0, _, out => .ret out
  | n + 1, i, out =>
    match table.table[i]? with
    | none => .abort
    | some currentBucket =>
      printTableLoop table n (i + 1)
        (out ++ "[" ++ toString i ++ "]" ++
          printBucket currentBucket table.printKeyFun table.printDataFun ++ "\t\n")

/-- `printTable`: the text written to the standard output and the errors reported. -/
def printTable (table : Option (Table K D)) : Exec (String × List TableError) :=
  match table with
  | none => .ret ("", [TableError.GENERAL_ERROR])
  | some table =>
    match printTableLoop table table.tableSize (Int.toNat INITIAL_INDEX) "" with
    | .ret out => .ret (out, [])
    | .abort => .abort
    | .timeout => .timeout

/-- The text of one element, in the words of the specification: a tab, the key, a comma,
the value and the text `\t-->`. -/
def elementText (pk : K → String) (pd : D → String) (e : Element K D) : String :=
  "\t" ++ pk e.key ++ "," ++ pd e.data ++ "\t-->"

/-- The texts of the elements of a chain, head first. -/
def elementsText (pk : K → String) (pd : D → String) : List (Element K D) → String
  | [] => ""
  | e :: rest => elementText pk pd e ++ elementsText pk pd rest

/-- The text of the cell with index `i`: `[i]`, the elements of its bucket in chain order,
and the cell terminator. -/
def cellText (pk : K → String) (pd : D → String) (i : Nat) (b : Bucket K D) : String :=
  "[" ++ toString i ++ "]" ++ elementsText pk pd b.head ++ "\t\n"

/-- The texts of the cells of consecutive slots, the first of which has index `i`. -/
def cellsText (pk : K → String) (pd : D → String) : Nat → List (Bucket K D) → String
  | _, [] => ""
  | i, b :: rest => cellText pk pd i b ++ cellsText pk pd (i + 1) rest

/-- The number of lines of a text: the number of its newline characters. -/
def lineCount (s : String) : Nat := s.data.count '\n'

/-- The text starts with the marker `-->`. -/
def markerAt : List Char → Bool
  | a :: b :: c :: _ => decide (a = '-' ∧ b = '-' ∧ c = '>')
  | _ => false

/-- The number of positions of a text at which the marker `-->` starts. -/
def countMarker : List Char → Nat
  | [] => 0
  | a :: rest => (if markerAt (a :: rest) then 1 else 0) + countMarker rest

/-- `cloneStr` once its allocation has succeeded: a copy of the string. -/
def cloneStr (s : List Nat) : List Nat := s

/-- `freeStr`. -/
def freeStr (_ : List Nat) : Unit := ()

/-- `strPrint`: the characters of the string. -/
def strPrint (s : List Nat) : String := String.mk (s.map Char.ofNat)

/-- The hash function of the string strategy on a present key. -/
def strHash (k : List Nat) (n : Nat) : Int := strFcn (some k) n

/-- The comparison function of the string strategy on present keys. -/
def strComp (a b : List Nat) : Int := strCompare (some a) (some b)

/-- A string-keyed table with integer data. -/
def strTable (slots : List (Bucket (List Nat) Int)) (size orig factor : Nat) :
    Table (List Nat) Int :=
  { table := slots, tableSize := size, originalSize := orig, sizeFactor := factor,
    cloneKey := cloneStr, freeKey := freeStr, hfun := strHash, printKeyFun := strPrint,
    printDataFun := intPrint, fcomp := strComp }

/-- The table `createTable 2` returns for the string strategy. -/
def exS0 : Table (List Nat) Int := strTable [emptyBucket, emptyBucket] 2 2 1

/-- `exS0` after the insert of the one-character string `"\n"` with the value 5. -/
def exS1 : Table (List Nat) Int :=
  strTable [{ head := [{ key := [10], data := 5 }], bucketSize := 2, numberOfElements := 1 },
    emptyBucket] 2 2 1

/-- `exS0` after the insert of the string `"-->"` with the value 7. -/
def exS2 : Table (List Nat) Int :=
  strTable [{ head := [{ key := [45, 45, 62], data := 7 }], bucketSize := 2,
              numberOfElements := 1 }, emptyBucket] 2 2 1

/-! ## The machine model: the `int` and `size_t` arithmetic of the code

The functions above take sizes, size factors and hash codes as unbounded integers.  The
functions of this section spell out what the code does with them: the `(int)` casts of the
`size_t` sizes, the `int` arithmetic on size factors and hash codes, the `size_t` product of
`resizeTable`, and the release loop of `setTableBuckets`.  The field `sizeFactor` holds the
32 bit pattern of the `int` of the code, read through `castInt`.  Loops, bucket functions
and printing that involve none of these are shared with the functions above. -/

namespace Machine

/-- `generateHashCode`: the product of two `int`s, reduced to the `int` range. -/
def generateHashCode (pTable : Table K D) (key : K) : Int :=
  wrapInt (castInt pTable.sizeFactor * pTable.hfun key pTable.originalSize)

/-- `updateSizeFactor`: the `int` product, stored as its 32 bit pattern. -/
def updateSizeFactor (pTable : Table K D) : Table K D :=
  { pTable with sizeFactor := (pTable.sizeFactor * RESIZE_FACTOR) % 2 ^ 32 }

/-- The `while` loop of `setTableBuckets`: at most `n` iterations remain; returns the
buckets allocated before the loop ended (their number is `currentIndex`). -/
def setTableBucketsLoop : Nat → Alloc → List (Bucket K D) × Alloc
  | 0, o => ([], o)
  | n + 1, o =>
    match initializeBucket MAX_ROW_ELEMENTS o with
    | (none, o1) => ([], o1)
    | (some pBucket, o1) =>
      match setTableBucketsLoop n o1 with
      | (rest, o2) => (pBucket :: rest, o2)

/-- `setTableBuckets`: the loop runs while `currentIndex < (int) tableSize`.  When it ends
with `currentIndex != (int) tableSize` the function returns `false` (`none`); its release
loop then runs `currentIndex` times on the slot `table[currentIndex]`, which was never
written: with `currentIndex >= 1` the run has undefined behaviour and ends here. -/
def setTableBuckets (tableSize : Nat) (o : Alloc) :
    Exec (Option (List (Bucket K D)) × Alloc) :=
  match setTableBucketsLoop (castInt tableSize).toNat o with
  | (buckets, o1) =>
    if (buckets.length : Int) ≠ castInt tableSize then
      if buckets.length = 0 then .ret (none, o1) else .abort
    else .ret (some buckets, o1)

/-- `initializeTable`.  The slot array is the list of the buckets that were set. -/
def initializeTable (tableSize : Nat) (cloneKey : K → K) (freeKey : K → Unit)
    (hfun : K → Nat → Int) (printKeyFun : K → String) (printDataFun : D → String)
    (fcomp : K → K → Int) (o : Alloc) : Exec (Option (Table K D) × Alloc) :=
  match malloc o with
  | (false, o1) => .ret (none, o1)
  | (true, o1) =>
    match malloc o1 with
    | (false, o2) => .ret (none, o2)
    | (true, o2) =>
      match setTableBuckets tableSize o2 with
      | .ret (some buckets, o3) =>
        .ret (some { table := buckets, tableSize := tableSize, originalSize := tableSize,
                     sizeFactor := INITIAL_SIZE_FACTOR, cloneKey := cloneKey,
                     freeKey := freeKey, hfun := hfun, printKeyFun := printKeyFun,
                     printDataFun := printDataFun, fcomp := fcomp }, o3)
      | .ret (none, o3) => .ret (none, o3)
      | .abort => .abort
      | .timeout => .timeout

/-- `createTable`. -/
def createTable (tableSize : Nat) (cloneKey : Option (K → K)) (freeKey : Option (K → Unit))
    (hfun : Option (K → Nat → Int)) (printKeyFun : Option (K → String))
    (printDataFun : Option (D → String)) (fcomp : Option (K → K → Int)) (o : Alloc) :
    Exec (CreateRet K D) :=
  if tableSize < MINIMAL_TABLE_SIZE then
    .ret { table := none, alloc := o, errs := [TableError.GENERAL_ERROR] }
  else
    match cloneKey, freeKey, hfun, printKeyFun, printDataFun, fcomp with
    | some ck, some fk, some hf, some pk, some pd, some fc =>
      match initializeTable tableSize ck fk hf pk pd fc o with
      | .ret (some pTable, o1) => .ret { table := some pTable, alloc := o1, errs := [] }
      | .ret (none, o1) => .ret { table := none, alloc := o1, errs := [TableError.MEM_OUT] }
      | .abort => .abort
      | .timeout => .timeout
    | _, _, _, _, _, _ =>
      .ret { table := none, alloc := o, errs := [TableError.GENERAL_ERROR] }

/-- The copy loop of `resizeTable`, with its assertion `i * RESIZE_FACTOR < (int) newSize`
on `int`s. -/
def resizeCopyLoop (old : List (Bucket K D)) (newSize : Nat) :
    Nat → Nat → List (Bucket K D) → Exec (List (Bucket K D))
  | 0, _, newTable => .ret newTable
  | n + 1, i, newTable =>
    if ¬ (wrapInt ((i : Int) * (RESIZE_FACTOR : Int)) < castInt newSize) then .abort
    else
      match old[i]? with
      | none => .abort
      | some b =>
        if i * RESIZE_FACTOR < newTable.length then
          resizeCopyLoop old newSize n (i + 1) (newTable.set (i * RESIZE_FACTOR) b)
        else .abort

/-- `resizeTable`: `newSize` is a `size_t` product; the loops run on `(int) newSize` and
`(int) currentSize`. -/
def resizeTable (pTable : Table K D) (o : Alloc) : Exec (Bool × Table K D × Alloc) :=
  let currentSize := pTable.tableSize
  let newSize := (currentSize * RESIZE_FACTOR) % 2 ^ 64
  match malloc o with
  | (false, o1) => .ret (false, pTable, o1)
  | (true, o1) =>
    match setTableBuckets newSize o1 with
    | .ret (none, o2) => .ret (false, pTable, o2)
    | .ret (some fresh, o2) =>
      match resizeCopyLoop pTable.table newSize (castInt currentSize).toNat
          (Int.toNat INITIAL_INDEX) fresh with
      | .ret newTable =>
        .ret (true, { updateSizeFactor { pTable with tableSize := newSize } with
                      table := newTable }, o2)
      | .abort => .abort
      | .timeout => .timeout
    | .abort => .abort
    | .timeout => .timeout

/-- `reachElement`. -/
def reachElement (pTable : Table K D) (arrCell listNode : Int) : Exec (Option (Element K D)) :=
  if ¬ (arrCell ≥ INITIAL_INDEX ∨ arrCell < wrapInt (castInt pTable.tableSize - 1)) then .abort
  else if arrCell < 0 then .abort
  else
    match pTable.table[arrCell.toNat]? with
    | none => .abort
    | some currentBucket =>
      if ¬ (listNode ≥ INITIAL_INDEX) then .abort
      else if listNode ≥ castInt currentBucket.bucketSize then .ret none
      else .ret currentBucket.head[listNode.toNat]?

/-- `findData`.  The arguments `arrCell` and `listNode` are the values the two
out-parameters hold before the call. -/
def findData (table : Option (Table K D)) (key : Option K) (arrCell listNode : Int) :
    Exec (FindRet D) :=
  match table, key with
  | some table, some key =>
    let hashCode := generateHashCode table key
    if hashCode < HASH_CODE_LOWER_BOUND then
      .ret { data := none, arrCell := INVALID_INDEX, listNode := INVALID_INDEX,
             errs := [TableError.GENERAL_ERROR] }
    else if ¬ (hashCode ≤ wrapInt (castInt table.tableSize - 1)) then .abort
    else
      match findDataLoop table key hashCode.toNat (castInt table.sizeFactor).toNat
          (Int.toNat INITIAL_INDEX) with
      | .ret (some (foundData, cell, node)) =>
        .ret { data := some foundData, arrCell := (cell : Int), listNode := (node : Int),
               errs := [] }
      | .ret none =>
        .ret { data := none, arrCell := INVALID_INDEX, listNode := INVALID_INDEX, errs := [] }
      | .abort => .abort
      | .timeout => .timeout
  | _, _ =>
    .ret { data := none, arrCell := arrCell, listNode := listNode,
           errs := [TableError.GENERAL_ERROR] }

/-- `insert`; the first argument bounds the depth of the recursion. -/
def insert : Nat → Option (Table K D) → Option K → Option D → Alloc → Exec (InsertRet K D)
  | 0, _, _, _, _ => .timeout
  | fuel + 1, some table, some key, some object, o =>
    match findData (some table) (some key) INVALID_INDEX INVALID_INDEX with
    | .abort => .abort
    | .timeout => .timeout
    | .ret f =>
      if f.data.isSome ∧ f.arrCell ≠ INVALID_INDEX ∧ f.listNode ≠ INVALID_INDEX then
        match reachElement table f.arrCell f.listNode with
        | .ret (some _) =>
          .ret { ok := true,
                 table := some (writeElementData table f.arrCell.toNat f.listNode.toNat object),
                 alloc := o, errs := f.errs, resizes := 0 }
        | _ => .abort
      else
        let hashCode := generateHashCode table key
        if hashCode < HASH_CODE_LOWER_BOUND then
          .ret { ok := false, table := some table, alloc := o,
                 errs := f.errs ++ [TableError.GENERAL_ERROR], resizes := 0 }
        else if ¬ (hashCode ≤ wrapInt (castInt table.tableSize - 1)) then .abort
        else
          match insertLoop table key object hashCode.toNat o (castInt table.sizeFactor).toNat
              (Int.toNat INITIAL_INDEX) with
          | .abort => .abort
          | .timeout => .timeout
          | .ret (some r) => .ret { r with errs := f.errs ++ r.errs }
          | .ret none =>
            match resizeTable table o with
            | .abort => .abort
            | .timeout => .timeout
            | .ret (true, resized, o1) =>
              match insert fuel (some resized) (some key) (some object) o1 with
              | .ret r => .ret { r with errs := f.errs ++ r.errs, resizes := r.resizes + 1 }
              | .abort => .abort
              | .timeout => .timeout
            | .ret (false, same, o1) =>
              .ret { ok := false, table := some same, alloc := o1,
                     errs := f.errs ++ [TableError.MEM_OUT], resizes := 0 }
  | _ + 1, table, _, _, o =>
    .ret { ok := false, table := table, alloc := o, errs := [TableError.GENERAL_ERROR],
           resizes := 0 }

/-- `removeData`. -/
def removeData (table : Option (Table K D)) (key : Option K) : Exec (RemoveRet K D) :=
  match table, key with
  | some table, some key =>
    match findData (some table) (some key) INVALID_INDEX INVALID_INDEX with
    | .abort => .abort
    | .timeout => .timeout
    | .ret f =>
      if f.data.isSome ∧ f.arrCell ≠ INVALID_INDEX ∧ f.listNode ≠ INVALID_INDEX then
        match table.table[f.arrCell.toNat]? with
        | none => .abort
        | some currentBucket =>
          match bucketRemoveElement currentBucket key table.fcomp with
          | (removedData, newBucket) =>
            .ret { data := removedData,
                   table := some { table with
                                   table := table.table.set f.arrCell.toNat newBucket },
                   errs := f.errs }
      else .ret { data := none, table := some table, errs := f.errs }
  | _, _ => .ret { data := none, table := table, errs := [TableError.GENERAL_ERROR] }

/-- `getDataAt`. -/
def getDataAt (table : Option (Table K D)) (arrCell listNode : Int) :
    Exec (Option D × List TableError) :=
  match table with
  | none => .ret (none, [TableError.GENERAL_ERROR])
  | some table =>
    if listNode < INITIAL_INDEX ∨ arrCell < INITIAL_INDEX
        ∨ arrCell > wrapInt (castInt table.tableSize - 1) then .ret (none, [])
    else
      match reachElement table arrCell listNode with
      | .ret (some pElement) => .ret (some pElement.data, [])
      | .ret none => .ret (none, [])
      | .abort => .abort
      | .timeout => .timeout

/-- `getKeyAt`. -/
def getKeyAt (table : Option (Table K D)) (arrCell listNode : Int) :
    Exec (Option K × List TableError) :=
  match table with
  | none => .ret (none, [TableError.GENERAL_ERROR])
  | some table =>
    if listNode < INITIAL_INDEX ∨ arrCell < INITIAL_INDEX
        ∨ arrCell > wrapInt (castInt table.tableSize - 1) then .ret (none, [])
    else
      match reachElement table arrCell listNode with
      | .ret (some pElement) => .ret (some pElement.key, [])
      | .ret none => .ret (none, [])
      | .abort => .abort
      | .timeout => .timeout

/-- `printTable`: the loop runs while `i < (int) tableSize`. -/
def printTable (table : Option (Table K D)) : Exec (String × List TableError) :=
  match table with
  | none => .ret ("", [TableError.GENERAL_ERROR])
  | some table =>
    match printTableLoop table (castInt table.tableSize).toNat (Int.toNat INITIAL_INDEX) ""
    with
    | .ret out => .ret (out, [])
    | .abort => .abort
    | .timeout => .timeout

/-- `Created n T`: `T` is the table returned by a call of `createTable` with capacity
`n`. -/
def Created (n : Nat) (T : Table K D) : Prop :=
  ∃ ck fk hf pk pd fc o res, createTable n ck fk hf pk pd fc o = .ret res ∧
    res.table = some T

/-- `ReachFrom T0 r T`: the table `T` results from `T0` by a finite sequence of calls of
`insert`, `removeData` and `resizeTable` that returned (with any arguments and any
allocation outcomes, successful or not), during which `resizeTable` returned `true` exactly
`r` times. -/
inductive ReachFrom (T0 : Table K D) : Nat → Table K D → Prop
  | start : ReachFrom T0 0 T0
  | insert {r : Nat} {T T1 : Table K D} {fuel : Nat} {key : Option K} {object : Option D}
      {o : Alloc} {res : InsertRet K D} :
      ReachFrom T0 r T → Machine.insert fuel (some T) key object o = .ret res →
      res.table = some T1 → ReachFrom T0 (r + res.resizes) T1
  | removeData {r : Nat} {T T1 : Table K D} {key : Option K} {res : RemoveRet K D} :
      ReachFrom T0 r T → Machine.removeData (some T) key = .ret res →
      res.table = some T1 → ReachFrom T0 r T1
  | resizeTable {r : Nat} {T T1 : Table K D} {o o1 : Alloc} {ok : Bool} :
      ReachFrom T0 r T → Machine.resizeTable T o = .ret (ok, T1, o1) →
      ReachFrom T0 (r + if ok then 1 else 0) T1

/-- A table reachable from a call of `createTable` whose capacity is at most `INT_MAX`. -/
def Reachable (T : Table K D) : Prop :=
  ∃ (n : Nat) (T0 : Table K D) (r : Nat),
    (n : Int) ≤ INT_MAX ∧ Created n T0 ∧ ReachFrom T0 r T

/-- Run a sequence of `insert` and `removeData` calls, first call first, threading the
table and the allocation oracle.  The flag tells whether every `insert` of the sequence
returned `true`. -/
def runOps (fuel : Nat) : List (Op K D) → Table K D → Alloc →
    Exec (Table K D × Alloc × Bool)
  | [], T, o => .ret (T, o, true)
  | Op.insert key object :: rest, T, o =>
    match Machine.insert fuel (some T) (some key) (some object) o with
    | .ret r =>
      match r.table with
      | some T1 =>
        match runOps fuel rest T1 r.alloc with
        | .ret (T2, o2, flag) => .ret (T2, o2, r.ok && flag)
        | .abort => .abort
        | .timeout => .timeout
      | none => .abort
    | .abort => .abort
    | .timeout => .timeout
  | Op.removeData key :: rest, T, o =>
    match Machine.removeData (some T) (some key) with
    | .ret r =>
      match r.table with
      | some T1 => runOps fuel rest T1 o
      | none => .abort
    | .abort => .abort
    | .timeout => .timeout

end Machine

/-- The capacity of the table fits `int`. -/
def Fits (T : Table K D) : Prop := (T.tableSize : Int) ≤ INT_MAX

/-- The product `sizeFactor * hash` of `generateHashCode` for the key lies in the `int`
range. -/
def NoOverflow (T : Table K D) (k : K) : Prop :=
  INT_MIN ≤ (T.sizeFactor : Int) * T.hfun k T.originalSize ∧
    (T.sizeFactor : Int) * T.hfun k T.originalSize ≤ INT_MAX

/-- The table the code returns for `createTable (2 ^ 61 + 2)` with the integer strategy:
`(int) tableSize` is 2 and two buckets are set. -/
def exBig2 : Table Int Int := intTable [intBucket [], intBucket []] (2 ^ 61 + 2) (2 ^ 61 + 2) 1

/-- `idT0` after a successful `resizeTable`. -/
def idT0r : Table Int Int :=
  { table := [intBucket [], intBucket [], intBucket [], intBucket []], tableSize := 4,
    originalSize := 2, sizeFactor := 2, cloneKey := cloneInt, freeKey := freeInt,
    hfun := idHash, printKeyFun := intPrint, printDataFun := intPrint, fcomp := intComp }

/-- `idT0r` after the insert of the key `INT_MIN` with the value 9. -/
def idT0s : Table Int Int :=
  { table := [intBucket [(-2147483648, 9)], intBucket [], intBucket [], intBucket []],
    tableSize := 4, originalSize := 2, sizeFactor := 2, cloneKey := cloneInt,
    freeKey := freeInt, hfun := idHash, printKeyFun := intPrint, printDataFun := intPrint,
    fcomp := intComp }

/-- The copy loop of `resizeTable` on the heap: the fresh bucket of slot `2 * i` is released
and the slot receives the pointer of the old slot `i`. -/
def resizeCopyLoopHeap (old : List (Option Nat)) :
    Nat → Nat → List (Option Nat) → Heap → Exec (List (Option Nat) × Heap)
  | 0, _, newTable, h => .ret (newTable, h)
  | n + 1, i, newTable, h =>
    match newTable[i * RESIZE_FACTOR]?, old[i]? with
    | some pBucket, some b =>
      match freeBucketHeap pBucket h with
      | .ret h1 =>
        resizeCopyLoopHeap old n (i + 1) (newTable.set (i * RESIZE_FACTOR) b) h1
      | .abort => .abort
      | .timeout => .timeout
    | _, _ => .abort

/-- `resizeTable` on the heap, for a table whose capacity and its double fit `int`.  `table`
is the address of the slot array of the table and `slots` its content; `junk` is what a slot
of the freshly allocated array reads as before it is written.  Returns the flag and the
address and content of the slot array of the table afterwards. -/
def resizeTableHeap (table : Nat) (slots : List (Option Nat)) (currentSize : Nat)
    (junk : Option Nat) (o : Alloc) (h : Heap) :
    Exec (Bool × Nat × List (Option Nat) × Alloc × Heap) :=
  let newSize := currentSize * RESIZE_FACTOR
  match heapMalloc o h with
  | (none, o1, h1) => .ret (false, table, slots, o1, h1)
  | (some newTable, o1, h1) =>
    match setTableBucketsHeap (List.replicate newSize junk) newSize o1 h1 with
    | .ret (true, fresh, o2, h2) =>
      match resizeCopyLoopHeap slots currentSize (Int.toNat INITIAL_INDEX) fresh h2 with
      | .ret (newSlots, h3) => .ret (true, newTable, newSlots, o2, heapFree table h3)
      | .abort => .abort
      | .timeout => .timeout
    | .ret (false, _, o2, h2) => .ret (false, table, slots, o2, heapFree newTable h2)
    | .abort => .abort
    | .timeout => .timeout

/-! ## Basic facts -/

theorem malloc_ok {o : Alloc} (h : AllocOK o) : ∃ o1, malloc o = (true, o1) ∧ AllocOK o1 := by
  cases o with
  | nil => exact ⟨[], rfl, h⟩
  | cons b rest =>
    have hb : b = true := h b (by simp)
    subst hb
    exact ⟨rest, rfl, fun c hc => h c (by simp [hc])⟩

theorem setTableBuckets_some {n : Nat} {o o1 : Alloc} {bs : List (Bucket K D)}
    (h : setTableBuckets n o = (some bs, o1)) : bs = List.replicate n emptyBucket := by
  induction n generalizing o o1 bs with
  | zero => simp [setTableBuckets] at h; simp [h.1.symm]
  | succ n ih =>
    unfold setTableBuckets initializeBucket at h
    rcases hm : malloc o with ⟨b, o2⟩
    rw [hm] at h
    cases b with
    | false => simp at h
    | true =>
      simp only at h
      rcases hs : setTableBuckets (K := K) (D := D) n o2 with ⟨r, o3⟩
      rw [hs] at h
      cases r with
      | none => simp at h
      | some rest =>
        simp only [Prod.mk.injEq, Option.some.injEq] at h
        rw [← h.1, ih hs]
        rfl

theorem setTableBuckets_ok (n : Nat) {o : Alloc} (h : AllocOK o) :
    ∃ o1, setTableBuckets (K := K) (D := D) n o = (some (List.replicate n emptyBucket), o1)
      ∧ AllocOK o1 := by
  induction n generalizing o with
  | zero => exact ⟨o, rfl, h⟩
  | succ n ih =>
    obtain ⟨o2, hm, h2⟩ := malloc_ok h
    obtain ⟨o3, hs, h3⟩ := ih h2
    refine ⟨o3, ?_, h3⟩
    unfold setTableBuckets initializeBucket
    rw [hm]
    simp only
    rw [hs]
    rfl

theorem firstAt_cons_zero (fc : K → K → Int) (k : K) (a e : Element K D) (l : List (Element K D)) :
    FirstAt fc k (a :: l) 0 e ↔ a = e ∧ fc a.key k = 0 := by
  unfold FirstAt
  constructor
  · rintro ⟨h1, h2, -⟩
    simp at h1
    subst h1
    exact ⟨rfl, h2⟩
  · rintro ⟨rfl, h⟩
    exact ⟨by simp, h, fun j e1 hj => absurd hj (Nat.not_lt_zero _)⟩

theorem firstAt_cons_succ (fc : K → K → Int) (k : K) (a e : Element K D) (l : List (Element K D))
    (s : Nat) : FirstAt fc k (a :: l) (s + 1) e ↔ fc a.key k ≠ 0 ∧ FirstAt fc k l s e := by
  unfold FirstAt
  constructor
  · rintro ⟨h1, h2, h3⟩
    refine ⟨h3 0 a (Nat.succ_pos _) (by simp), by simpa using h1, h2, ?_⟩
    intro j e1 hj he
    exact h3 (j + 1) e1 (by omega) (by simpa using he)
  · rintro ⟨ha, h1, h2, h3⟩
    refine ⟨by simpa using h1, h2, ?_⟩
    intro j e1 hj he
    cases j with
    | zero => simp at he; subst he; exact ha
    | succ j => exact h3 j e1 (by omega) (by simpa using he)

theorem bucketFindLoop_none (fc : K → K → Int) (k : K) (l : List (Element K D)) (p : Nat) :
    bucketFindLoop fc k l p = none ↔ NoMatch fc k l := by
  induction l generalizing p with
  | nil => simp [bucketFindLoop, NoMatch]
  | cons a l ih =>
    unfold bucketFindLoop
    by_cases h : fc a.key k = 0
    · simp [h, NoMatch]
    · simp [h, ih, NoMatch]

theorem bucketFindLoop_some (fc : K → K → Int) (k : K) (l : List (Element K D)) (p : Nat)
    (d : D) (q : Nat) :
    bucketFindLoop fc k l p = some (d, q) ↔ ∃ s e, q = p + s ∧ FirstAt fc k l s e ∧ e.data = d := by
  induction l generalizing p with
  | nil => simp [bucketFindLoop, FirstAt]
  | cons a l ih =>
    unfold bucketFindLoop
    by_cases h : fc a.key k = 0
    · simp only [h, if_true, Option.some.injEq, Prod.mk.injEq]
      constructor
      · rintro ⟨rfl, rfl⟩
        exact ⟨0, a, rfl, (firstAt_cons_zero ..).2 ⟨rfl, h⟩, rfl⟩
      · rintro ⟨s, e, rfl, hf, rfl⟩
        cases s with
        | zero =>
          obtain ⟨rfl, -⟩ := (firstAt_cons_zero ..).1 hf
          exact ⟨rfl, rfl⟩
        | succ s => exact absurd h ((firstAt_cons_succ ..).1 hf).1
    · simp only [h, if_false, ih]
      constructor
      · rintro ⟨s, e, rfl, hf, rfl⟩
        exact ⟨s + 1, e, by omega, (firstAt_cons_succ ..).2 ⟨h, hf⟩, rfl⟩
      · rintro ⟨s, e, rfl, hf, rfl⟩
        cases s with
        | zero => exact absurd ((firstAt_cons_zero ..).1 hf).2 h
        | succ s => exact ⟨s, e, by omega, ((firstAt_cons_succ ..).1 hf).2, rfl⟩

theorem bucketFindData_none (b : Bucket K D) (k : K) (fc : K → K → Int) :
    bucketFindData b k fc = none ↔ NoMatch fc k b.head := by
  unfold bucketFindData
  exact bucketFindLoop_none ..

theorem bucketFindData_some (b : Bucket K D) (k : K) (fc : K → K → Int) (d : D) (s : Nat) :
    bucketFindData b k fc = some (d, s) ↔ ∃ e, FirstAt fc k b.head s e ∧ e.data = d := by
  unfold bucketFindData
  rw [bucketFindLoop_some]
  constructor
  · rintro ⟨s1, e, hs, hf, hd⟩
    have : s = s1 := by simpa using hs
    subst this
    exact ⟨e, hf, hd⟩
  · rintro ⟨e, hf, hd⟩
    exact ⟨s, e, by simp, hf, hd⟩

theorem findDataLoop_none (T : Table K D) (k : K) (hc n i : Nat) :
    findDataLoop T k hc n i = .ret none ↔
      ∀ j, j < n → ∃ b, T.table[hc + i + j]? = some b ∧ NoMatch T.fcomp k b.head := by
  induction n generalizing i with
  | zero => simp [findDataLoop]
  | succ n ih =>
    unfold findDataLoop
    cases hb : T.table[hc + i]? with
    | none =>
      simp only [false_iff, reduceCtorEq]
      intro h
      obtain ⟨b, h1, -⟩ := h 0 (Nat.succ_pos _)
      simp [hb] at h1
    | some b =>
      dsimp only
      cases hf : bucketFindData b k T.fcomp with
      | some r =>
        obtain ⟨fd, ln⟩ := r
        simp only [Exec.ret.injEq, false_iff, reduceCtorEq]
        try dsimp only
        intro h
        obtain ⟨b1, h1, h2⟩ := h 0 (Nat.succ_pos _)
        simp only [Nat.add_zero, hb, Option.some.injEq] at h1
        subst h1
        rw [(bucketFindData_none ..).2 h2] at hf
        cases hf
      | none =>
        simp only [ih]
        constructor
        · intro h j hj
          cases j with
          | zero => exact ⟨b, by simpa using hb, (bucketFindData_none ..).1 hf⟩
          | succ j =>
            obtain ⟨b1, h1, h2⟩ := h j (by omega)
            exact ⟨b1, by rw [← h1]; congr 1; omega, h2⟩
        · intro h j hj
          obtain ⟨b1, h1, h2⟩ := h (j + 1) (by omega)
          exact ⟨b1, by rw [← h1]; congr 1; omega, h2⟩

theorem findDataLoop_some (T : Table K D) (k : K) (hc n i : Nat) (d : D) (c s : Nat) :
    findDataLoop T k hc n i = .ret (some (d, c, s)) ↔
      ∃ j, j < n ∧ c = hc + i + j ∧
        (∀ j1, j1 < j → ∃ b, T.table[hc + i + j1]? = some b ∧ NoMatch T.fcomp k b.head) ∧
        ∃ b e, T.table[c]? = some b ∧ FirstAt T.fcomp k b.head s e ∧ e.data = d := by
  induction n generalizing i with
  | zero => simp [findDataLoop]
  | succ n ih =>
    unfold findDataLoop
    cases hb : T.table[hc + i]? with
    | none =>
      simp only [false_iff, reduceCtorEq]
      rintro ⟨j, -, rfl, h1, b, e, h2, -⟩
      cases j with
      | zero => simp [hb] at h2
      | succ j =>
        obtain ⟨b1, h3, -⟩ := h1 0 (Nat.succ_pos _)
        simp [hb] at h3
    | some b =>
      dsimp only
      cases hf : bucketFindData b k T.fcomp with
      | some r =>
        obtain ⟨fd, ln⟩ := r
        simp only [Exec.ret.injEq, Option.some.injEq, Prod.mk.injEq]
        constructor
        · rintro ⟨rfl, rfl, rfl⟩
          obtain ⟨e, he, hd⟩ := (bucketFindData_some ..).1 hf
          exact ⟨0, Nat.succ_pos _, rfl, fun j1 hj1 => absurd hj1 (Nat.not_lt_zero _),
            b, e, hb, he, hd⟩
        · rintro ⟨j, -, rfl, h1, b1, e, h2, h3, h4⟩
          cases j with
          | zero =>
            simp only [Nat.add_zero, hb, Option.some.injEq] at h2
            subst h2
            have := (bucketFindData_some b k T.fcomp d s).2 ⟨e, h3, h4⟩
            rw [hf] at this
            simp only [Option.some.injEq, Prod.mk.injEq] at this
            exact ⟨this.1, rfl, this.2⟩
          | succ j =>
            obtain ⟨b2, h5, h6⟩ := h1 0 (Nat.succ_pos _)
            simp only [Nat.add_zero, hb, Option.some.injEq] at h5
            subst h5
            rw [(bucketFindData_none ..).2 h6] at hf
            cases hf
      | none =>
        simp only [ih]
        have hnm := (bucketFindData_none ..).1 hf
        constructor
        · rintro ⟨j, hj, rfl, h1, h2⟩
          refine ⟨j + 1, by omega, by omega, ?_, h2⟩
          intro j1 hj1
          cases j1 with
          | zero => exact ⟨b, by simpa using hb, hnm⟩
          | succ j1 =>
            obtain ⟨b1, h3, h4⟩ := h1 j1 (by omega)
            exact ⟨b1, by rw [← h3]; congr 1; omega, h4⟩
        · rintro ⟨j, hj, rfl, h1, b1, e, h2, h3, h4⟩
          cases j with
          | zero =>
            simp only [Nat.add_zero, hb, Option.some.injEq] at h2
            subst h2
            exact absurd h3.2.1 (hnm e (List.mem_iff_getElem?.2 ⟨s, h3.1⟩))
          | succ j =>
            refine ⟨j, by omega, by omega, ?_, b1, e, h2, h3, h4⟩
            intro j1 hj1
            obtain ⟨b2, h5, h6⟩ := h1 (j1 + 1) (by omega)
            exact ⟨b2, by rw [← h5]; congr 1; omega, h6⟩

theorem hash_bounds {T : Table K D} {k : K} (hw : WF T) (hv : ValidHash T k) :
    0 ≤ generateHashCode T k ∧ generateHashCode T k ≤ (T.tableSize : Int) - 1 ∧
      windowStart T k + T.sizeFactor ≤ T.table.length ∧
      (windowStart T k : Int) = generateHashCode T k := by
  obtain ⟨h0, h1⟩ := hv
  unfold windowStart generateHashCode
  obtain ⟨hn, hh⟩ := Int.eq_ofNat_of_zero_le h0
  rw [hh] at h1 ⊢
  have h2 : hn + 1 ≤ T.originalSize := by omega
  have h3 : T.sizeFactor * (hn + 1) ≤ T.sizeFactor * T.originalSize := Nat.mul_le_mul_left _ h2
  have h4 : T.tableSize = T.sizeFactor * T.originalSize := by rw [hw.size, Nat.mul_comm]
  have h5 : ((T.sizeFactor : Int) * (hn : Int)) = ((T.sizeFactor * hn : Nat) : Int) := by
    push_cast; rfl
  have h6 := hw.sf
  rw [h5, Int.toNat_ofNat, hw.len, h4]
  refine ⟨by positivity, ?_, ?_, rfl⟩
  · have : T.sizeFactor * hn + 1 ≤ T.sizeFactor * T.originalSize := by
      rw [Nat.mul_succ] at h3; omega
    omega
  · rw [Nat.mul_succ] at h3; exact h3

theorem findDataLoop_total (T : Table K D) (k : K) (hc n i : Nat)
    (h : hc + i + n ≤ T.table.length) : ∃ r, findDataLoop T k hc n i = .ret r := by
  induction n generalizing i with
  | zero => exact ⟨none, rfl⟩
  | succ n ih =>
    unfold findDataLoop
    have hlt : hc + i < T.table.length := by omega
    rw [List.getElem?_eq_getElem hlt]
    dsimp only
    cases hf : bucketFindData T.table[hc + i] k T.fcomp with
    | some r => obtain ⟨fd, ln⟩ := r; exact ⟨_, rfl⟩
    | none => exact ih (i + 1) (by omega)

theorem findData_eq_error {T : Table K D} {k : K} (a l : Int)
    (h0 : generateHashCode T k < 0) :
    findData (some T) (some k) a l =
      .ret { data := none, arrCell := INVALID_INDEX, listNode := INVALID_INDEX,
             errs := [TableError.GENERAL_ERROR] } := by
  unfold findData
  simp only [h0, if_true]

/-- The three ways in which `findData` returns. -/
theorem findData_cases {T : Table K D} {k : K} {a l : Int} {f : FindRet D}
    (h : findData (some T) (some k) a l = .ret f) :
    (generateHashCode T k < 0 ∧
      f = { data := none, arrCell := INVALID_INDEX, listNode := INVALID_INDEX,
            errs := [TableError.GENERAL_ERROR] }) ∨
    (0 ≤ generateHashCode T k ∧ generateHashCode T k ≤ (T.tableSize : Int) - 1 ∧ Absent T k ∧
      f = { data := none, arrCell := INVALID_INDEX, listNode := INVALID_INDEX, errs := [] }) ∨
    (0 ≤ generateHashCode T k ∧ generateHashCode T k ≤ (T.tableSize : Int) - 1 ∧
      ∃ d c s, FoundAt T k d c s ∧
        f = { data := some d, arrCell := (c : Int), listNode := (s : Int), errs := [] }) := by
  by_cases h0 : generateHashCode T k < 0
  · left
    rw [findData_eq_error a l h0] at h
    exact ⟨h0, (Exec.ret.inj h).symm⟩
  · right
    have h0' : 0 ≤ generateHashCode T k := not_lt.1 h0
    by_cases h1 : generateHashCode T k ≤ (T.tableSize : Int) - 1
    · unfold findData at h
      simp only [h0, if_false, h1, not_true_eq_false, Int.toNat_zero] at h
      cases hl : findDataLoop T k (generateHashCode T k).toNat T.sizeFactor 0 with
      | abort => rw [hl] at h; cases h
      | timeout => rw [hl] at h; cases h
      | ret r =>
        rw [hl] at h
        cases r with
        | none =>
          left
          refine ⟨h0', h1, ?_, (Exec.ret.inj h).symm⟩
          intro c hc1 hc2
          unfold windowStart at hc1 hc2
          have := (findDataLoop_none ..).1 hl (c - (generateHashCode T k).toNat) (by omega)
          rw [show (generateHashCode T k).toNat + 0 + (c - (generateHashCode T k).toNat) = c
            by omega] at this
          exact this
        | some r =>
          obtain ⟨d, c, s⟩ := r
          right
          refine ⟨h0', h1, d, c, s, ?_, (Exec.ret.inj h).symm⟩
          obtain ⟨j, hj, hc, hb, hat⟩ := (findDataLoop_some ..).1 hl
          refine ⟨by unfold windowStart; omega, by unfold windowStart; omega, ?_, hat⟩
          intro c1 hc1 hc2
          unfold windowStart at hc1
          have := hb (c1 - (generateHashCode T k).toNat) (by omega)
          rw [show (generateHashCode T k).toNat + 0 + (c1 - (generateHashCode T k).toNat) = c1
            by omega] at this
          exact this
    · unfold findData at h
      simp only [h0, if_false, h1, not_false_eq_true, if_true] at h
      cases h

/-- In a well-formed table the search of a key with a valid hash returns. -/
theorem findData_total {T : Table K D} {k : K} (a l : Int) (hw : WF T) (hv : ValidHash T k) :
    (Absent T k ∧ findData (some T) (some k) a l =
      .ret { data := none, arrCell := INVALID_INDEX, listNode := INVALID_INDEX, errs := [] }) ∨
    (∃ d c s, FoundAt T k d c s ∧ findData (some T) (some k) a l =
      .ret { data := some d, arrCell := (c : Int), listNode := (s : Int), errs := [] }) := by
  obtain ⟨h0, h1, h2, -⟩ := hash_bounds hw hv
  obtain ⟨r, hr⟩ := findDataLoop_total T k (windowStart T k) T.sizeFactor 0 (by omega)
  have hex : ∃ f, findData (some T) (some k) a l = .ret f := by
    unfold findData
    simp only [not_lt.2 h0, if_false, h1, not_true_eq_false, Int.toNat_zero]
    unfold windowStart at hr
    rw [hr]
    cases r with
    | none => exact ⟨_, rfl⟩
    | some r => obtain ⟨d, c, s⟩ := r; exact ⟨_, rfl⟩
  obtain ⟨f, hf⟩ := hex
  rcases findData_cases hf with ⟨hneg, -⟩ | ⟨-, -, habs, rfl⟩ | ⟨-, -, d, c, s, hfound, rfl⟩
  · omega
  · exact Or.inl ⟨habs, hf⟩
  · exact Or.inr ⟨d, c, s, hfound, hf⟩

theorem sameFns_refl (T : Table K D) : SameFns T T := ⟨rfl, rfl, rfl, rfl, rfl, rfl⟩

theorem sameFns_trans {T T1 T2 : Table K D} (h1 : SameFns T T1) (h2 : SameFns T1 T2) :
    SameFns T T2 := by
  unfold SameFns at *
  refine ⟨?_, ?_, ?_, ?_, ?_, ?_⟩
  · rw [h2.1, h1.1]
  · rw [h2.2.1, h1.2.1]
  · rw [h2.2.2.1, h1.2.2.1]
  · rw [h2.2.2.2.1, h1.2.2.2.1]
  · rw [h2.2.2.2.2.1, h1.2.2.2.2.1]
  · rw [h2.2.2.2.2.2, h1.2.2.2.2.2]

theorem resizeCopyLoop_spec (old : List (Bucket K D)) (ns n i : Nat) (nt res : List (Bucket K D))
    (h : resizeCopyLoop old ns n i nt = .ret res) :
    res.length = nt.length ∧ (∀ j, i ≤ j → j < i + n → res[j * 2]? = old[j]?) ∧
      (∀ c, (∀ j, i ≤ j → j < i + n → c ≠ j * 2) → res[c]? = nt[c]?) := by
  induction n generalizing i nt with
  | zero =>
    simp only [resizeCopyLoop, Exec.ret.injEq] at h
    subst h
    exact ⟨rfl, fun j h1 h2 => by omega, fun c _ => rfl⟩
  | succ n ih =>
    unfold resizeCopyLoop at h
    by_cases h1 : i * RESIZE_FACTOR < ns
    · simp only [h1, not_true_eq_false, if_false] at h
      cases hb : old[i]? with
      | none => rw [hb] at h; cases h
      | some b =>
        rw [hb] at h
        dsimp only at h
        by_cases h2 : i * RESIZE_FACTOR < nt.length
        · simp only [h2, if_true] at h
          obtain ⟨q1, q2, q3⟩ := ih (i + 1) _ h
          refine ⟨by rw [q1, List.length_set], ?_, ?_⟩
          · intro j hj1 hj2
            by_cases hji : j = i
            · subst hji
              rw [q3 (j * 2) (fun j1 a1 a2 => by omega), hb]
              exact List.getElem?_set_self h2
            · exact q2 j (by omega) (by omega)
          · intro c hc
            rw [q3 c (fun j a1 a2 => hc j (by omega) (by omega))]
            exact List.getElem?_set_ne (Ne.symm (hc i (le_refl _) (by omega)))
        · simp only [h2, if_false] at h
          cases h
    · simp only [h1, not_false_eq_true, if_true] at h
      cases h

theorem resizeTable_true {T T1 : Table K D} {o o1 : Alloc}
    (h : resizeTable T o = .ret (true, T1, o1)) : Doubled T T1 := by
  unfold resizeTable at h
  dsimp only at h
  rcases hm : malloc o with ⟨b, o2⟩
  rw [hm] at h
  cases b with
  | false => simp at h
  | true =>
    dsimp only at h
    rcases hs : setTableBuckets (K := K) (D := D) (T.tableSize * RESIZE_FACTOR) o2 with ⟨r, o3⟩
    rw [hs] at h
    cases r with
    | none => simp at h
    | some fresh =>
      dsimp only at h
      have hfresh := setTableBuckets_some hs
      cases hl : resizeCopyLoop T.table (T.tableSize * RESIZE_FACTOR) T.tableSize 0 fresh with
      | abort => rw [hl] at h; cases h
      | timeout => rw [hl] at h; cases h
      | ret nt =>
        rw [hl] at h
        simp only [Exec.ret.injEq, Prod.mk.injEq, true_and] at h
        obtain ⟨q1, q2, q3⟩ := resizeCopyLoop_spec _ _ _ _ _ _ hl
        rw [← h.1]
        refine ⟨rfl, rfl, rfl, sameFns_refl _, ?_, ?_⟩
        · show nt.length = _
          rw [q1, hfresh, List.length_replicate]
        · intro j hj
          refine ⟨q2 j (Nat.zero_le _) (by omega), ?_⟩
          show nt[j * 2 + 1]? = _
          rw [q3 (j * 2 + 1) (fun j1 _ _ => by omega), hfresh, List.getElem?_replicate]
          have : j * 2 + 1 < T.tableSize * RESIZE_FACTOR := by show _ < T.tableSize * 2; omega
          simp only [this, if_true]

theorem emptyBucket_ok : BucketOK (emptyBucket : Bucket K D) := by
  refine ⟨rfl, ?_, rfl⟩
  show 0 ≤ 2
  omega

theorem doubled_wf {T T1 : Table K D} (hd : Doubled T T1) (hw : WF T) : WF T1 := by
  obtain ⟨d1, d2, d3, -, d5, d6⟩ := hd
  refine ⟨?_, by rw [d5, d1], by rw [d3]; exact hw.orig, by rw [d2]; have := hw.sf; omega, ?_⟩
  · rw [d1, d2, d3, hw.size, Nat.mul_assoc]
  · intro b hb
    obtain ⟨c, hc⟩ := List.mem_iff_getElem?.1 hb
    have hlt : c < T.tableSize * 2 := by
      rw [← d5]
      by_contra hge
      rw [List.getElem?_eq_none (not_lt.1 hge)] at hc
      cases hc
    obtain ⟨e1, e2⟩ := d6 (c / 2) (by omega)
    rcases Nat.mod_two_eq_zero_or_one c with hm | hm
    · rw [show c / 2 * 2 = c by omega, hc] at e1
      exact hw.bucket b (List.mem_iff_getElem?.2 ⟨c / 2, e1.symm⟩)
    · rw [show c / 2 * 2 + 1 = c by omega, hc] at e2
      cases e2
      exact emptyBucket_ok

theorem wf_set {T : Table K D} {c : Nat} {b1 : Bucket K D} (hw : WF T) (hb : BucketOK b1) :
    WF { T with table := T.table.set c b1 } := by
  refine ⟨hw.size, by rw [← hw.len]; exact List.length_set .., hw.orig, hw.sf, ?_⟩
  intro b hm
  obtain ⟨j, hj⟩ := List.mem_iff_getElem?.1 hm
  simp only [List.getElem?_set] at hj
  by_cases hcj : c = j
  · simp only [hcj, if_true] at hj
    split at hj
    · cases hj; exact hb
    · cases hj
  · simp only [hcj, if_false] at hj
    exact hw.bucket b (List.mem_iff_getElem?.2 ⟨j, hj⟩)

theorem wf_bucket {T : Table K D} {c : Nat} {b : Bucket K D} (hw : WF T)
    (hb : T.table[c]? = some b) : BucketOK b :=
  hw.bucket b (List.mem_iff_getElem?.2 ⟨c, hb⟩)

theorem lt_length_of_getElem? {α : Type} {l : List α} {i : Nat} {a : α} (h : l[i]? = some a) :
    i < l.length := by
  by_contra hge
  rw [List.getElem?_eq_none (not_lt.1 hge)] at h
  cases h

theorem placed_wf {T : Table K D} {k : K} {v : D} {c : Nat} {b : Bucket K D} (hw : WF T)
    (hb : T.table[c]? = some b) (hroom : b.numberOfElements < b.bucketSize) :
    WF (placed T k v c b) := by
  obtain ⟨b1, b2, b3⟩ := wf_bucket hw hb
  refine wf_set hw ⟨?_, ?_, b3⟩
  · simp only [List.length_append, List.length_singleton, b1]
  · exact hroom

theorem writeElementData_wf {T : Table K D} (c s : Nat) (v : D) (hw : WF T) :
    WF (writeElementData T c s v) := by
  unfold writeElementData
  cases hb : T.table[c]? with
  | none => exact hw
  | some b =>
    dsimp only
    cases he : b.head[s]? with
    | none => exact hw
    | some e =>
      obtain ⟨b1, b2, b3⟩ := wf_bucket hw hb
      exact wf_set hw ⟨by simp only [List.length_set, b1], b2, b3⟩

theorem firstAt_or_noMatch (fc : K → K → Int) (k : K) (l : List (Element K D)) :
    NoMatch fc k l ∨ ∃ s e, FirstAt fc k l s e := by
  cases h : bucketFindLoop fc k l 0 with
  | none => exact Or.inl ((bucketFindLoop_none ..).1 h)
  | some r =>
    obtain ⟨d, q⟩ := r
    obtain ⟨s, e, -, hf, -⟩ := (bucketFindLoop_some ..).1 h
    exact Or.inr ⟨s, e, hf⟩

theorem bucketRemoveLoop_of_noMatch (fc : K → K → Int) (k : K) (l : List (Element K D))
    (h : NoMatch fc k l) : bucketRemoveLoop fc k l = (none, l) := by
  induction l with
  | nil => rfl
  | cons a l ih =>
    unfold bucketRemoveLoop
    have ha : fc a.key k ≠ 0 := h a (by simp)
    simp only [ha, if_false]
    rw [ih (fun e he => h e (by simp [he]))]

theorem bucketRemoveLoop_of_firstAt (fc : K → K → Int) (k : K) (l : List (Element K D))
    (s : Nat) (e : Element K D) (h : FirstAt fc k l s e) :
    bucketRemoveLoop fc k l = (some e.data, l.eraseIdx s) := by
  induction l generalizing s with
  | nil => simp [FirstAt] at h
  | cons a l ih =>
    unfold bucketRemoveLoop
    cases s with
    | zero =>
      obtain ⟨rfl, ha⟩ := (firstAt_cons_zero ..).1 h
      simp only [ha, if_true, List.eraseIdx_cons_zero]
    | succ s =>
      obtain ⟨ha, hf⟩ := (firstAt_cons_succ ..).1 h
      simp only [ha, if_false, ih s hf, List.eraseIdx_cons_succ]

theorem firstAt_lt {fc : K → K → Int} {k : K} {l : List (Element K D)} {s : Nat}
    {e : Element K D} (h : FirstAt fc k l s e) : s < l.length :=
  lt_length_of_getElem? h.1

theorem insertAt_cases {T : Table K D} {k : K} {v : D} {c : Nat} {b : Bucket K D} {o : Alloc}
    {r : InsertRet K D} (hroom : b.numberOfElements < b.bucketSize)
    (h : insertAt T k v c b o = .ret r) :
    (r.ok = true ∧ r.table = some (placed T k v c b) ∧ r.errs = [] ∧ r.resizes = 0) ∨
    (r.ok = false ∧ r.table = some T ∧ r.errs = [TableError.MEM_OUT] ∧ r.resizes = 0) := by
  unfold insertAt at h
  rcases hm : malloc o with ⟨b1, o1⟩
  rw [hm] at h
  cases b1 with
  | false =>
    dsimp only at h
    rw [← Exec.ret.inj h]
    exact Or.inr ⟨rfl, rfl, rfl, rfl⟩
  | true =>
    dsimp only at h
    unfold bucketInsertElement initializeElement at h
    rcases hm2 : malloc o1 with ⟨b2, o2⟩
    rw [hm2] at h
    cases b2 with
    | false =>
      dsimp only at h
      rw [← Exec.ret.inj h]
      exact Or.inr ⟨rfl, rfl, rfl, rfl⟩
    | true =>
      simp only [hroom, if_true] at h
      rw [← Exec.ret.inj h]
      exact Or.inl ⟨rfl, rfl, rfl, rfl⟩

theorem insertLoop_some (T : Table K D) (k : K) (v : D) (hc : Nat) (o : Alloc) (n i : Nat)
    (r : InsertRet K D) :
    insertLoop T k v hc o n i = .ret (some r) ↔
      ∃ j b, j < n ∧ T.table[hc + i + j]? = some b ∧ b.numberOfElements < b.bucketSize ∧
        (∀ j1, j1 < j → ∃ b1, T.table[hc + i + j1]? = some b1 ∧
          ¬ b1.numberOfElements < b1.bucketSize) ∧
        insertAt T k v (hc + i + j) b o = .ret r := by
  induction n generalizing i with
  | zero => simp [insertLoop]
  | succ n ih =>
    unfold insertLoop
    cases hb : T.table[hc + i]? with
    | none =>
      simp only [false_iff, reduceCtorEq]
      rintro ⟨j, b, -, h2, -, h1, -⟩
      cases j with
      | zero => simp [hb] at h2
      | succ j =>
        obtain ⟨b1, h3, -⟩ := h1 0 (Nat.succ_pos _)
        simp [hb] at h3
    | some b =>
      dsimp only
      by_cases hroom : b.numberOfElements < b.bucketSize
      · simp only [hroom, if_true]
        constructor
        · intro h
          refine ⟨0, b, Nat.succ_pos _, hb, hroom, fun j1 hj1 => absurd hj1 (Nat.not_lt_zero _), ?_⟩
          cases hi : insertAt T k v (hc + i) b o with
          | ret r1 =>
            rw [hi] at h
            simp only [Exec.ret.injEq, Option.some.injEq] at h
            subst h
            exact hi
          | abort => rw [hi] at h; cases h
          | timeout => rw [hi] at h; cases h
        · rintro ⟨j, b1, -, h2, -, h1, h3⟩
          cases j with
          | zero =>
            simp only [Nat.add_zero, hb, Option.some.injEq] at h2
            subst h2
            rw [Nat.add_zero] at h3
            rw [h3]
          | succ j =>
            obtain ⟨b2, h5, h6⟩ := h1 0 (Nat.succ_pos _)
            simp only [Nat.add_zero, hb, Option.some.injEq] at h5
            subst h5
            exact absurd hroom h6
      · simp only [hroom, if_false, ih]
        constructor
        · rintro ⟨j, b1, hj, h2, h3, h1, h4⟩
          refine ⟨j + 1, b1, by omega, by rw [← h2]; congr 1; omega, h3, ?_,
            by rw [← h4]; congr 1; omega⟩
          intro j1 hj1
          cases j1 with
          | zero => exact ⟨b, by simpa using hb, hroom⟩
          | succ j1 =>
            obtain ⟨b2, h5, h6⟩ := h1 j1 (by omega)
            exact ⟨b2, by rw [← h5]; congr 1; omega, h6⟩
        · rintro ⟨j, b1, hj, h2, h3, h1, h4⟩
          cases j with
          | zero =>
            simp only [Nat.add_zero, hb, Option.some.injEq] at h2
            subst h2
            exact absurd h3 hroom
          | succ j =>
            refine ⟨j, b1, by omega, by rw [← h2]; congr 1; omega, h3, ?_,
              by rw [← h4]; congr 1; omega⟩
            intro j1 hj1
            obtain ⟨b2, h5, h6⟩ := h1 (j1 + 1) (by omega)
            exact ⟨b2, by rw [← h5]; congr 1; omega, h6⟩

theorem findData_abort {T : Table K D} {k : K} (a l : Int) (h0 : 0 ≤ generateHashCode T k)
    (h1 : ¬ generateHashCode T k ≤ (T.tableSize : Int) - 1) :
    findData (some T) (some k) a l = .abort := by
  unfold findData
  simp only [not_lt.2 h0, if_false, h1, not_false_eq_true, if_true]

theorem stepOK_refl {T : Table K D} (hw : WF T) : StepOK T T 0 :=
  ⟨hw, sameFns_refl T, rfl, by simp, by simp⟩

theorem stepOK_trans {T T1 T2 : Table K D} {r1 r2 : Nat} (h1 : StepOK T T1 r1)
    (h2 : StepOK T1 T2 r2) : StepOK T T2 (r1 + r2) := by
  obtain ⟨-, a2, a3, a4, a5⟩ := h1
  obtain ⟨b1, b2, b3, b4, b5⟩ := h2
  exact ⟨b1, sameFns_trans a2 b2, b3.trans a3, by rw [b4, a4, Nat.mul_assoc, pow_add],
    by rw [b5, a5, Nat.mul_assoc, pow_add]⟩

theorem doubled_stepOK {T T1 : Table K D} (hd : Doubled T T1) (hw : WF T) : StepOK T T1 1 :=
  ⟨doubled_wf hd hw, hd.2.2.2.1, hd.2.2.1, by rw [hd.2.1]; simp, by rw [hd.1]; simp⟩

theorem placed_stepOK {T : Table K D} {k : K} {v : D} {c : Nat} {b : Bucket K D} (hw : WF T)
    (hb : T.table[c]? = some b) (hroom : b.numberOfElements < b.bucketSize) :
    StepOK T (placed T k v c b) 0 :=
  ⟨placed_wf hw hb hroom, sameFns_refl T, rfl, by simp [placed], by simp [placed]⟩

theorem writeElementData_fields (T : Table K D) (c s : Nat) (v : D) :
    SameFns T (writeElementData T c s v) ∧
      (writeElementData T c s v).originalSize = T.originalSize ∧
      (writeElementData T c s v).sizeFactor = T.sizeFactor ∧
      (writeElementData T c s v).tableSize = T.tableSize := by
  unfold writeElementData
  cases T.table[c]? with
  | none => exact ⟨sameFns_refl T, rfl, rfl, rfl⟩
  | some b =>
    dsimp only
    cases b.head[s]? with
    | none => exact ⟨sameFns_refl T, rfl, rfl, rfl⟩
    | some e => exact ⟨sameFns_refl T, rfl, rfl, rfl⟩

theorem writeElementData_stepOK {T : Table K D} (c s : Nat) (v : D) (hw : WF T) :
    StepOK T (writeElementData T c s v) 0 := by
  obtain ⟨h1, h2, h3, h4⟩ := writeElementData_fields T c s v
  exact ⟨writeElementData_wf c s v hw, h1, h2, by simp [h3], by simp [h4]⟩

theorem removed_wf {T : Table K D} {c s : Nat} {b : Bucket K D} (hw : WF T)
    (hb : T.table[c]? = some b) (hs : s < b.head.length) : WF (removed T c s b) := by
  obtain ⟨b1, b2, b3⟩ := wf_bucket hw hb
  refine wf_set hw ⟨?_, ?_, b3⟩
  · simp only [List.length_eraseIdx, hs, if_true, b1]
  · show b.numberOfElements - 1 ≤ b.bucketSize
    omega

theorem removed_stepOK {T : Table K D} {c s : Nat} {b : Bucket K D} (hw : WF T)
    (hb : T.table[c]? = some b) (hs : s < b.head.length) : StepOK T (removed T c s b) 0 :=
  ⟨removed_wf hw hb hs, sameFns_refl T, rfl, by simp [removed], by simp [removed]⟩

theorem reachFrom_trans {T0 T1 T2 : Table K D} {r1 r2 : Nat} (h1 : ReachFrom T0 r1 T1)
    (h2 : ReachFrom T1 r2 T2) : ReachFrom T0 (r1 + r2) T2 := by
  induction h2 with
  | start => exact h1
  | insert _ hi ht ih => rw [← Nat.add_assoc]; exact ih.insert hi ht
  | removeData _ hi ht ih => exact ih.removeData hi ht
  | resizeTable _ hi ih => rw [← Nat.add_assoc]; exact ih.resizeTable hi

theorem reachable_step {T T1 : Table K D} {r : Nat} (h : Reachable T) (h1 : ReachFrom T r T1) :
    Reachable T1 := by
  obtain ⟨n, T0, r0, hc, hr⟩ := h
  exact ⟨n, T0, r0 + r, hc, reachFrom_trans hr h1⟩

theorem exT0_created : Created 2 exT0 :=
  ⟨some cloneInt, some freeInt, some intHash, some intPrint, some intPrint, some intComp, [], rfl⟩

theorem exT1_insert :
    insert 2 (some exT0) (some 543) (some 543) [] =
      .ret { ok := true, table := some exT1, alloc := [], errs := [], resizes := 0 } := by
  rfl

theorem exT2_insert :
    insert 2 (some exT1) (some 6543) (some 6543) [] =
      .ret { ok := true, table := some exT2, alloc := [], errs := [], resizes := 0 } := by
  rfl

theorem exT1_reach : ReachFrom exT0 0 exT1 := ReachFrom.insert .start exT1_insert rfl
theorem exT2_reach : ReachFrom exT0 0 exT2 := ReachFrom.insert exT1_reach exT2_insert rfl
theorem exT2_reachable : Reachable exT2 := ⟨2, exT0, 0, exT0_created, exT2_reach⟩
theorem foundAt_entry {T : Table K D} {k : K} {d : D} {c s : Nat} (h : FoundAt T k d c s) :
    ∃ e, Entry T c s e ∧ T.fcomp e.key k = 0 ∧ e.data = d := by
  obtain ⟨-, -, -, b, e, hb, he, hd⟩ := h
  exact ⟨e, ⟨b, hb, he.1⟩, he.2.1, hd⟩

theorem absent_of_no_entry {T : Table K D} {k : K} (hw : WF T) (hv : ValidHash T k)
    (h : ∀ c s e, Entry T c s e → T.fcomp e.key k ≠ 0) : Absent T k := by
  rcases findData_total INVALID_INDEX INVALID_INDEX hw hv with ⟨ha, -⟩ | ⟨d, c, s, hf, -⟩
  · exact ha
  · obtain ⟨e, hent, hm, -⟩ := foundAt_entry hf
    exact (h c s e hent hm).elim

theorem insertedFresh_size {T T1 : Table K D} {k : K} {v : D} {r : Nat}
    (hi : InsertedFresh T k v T1 r) : T1.tableSize = T.tableSize * 2 ^ r := by
  rcases hi with ⟨c, b, -, rfl, rfl⟩ | ⟨-, T2, hd, rfl, rfl⟩
  · simp [placed]
  · show T2.tableSize = _
    rw [hd.1]
    simp

theorem findData_null {T : Option (Table K D)} {key : Option K} (a l : Int)
    (h : T = none ∨ key = none) :
    findData T key a l =
      .ret { data := none, arrCell := a, listNode := l, errs := [TableError.GENERAL_ERROR] } := by
  rcases h with h | h <;> subst h
  · cases key <;> rfl
  · cases T <;> rfl

theorem hash_neg {T : Table K D} {k : K} (hw : WF T) (h : T.hfun k T.originalSize < 0) :
    generateHashCode T k < 0 := by
  unfold generateHashCode
  have hs : (0 : Int) < T.sizeFactor := by have := hw.sf; omega
  exact Int.mul_neg_of_pos_of_neg hs h

theorem hash_too_large {T : Table K D} {k : K} (hw : WF T)
    (h : (T.originalSize : Int) ≤ T.hfun k T.originalSize) :
    0 ≤ generateHashCode T k ∧ ¬ generateHashCode T k ≤ (T.tableSize : Int) - 1 := by
  unfold generateHashCode
  have hs : (0 : Int) < T.sizeFactor := by have := hw.sf; omega
  have hsz : (T.tableSize : Int) = (T.sizeFactor : Int) * T.originalSize := by
    rw [hw.size]; push_cast; ring
  have h1 : (T.sizeFactor : Int) * T.originalSize ≤ T.sizeFactor * T.hfun k T.originalSize :=
    Int.mul_le_mul_of_nonneg_left h (le_of_lt hs)
  have h2 : (0 : Int) ≤ T.sizeFactor * T.hfun k T.originalSize :=
    Int.mul_nonneg (le_of_lt hs) (le_trans (Int.ofNat_nonneg _) h)
  exact ⟨h2, by omega⟩

theorem insert_abort {T : Table K D} {k : K} (fuel : Nat) (v : D) (o : Alloc)
    (h0 : 0 ≤ generateHashCode T k) (h1 : ¬ generateHashCode T k ≤ (T.tableSize : Int) - 1) :
    insert (fuel + 1) (some T) (some k) (some v) o = .abort := by
  unfold insert
  rw [findData_abort _ _ h0 h1]

theorem removeData_abort {T : Table K D} {k : K}
    (h0 : 0 ≤ generateHashCode T k) (h1 : ¬ generateHashCode T k ≤ (T.tableSize : Int) - 1) :
    removeData (some T) (some k) = .abort := by
  unfold removeData
  dsimp only
  rw [findData_abort _ _ h0 h1]

theorem idT0_created : Created 2 idT0 :=
  ⟨some cloneInt, some freeInt, some idHash, some intPrint, some intPrint, some intComp, [], rfl⟩

theorem idT0_reachable : Reachable idT0 := ⟨2, idT0, 0, idT0_created, .start⟩

/-- C15 is violated by the code: on the reachable table `exT2`, whose only bucket for odd
keys is full, `insert` of the key 3 with an oracle that lets the resize succeed (the slot
array and its four buckets) and then fails the allocation of the key clone returns `false`
having reported `MEM_OUT`, and hands back the doubled table (capacity 4, size factor 2),
not the table of before the call (capacity 2, size factor 1). -/
theorem insert_failure_after_resize_not_atomic :
    Reachable exT2 ∧
      insert 2 (some exT2) (some 3) (some 3) [true, true, true, true, true, false] =
        .ret { ok := false, table := some exT2r, alloc := [], errs := [TableError.MEM_OUT],
               resizes := 1 } ∧
      exT2.tableSize = 2 ∧ exT2.sizeFactor = 1 ∧ exT2r.tableSize = 4 ∧ exT2r.sizeFactor = 2 ∧
      exT2r.table.length = 4 ∧ exT2.table.length = 2 :=
  ⟨exT2_reachable, rfl, rfl, rfl, rfl, rfl, rfl, rfl⟩

/-- C20: concrete scenario, findability.  `createTable 2` with the integer key strategy
(bucket capacity 2, every allocation succeeding) returns a table; inserting the keys
543, 6543, -22, 3, 4, -5, 10, 0 in this order, each with itself as value, every `insert`
returns `true`; in the final table `findData` finds each of the eight keys with the value
it was inserted with, and returns not-found for the keys 5, 32 and 1. -/
theorem driver_scenario_findable :
    createTable 2 (some cloneInt) (some freeInt) (some intHash) (some intPrint)
        (some intPrint) (some intComp) [] =
      { table := some exT0, alloc := [], errs := [] } ∧
    insertArray 2 [543, 6543, -22, 3, 4, -5, 10, 0] exT0 [] =
      .ret ([true, true, true, true, true, true, true, true], exFinal, []) ∧
    findData (some exFinal) (some 543) INVALID_INDEX INVALID_INDEX =
      .ret { data := some 543, arrCell := 2, listNode := 0, errs := [] } ∧
    findData (some exFinal) (some 6543) INVALID_INDEX INVALID_INDEX =
      .ret { data := some 6543, arrCell := 2, listNode := 1, errs := [] } ∧
    findData (some exFinal) (some (-22)) INVALID_INDEX INVALID_INDEX =
      .ret { data := some (-22), arrCell := 0, listNode := 0, errs := [] } ∧
    findData (some exFinal) (some 3) INVALID_INDEX INVALID_INDEX =
      .ret { data := some 3, arrCell := 3, listNode := 0, errs := [] } ∧
    findData (some exFinal) (some 4) INVALID_INDEX INVALID_INDEX =
      .ret { data := some 4, arrCell := 0, listNode := 1, errs := [] } ∧
    findData (some exFinal) (some (-5)) INVALID_INDEX INVALID_INDEX =
      .ret { data := some (-5), arrCell := 3, listNode := 1, errs := [] } ∧
    findData (some exFinal) (some 10) INVALID_INDEX INVALID_INDEX =
      .ret { data := some 10, arrCell := 1, listNode := 0, errs := [] } ∧
    findData (some exFinal) (some 0) INVALID_INDEX INVALID_INDEX =
      .ret { data := some 0, arrCell := 1, listNode := 1, errs := [] } ∧
    findData (some exFinal) (some 5) INVALID_INDEX INVALID_INDEX =
      .ret { data := none, arrCell := -1, listNode := -1, errs := [] } ∧
    findData (some exFinal) (some 32) INVALID_INDEX INVALID_INDEX =
      .ret { data := none, arrCell := -1, listNode := -1, errs := [] } ∧
    findData (some exFinal) (some 1) INVALID_INDEX INVALID_INDEX =
      .ret { data := none, arrCell := -1, listNode := -1, errs := [] } :=
  ⟨rfl, rfl, rfl, rfl, rfl, rfl, rfl, rfl, rfl, rfl, rfl, rfl, rfl⟩

/-- C21, counterexample: after the first four keys of the driver (543, 6543, -22, 3) have
been inserted into the capacity-2 table, the capacity is 4 and not 2. -/
theorem capacity_four_after_four_keys :
    insertArray 2 [543, 6543, -22, 3] exT0 [] = .ret ([true, true, true, true], exT3b, []) ∧
      exT3b.tableSize = 4 ∧ exT3b.tableSize ≠ 2 :=
  ⟨rfl, rfl, by decide⟩

/-- C21 (amended): concrete scenario, moment of the doubling.  In the scenario of a
capacity-2 integer-key table with bucket capacity 2 receiving the keys 543, 6543, -22, 3, 4,
-5, 10, 0 in this order, the capacity doubles at the 4th key: it is still 2 after the first
three keys (543, 6543, -22), it becomes 4 during the insertion of the fourth key (3), whose
1-wide window (slot 1, holding 543 and 6543) has no free bucket, and no other insert of the
sequence changes the capacity. -/
theorem doubling_at_fourth_key :
    exT0.tableSize = 2 ∧
    insertSizes 2 [543, 6543, -22, 3, 4, -5, 10, 0] exT0 [] = .ret [2, 2, 2, 4, 4, 4, 4, 4] ∧
    insertArray 2 [543, 6543, -22] exT0 [] = .ret ([true, true, true], exT2b, []) ∧
    exT2b.sizeFactor = 1 ∧ windowStart exT2b 3 = 1 ∧ WindowFull exT2b 3 ∧
    insert 2 (some exT2b) (some 3) (some 3) [] =
      .ret { ok := true, table := some exT3b, alloc := [], errs := [], resizes := 1 } ∧
    exT3b.tableSize = 4 := by
  refine ⟨rfl, rfl, rfl, rfl, rfl, ?_, rfl, rfl⟩
  intro c h1 h2
  have hw : windowStart exT2b 3 = 1 := rfl
  have hs : exT2b.sizeFactor = 1 := rfl
  rw [hw] at h1 h2
  rw [hs] at h2
  have hc : c = 1 := by omega
  subst hc
  exact ⟨_, rfl, by decide⟩

/-- The truncating remainder by a positive divisor: it differs from the dividend by a
multiple of the divisor, has the sign of the dividend and is smaller than the divisor in
absolute value. -/
theorem tmod_pos_divisor (x n : Int) (hn : 0 < n) :
    (∃ q, x = n * q + Int.tmod x n) ∧ -n < Int.tmod x n ∧ Int.tmod x n < n ∧
      (0 ≤ x → 0 ≤ Int.tmod x n) ∧ (x ≤ 0 → Int.tmod x n ≤ 0) := by
  have hlt : ∀ y : Int, Int.tmod y n < n := fun y => Int.tmod_lt_of_pos y hn
  have hneg : Int.tmod (-x) n = -(Int.tmod x n) := by
    rw [Int.tmod_def, Int.tmod_def, Int.neg_tdiv]
    ring
  refine ⟨⟨x.tdiv n, (Int.tdiv_add_tmod x n).symm⟩, ?_, hlt x, fun h => Int.tmod_nonneg n h, ?_⟩
  · rcases le_total 0 x with h | h
    · have := Int.tmod_nonneg n h
      omega
    · have h1 := hlt (-x)
      rw [hneg] at h1
      omega
  · intro h
    have h1 : 0 ≤ Int.tmod (-x) n := Int.tmod_nonneg n (by omega)
    rw [hneg] at h1
    omega

theorem castInt_small {n : Nat} (h : (n : Int) ≤ INT_MAX) : castInt n = (n : Int) := by
  have h1 : n < 2 ^ 31 := by
    have : (n : Int) < 2 ^ 31 := by
      show (n : Int) < 2147483648
      have : (n : Int) ≤ 2147483647 := h
      omega
    exact_mod_cast this
  have h2 : n % 2 ^ 32 = n := Nat.mod_eq_of_lt (by omega)
  unfold castInt
  rw [h2, if_pos h1]

/-- C25: integer hash is the mathematical modulus.  For every `int` key value `x`
(`INT_MIN <= x <= INT_MAX`) and every table size `n` with `1 <= n <= INT_MAX`: the cast
`(int) n` is `n`; `intFcn(&x, n)` is `x mod n`, the unique `r` with `0 <= r <= n - 1` that
is congruent to `x` modulo `n`; the truncating remainder lies in the `int` range, and so
does the sum `remainder + n` that corrects a negative remainder (no overflow).  For an
absent (NULL) key `intFcn` returns `-1`. -/
theorem intFcn_is_modulus (x : Int) (n : Nat) (hx : INT_MIN ≤ x ∧ x ≤ INT_MAX)
    (hn : 1 ≤ n ∧ (n : Int) ≤ INT_MAX) :
    castInt n = (n : Int) ∧
    intFcn (some x) n = x % (n : Int) ∧
    0 ≤ intFcn (some x) n ∧ intFcn (some x) n ≤ (n : Int) - 1 ∧
    (n : Int) ∣ intFcn (some x) n - x ∧
    (∀ r : Int, 0 ≤ r → r ≤ (n : Int) - 1 → (n : Int) ∣ r - x → r = intFcn (some x) n) ∧
    (INT_MIN ≤ Int.tmod x (castInt n) ∧ Int.tmod x (castInt n) ≤ INT_MAX) ∧
    (Int.tmod x (castInt n) < 0 →
      INT_MIN ≤ Int.tmod x (castInt n) + castInt n ∧
        Int.tmod x (castInt n) + castInt n ≤ INT_MAX) ∧
    intFcn none n = -1 := by
  obtain ⟨hx0, hx1⟩ := hx
  obtain ⟨hn0, hn1⟩ := hn
  have hc := castInt_small hn1
  have hpos : (0 : Int) < (n : Int) := by omega
  obtain ⟨⟨q, hq⟩, t0, t1, -, -⟩ := tmod_pos_divisor x n hpos
  have hmax : INT_MAX = 2147483647 := rfl
  have hmin : INT_MIN = -2147483648 := rfl
  -- the value of the function
  have hval : intFcn (some x) n =
      if Int.tmod x (n : Int) < 0 then Int.tmod x (n : Int) + (n : Int)
      else Int.tmod x (n : Int) := by
    unfold intFcn
    simp only [hc]
  -- it is the modulus
  have hmod : intFcn (some x) n = x % (n : Int) := by
    rw [hval]
    have hxm : x % (n : Int) = Int.tmod x (n : Int) % (n : Int) := by
      conv => lhs; rw [hq]
      rw [Int.add_comm, Int.add_mul_emod_self_left]
    by_cases hlt : Int.tmod x (n : Int) < 0
    · rw [if_pos hlt, hxm, ← Int.add_emod_self, Int.emod_eq_of_lt (by omega) (by omega)]
    · rw [if_neg hlt, hxm, Int.emod_eq_of_lt (by omega) (by omega)]
  have hr0 : 0 ≤ x % (n : Int) := Int.emod_nonneg x (by omega)
  have hr1 : x % (n : Int) < (n : Int) := Int.emod_lt_of_pos x hpos
  refine ⟨hc, hmod, by rw [hmod]; exact hr0, by rw [hmod]; omega, ?_, ?_, ?_, ?_, rfl⟩
  · rw [hmod]
    exact ⟨-(x / (n : Int)), by
      have := Int.emod_add_ediv x (n : Int)
      rw [Int.mul_neg]
      omega⟩
  · intro r h0 h1 hdvd
    rw [hmod]
    obtain ⟨m, hm⟩ := hdvd
    have hr : r = x + (n : Int) * m := by omega
    have : r % (n : Int) = x % (n : Int) := by
      rw [hr, Int.add_mul_emod_self_left]
    rw [← this, Int.emod_eq_of_lt h0 (by omega)]
  · rw [hc]
    constructor <;> omega
  · rw [hc]
    intro _
    constructor <;> omega

theorem intFcn_is_modulus_witness :
    (INT_MIN ≤ (-22 : Int) ∧ (-22 : Int) ≤ INT_MAX) ∧ (1 ≤ 4 ∧ ((4 : Nat) : Int) ≤ INT_MAX) ∧
    intFcn (some (-22)) 4 = (-22) % ((4 : Nat) : Int) ∧ intFcn (some (-22)) 4 = 2 :=
  have hx : INT_MIN ≤ (-22 : Int) ∧ (-22 : Int) ≤ INT_MAX := by decide
  have hn : 1 ≤ 4 ∧ ((4 : Nat) : Int) ≤ INT_MAX := by decide
  ⟨hx, hn, (intFcn_is_modulus (-22) 4 hx hn).2.1, by decide⟩

/-- C26: for a present string key `strFcn` can return a negative number.  The one-character
string `"\xff"` (the `char` value `-1`) with table size 2 gives `-1`, and the two-byte string
`"\xc3\xa9"` (the UTF-8 encoding of an accented e, `char` values `-61` and `-87`) with table
size 3 gives `-1`; none of the two lies between 0 and `tableSize - 1`.  On strings of 7 bit
characters the result is in range: `"ab"` with table size 10 gives `5`. -/
theorem strFcn_negative_for_present_key :
    charValue 255 = -1 ∧ strFcn (some [255]) 2 = -1 ∧ ¬ (0 ≤ strFcn (some [255]) 2) ∧
    strFcnLoop [195, 169] ASCII_INITIAL_COUNT = -148 ∧ strFcn (some [195, 169]) 3 = -1 ∧
    ¬ (0 ≤ strFcn (some [195, 169]) 3) ∧
    strFcn (some [97, 98]) 10 = 5 ∧ strFcn none 2 = -1 := by
  refine ⟨by decide, by decide, by decide, by decide, by decide, by decide, by decide, rfl⟩

theorem strcmp_eq_zero {a b : List Nat} (ha : NulFree a) (hb : NulFree b) :
    strcmp a b = 0 ↔ a = b := by
  induction a generalizing b with
  | nil =>
    cases b with
    | nil => simp [strcmp]
    | cons c2 s2 =>
      have h2 : c2 ≠ 0 := hb c2 (List.mem_cons_self _ _)
      simp only [strcmp, reduceCtorEq, iff_false]
      omega
  | cons c1 s1 ih =>
    have h1 : c1 ≠ 0 := ha c1 (List.mem_cons_self _ _)
    cases b with
    | nil =>
      simp only [strcmp, reduceCtorEq, iff_false]
      omega
    | cons c2 s2 =>
      have ha1 : NulFree s1 := fun c hc => ha c (List.mem_cons_of_mem _ hc)
      have hb1 : NulFree s2 := fun c hc => hb c (List.mem_cons_of_mem _ hc)
      unfold strcmp
      by_cases hc : c1 = c2
      · subst hc
        simp only [if_true, List.cons.injEq, true_and]
        exact ih ha1 hb1
      · simp only [hc, if_false, List.cons.injEq, false_and, iff_false]
        omega

theorem strCompare_present {a b : List Nat} (ha : NulFree a) (hb : NulFree b) :
    strCompare (some a) (some b) = if a = b then 0 else 1 := by
  have hs : strCompare (some a) (some b) =
      if strcmp a b = EQUALITY_VALUE then EQUALITY_VALUE else NON_EQUALITY_VALUE := rfl
  rw [hs]
  by_cases h : a = b
  · rw [if_pos h, if_pos ((strcmp_eq_zero ha hb).2 h)]
  · rw [if_neg h, if_neg (fun h0 => h ((strcmp_eq_zero ha hb).1 h0))]

theorem strCompare_zero {a b : List Nat} (ha : NulFree a) (hb : NulFree b) :
    strCompare (some a) (some b) = 0 ↔ a = b := by
  rw [strCompare_present ha hb]
  by_cases h : a = b
  · simp [h]
  · simp [h]

theorem intCompare_present (a b : Int) :
    intCompare (some a) (some b) = if a = b then 0 else 1 := rfl

theorem intCompare_zero (a b : Int) : intCompare (some a) (some b) = 0 ↔ a = b := by
  rw [intCompare_present]
  by_cases h : a = b
  · simp [h]
  · simp [h]

/-- C27: comparison strategies.  For all present keys `intCompare` returns 0 when the two
ints are equal and 1 otherwise, and `strCompare` returns 0 when the two strings have
identical contents and 1 otherwise; each returns the sentinel `-1` exactly when at least
one argument is absent.  Both are reflexive, symmetric and transitive as equality tests on
present keys, and keys that compare equal have equal `intFcn` / `strFcn` hash for every
table size.  (A string is given by its bytes before the terminator, none of which is
NUL.) -/
theorem comparison_strategies :
    (∀ a b : Int, intCompare (some a) (some b) = if a = b then 0 else 1) ∧
    (∀ k1 k2 : Option Int, intCompare k1 k2 = -1 ↔ (k1 = none ∨ k2 = none)) ∧
    (∀ a b : List Nat, NulFree a → NulFree b →
      strCompare (some a) (some b) = if a = b then 0 else 1) ∧
    (∀ k1 k2 : Option (List Nat), strCompare k1 k2 = -1 ↔ (k1 = none ∨ k2 = none)) ∧
    (∀ a : Int, intCompare (some a) (some a) = 0) ∧
    (∀ a b : Int, intCompare (some a) (some b) = 0 → intCompare (some b) (some a) = 0) ∧
    (∀ a b c : Int, intCompare (some a) (some b) = 0 → intCompare (some b) (some c) = 0 →
      intCompare (some a) (some c) = 0) ∧
    (∀ a : List Nat, NulFree a → strCompare (some a) (some a) = 0) ∧
    (∀ a b : List Nat, NulFree a → NulFree b → strCompare (some a) (some b) = 0 →
      strCompare (some b) (some a) = 0) ∧
    (∀ a b c : List Nat, NulFree a → NulFree b → NulFree c →
      strCompare (some a) (some b) = 0 → strCompare (some b) (some c) = 0 →
      strCompare (some a) (some c) = 0) ∧
    (∀ (a b : Int) (n : Nat), intCompare (some a) (some b) = 0 →
      intFcn (some a) n = intFcn (some b) n) ∧
    (∀ (a b : List Nat) (n : Nat), NulFree a → NulFree b →
      strCompare (some a) (some b) = 0 → strFcn (some a) n = strFcn (some b) n) := by
  refine ⟨intCompare_present, ?_, fun a b ha hb => strCompare_present ha hb, ?_, ?_, ?_, ?_,
    ?_, ?_, ?_, ?_, ?_⟩
  · intro k1 k2
    cases k1 with
    | none => cases k2 <;> simp [intCompare]
    | some a =>
      cases k2 with
      | none => simp [intCompare]
      | some b =>
        rw [intCompare_present]
        by_cases h : a = b <;> simp [h]
  · intro k1 k2
    cases k1 with
    | none => cases k2 <;> simp [strCompare]
    | some a =>
      cases k2 with
      | none => simp [strCompare]
      | some b =>
        have hs : strCompare (some a) (some b) =
            if strcmp a b = EQUALITY_VALUE then EQUALITY_VALUE else NON_EQUALITY_VALUE := rfl
        rw [hs]
        by_cases h : strcmp a b = EQUALITY_VALUE <;> simp [h]
  · intro a
    exact (intCompare_zero a a).2 rfl
  · intro a b h
    exact (intCompare_zero b a).2 ((intCompare_zero a b).1 h).symm
  · intro a b c h1 h2
    exact (intCompare_zero a c).2 (((intCompare_zero a b).1 h1).trans ((intCompare_zero b c).1 h2))
  · intro a ha
    exact (strCompare_zero ha ha).2 rfl
  · intro a b ha hb h
    exact (strCompare_zero hb ha).2 ((strCompare_zero ha hb).1 h).symm
  · intro a b c ha hb hc h1 h2
    exact (strCompare_zero ha hc).2
      (((strCompare_zero ha hb).1 h1).trans ((strCompare_zero hb hc).1 h2))
  · intro a b n h
    rw [(intCompare_zero a b).1 h]
  · intro a b n ha hb h
    rw [(strCompare_zero ha hb).1 h]

theorem comparison_strategies_witness :
    NulFree [97, 98] ∧ NulFree [97, 99] ∧
    strCompare (some [97, 98]) (some [97, 99]) = (if [97, 98] = [97, 99] then 0 else 1) ∧
    strCompare (some [97, 98]) (some [97, 99]) = 1 ∧
    strCompare (some [97, 98]) (some [97, 98]) = 0 :=
  have ha : NulFree [97, 98] := by
    intro c hc
    simp only [List.mem_cons, List.mem_singleton, List.not_mem_nil, or_false] at hc
    omega
  have hb : NulFree [97, 99] := by
    intro c hc
    simp only [List.mem_cons, List.mem_singleton, List.not_mem_nil, or_false] at hc
    omega
  ⟨ha, hb, comparison_strategies.2.2.1 [97, 98] [97, 99] ha hb, by decide,
    comparison_strategies.2.2.2.2.2.2.2.1 [97, 98] ha⟩

/-- C28: `createTable` does not release the buckets it allocated before a bucket allocation
fails.  `createTable(2, ...)` with the table record (block 0), the slot array (block 1) and
bucket 0 (block 2) allocated and the allocation of bucket 1 failing, the unwritten slots of
the array reading as `NULL`: the call reports `MEM_OUT` and returns `NULL` having released
the slot array and the record, while bucket 0 stays allocated.  With capacity 3 and the
allocation of bucket 2 failing, buckets 0 and 1 stay allocated.  When the unwritten slot
reads as a pointer that is no block of the heap, that pointer is handed to `freeBucket` and
the run ends there.  Only when the very first bucket allocation fails is everything
released. -/
theorem creation_rollback_leaks_buckets :
    createTableHeap 2 none [true, true, true, false] emptyHeap =
      .ret (none, [TableError.MEM_OUT], [], { next := 3, live := [2], released := [1, 0] }) ∧
    createTableHeap 3 none [true, true, true, true, false] emptyHeap =
      .ret (none, [TableError.MEM_OUT], [], { next := 4, live := [2, 3], released := [1, 0] }) ∧
    createTableHeap 2 (some 7) [true, true, true, false] emptyHeap = .abort ∧
    createTableHeap 2 none [true, true, false] emptyHeap =
      .ret (none, [TableError.MEM_OUT], [], { next := 2, live := [], released := [1, 0] }) ∧
    createTableHeap 2 none [] emptyHeap =
      .ret (some 0, [], [], { next := 4, live := [0, 1, 2, 3], released := [] }) := by
  refine ⟨by decide, by decide, by decide, by decide, by decide⟩

/-- The slot `c` lies in the window of the base hash `h` exactly when `h = c / sizeFactor`. -/
theorem window_base_hash {sf c h : Nat} (h1 : sf * h ≤ c) (h2 : c < sf * h + sf) :
    h = c / sf := by
  symm
  apply Nat.div_eq_of_lt_le
  · rw [Nat.mul_comm]; exact h1
  · rw [Nat.mul_comm, Nat.mul_succ]; exact h2

/-- For a key with a valid hash the window starts at `sizeFactor * hash`. -/
theorem windowStart_eq {T : Table K D} {k : K} (hv : ValidHash T k) :
    ∃ n : Nat, T.hfun k T.originalSize = (n : Int) ∧ n < T.originalSize ∧
      windowStart T k = T.sizeFactor * n := by
  obtain ⟨h0, h1⟩ := hv
  obtain ⟨n, hn⟩ := Int.eq_ofNat_of_zero_le h0
  refine ⟨n, hn, by rw [hn] at h1; exact_mod_cast h1, ?_⟩
  unfold windowStart generateHashCode
  rw [hn]
  have : ((T.sizeFactor : Int) * (n : Int)) = ((T.sizeFactor * n : Nat) : Int) := by
    push_cast; rfl
  rw [this, Int.toNat_ofNat]

/-- C36: address windows partition the slot array.  For every table with
`tableSize = originalSize * sizeFactor` and `sizeFactor >= 1`: the windows
`[sizeFactor * h, sizeFactor * h + sizeFactor)` for `h` in `[0, originalSize)` are pairwise
disjoint, their union is exactly `[0, tableSize)`, every slot `c` belongs to the window of
exactly one base hash, namely `c / sizeFactor`, and the windows of two keys with different
base hashes (both in `[0, originalSize)`) have no slot in common. -/
theorem windows_partition (T : Table K D)
    (hsz : T.tableSize = T.originalSize * T.sizeFactor) (hsf : 1 ≤ T.sizeFactor) :
    (∀ h1 h2 c : Nat, h1 < T.originalSize → h2 < T.originalSize →
      T.sizeFactor * h1 ≤ c → c < T.sizeFactor * h1 + T.sizeFactor →
      T.sizeFactor * h2 ≤ c → c < T.sizeFactor * h2 + T.sizeFactor → h1 = h2) ∧
    (∀ c : Nat, c < T.tableSize ↔
      ∃ h, h < T.originalSize ∧ T.sizeFactor * h ≤ c ∧ c < T.sizeFactor * h + T.sizeFactor) ∧
    (∀ c : Nat, c < T.tableSize →
      c / T.sizeFactor < T.originalSize ∧ T.sizeFactor * (c / T.sizeFactor) ≤ c ∧
      c < T.sizeFactor * (c / T.sizeFactor) + T.sizeFactor ∧
      ∀ h, T.sizeFactor * h ≤ c → c < T.sizeFactor * h + T.sizeFactor →
        h = c / T.sizeFactor) ∧
    (∀ (k1 k2 : K) (c : Nat), ValidHash T k1 → ValidHash T k2 →
      T.hfun k1 T.originalSize ≠ T.hfun k2 T.originalSize →
      windowStart T k1 ≤ c → c < windowStart T k1 + T.sizeFactor →
      ¬ (windowStart T k2 ≤ c ∧ c < windowStart T k2 + T.sizeFactor)) := by
  have hpos : 0 < T.sizeFactor := hsf
  have hin : ∀ c : Nat, c < T.tableSize →
      c / T.sizeFactor < T.originalSize ∧ T.sizeFactor * (c / T.sizeFactor) ≤ c ∧
      c < T.sizeFactor * (c / T.sizeFactor) + T.sizeFactor := by
    intro c hc
    refine ⟨?_, Nat.mul_div_le c T.sizeFactor, ?_⟩
    · rw [Nat.div_lt_iff_lt_mul hpos, ← hsz]
      exact hc
    · have h1 := Nat.div_add_mod c T.sizeFactor
      have h2 := Nat.mod_lt c hpos
      omega
  refine ⟨?_, ?_, ?_, ?_⟩
  · intro h1 h2 c _ _ a1 a2 b1 b2
    rw [window_base_hash a1 a2, window_base_hash b1 b2]
  · intro c
    constructor
    · intro hc
      exact ⟨c / T.sizeFactor, hin c hc⟩
    · rintro ⟨h, h1, h2, h3⟩
      have h4 : T.sizeFactor * (h + 1) ≤ T.sizeFactor * T.originalSize :=
        Nat.mul_le_mul_left _ h1
      rw [Nat.mul_succ] at h4
      rw [hsz, Nat.mul_comm]
      omega
  · intro c hc
    obtain ⟨a1, a2, a3⟩ := hin c hc
    exact ⟨a1, a2, a3, fun h h1 h2 => window_base_hash h1 h2⟩
  · intro k1 k2 c hv1 hv2 hne a1 a2 hb
    obtain ⟨b1, b2⟩ := hb
    obtain ⟨n1, e1, -, w1⟩ := windowStart_eq hv1
    obtain ⟨n2, e2, -, w2⟩ := windowStart_eq hv2
    rw [w1] at a1 a2
    rw [w2] at b1 b2
    apply hne
    rw [e1, e2, window_base_hash a1 a2, window_base_hash b1 b2]

theorem windows_partition_witness :
    exT3.tableSize = exT3.originalSize * exT3.sizeFactor ∧ 1 ≤ exT3.sizeFactor ∧
    (∀ c : Nat, c < exT3.tableSize →
      c / exT3.sizeFactor < exT3.originalSize ∧ exT3.sizeFactor * (c / exT3.sizeFactor) ≤ c ∧
      c < exT3.sizeFactor * (c / exT3.sizeFactor) + exT3.sizeFactor ∧
      ∀ h, exT3.sizeFactor * h ≤ c → c < exT3.sizeFactor * h + exT3.sizeFactor →
        h = c / exT3.sizeFactor) :=
  ⟨rfl, by decide, (windows_partition exT3 rfl (by decide)).2.2.1⟩

theorem exS0_created : Created 2 exS0 :=
  ⟨some cloneStr, some freeStr, some strHash, some strPrint, some intPrint, some strComp, [],
    rfl⟩

theorem exS1_insert :
    insert 1 (some exS0) (some [10]) (some 5) [] =
      .ret { ok := true, table := some exS1, alloc := [], errs := [], resizes := 0 } := by
  rfl

theorem exS2_insert :
    insert 1 (some exS0) (some [45, 45, 62]) (some 7) [] =
      .ret { ok := true, table := some exS2, alloc := [], errs := [], resizes := 0 } := by
  rfl

theorem exS1_reachable : Reachable exS1 :=
  ⟨2, exS0, 0, exS0_created, ReachFrom.insert .start exS1_insert rfl⟩

theorem exS2_reachable : Reachable exS2 :=
  ⟨2, exS0, 0, exS0_created, ReachFrom.insert .start exS2_insert rfl⟩

/-! ### `printTable` prints the cells in order -/

theorem printBucket_fold (pk : K → String) (pd : D → String) (l : List (Element K D))
    (acc : String) :
    l.foldl (fun out e => out ++ "\t" ++ pk e.key ++ "," ++ pd e.data ++ "\t-->") acc =
      acc ++ elementsText pk pd l := by
  induction l generalizing acc with
  | nil => simp [elementsText]
  | cons e rest ih =>
    rw [List.foldl_cons, ih]
    simp only [elementsText, elementText, String.append_assoc]

theorem printBucket_eq (b : Bucket K D) (pk : K → String) (pd : D → String) :
    printBucket b pk pd = elementsText pk pd b.head := by
  unfold printBucket
  rw [printBucket_fold]
  simp

theorem printTableLoop_eq (T : Table K D) (n i : Nat) (out : String)
    (h : i + n = T.table.length) :
    printTableLoop T n i out =
      .ret (out ++ cellsText T.printKeyFun T.printDataFun i (T.table.drop i)) := by
  induction n generalizing i out with
  | zero =>
    have hd : T.table.drop i = [] := List.drop_eq_nil_of_le (by omega)
    simp [printTableLoop, hd, cellsText]
  | succ n ih =>
    have hlt : i < T.table.length := by omega
    unfold printTableLoop
    rw [List.getElem?_eq_getElem hlt]
    dsimp only
    rw [ih (i + 1) _ (by omega), List.drop_eq_getElem_cons hlt]
    simp only [cellsText, cellText, printBucket_eq, String.append_assoc]

theorem printTable_eq {T : Table K D} (hw : WF T) :
    printTable (some T) = .ret (cellsText T.printKeyFun T.printDataFun 0 T.table, []) := by
  unfold printTable
  dsimp only
  rw [printTableLoop_eq T T.tableSize (Int.toNat INITIAL_INDEX) ""
    (by rw [hw.len]; show 0 + _ = _; omega)]
  simp

/-! ### Characters of the printed pieces -/

theorem toDigitsCore_digit (fuel n : Nat) (ds : List Char) (c : Char)
    (h : c ∈ Nat.toDigitsCore 10 fuel n ds) : c ∈ ds ∨ ∃ m, m < 10 ∧ c = Nat.digitChar m := by
  induction fuel generalizing n ds with
  | zero => exact Or.inl h
  | succ fuel ih =>
    simp only [Nat.toDigitsCore] at h
    split at h
    · rcases List.mem_cons.1 h with h1 | h1
      · exact Or.inr ⟨n % 10, Nat.mod_lt _ (by omega), h1⟩
      · exact Or.inl h1
    · rcases ih _ _ h with h1 | h1
      · rcases List.mem_cons.1 h1 with h2 | h2
        · exact Or.inr ⟨n % 10, Nat.mod_lt _ (by omega), h2⟩
        · exact Or.inl h2
      · exact Or.inr h1

theorem digitChar_plain :
    ∀ m, m < 10 → Nat.digitChar m ≠ '\n' ∧ Nat.digitChar m ≠ '>' := by
  decide

theorem toString_plain (i : Nat) (c : Char) (h : c ∈ (toString i).data) :
    c ≠ '\n' ∧ c ≠ '>' := by
  have hd : (toString i).data = Nat.toDigitsCore 10 (i + 1) i [] := rfl
  rw [hd] at h
  rcases toDigitsCore_digit _ _ _ _ h with h1 | ⟨m, hm, rfl⟩
  · cases h1
  · exact digitChar_plain m hm

theorem elementText_data (pk : K → String) (pd : D → String) (e : Element K D) :
    (elementText pk pd e).data =
      '\t' :: ((pk e.key).data ++ ',' :: ((pd e.data).data ++ ['\t', '-', '-', '>'])) := by
  have h1 : "\t".data = ['\t'] := rfl
  have h2 : ",".data = [','] := rfl
  have h3 : "\t-->".data = ['\t', '-', '-', '>'] := rfl
  simp only [elementText, String.data_append, h1, h2, h3, List.append_assoc,
    List.singleton_append, List.cons_append, List.nil_append]

theorem elementsText_data_cons (pk : K → String) (pd : D → String) (e : Element K D)
    (rest : List (Element K D)) :
    (elementsText pk pd (e :: rest)).data =
      '\t' :: ((pk e.key).data ++ ',' :: ((pd e.data).data ++
        '\t' :: '-' :: '-' :: '>' :: (elementsText pk pd rest).data)) := by
  simp only [elementsText, String.data_append, elementText_data, List.append_assoc,
    List.cons_append, List.nil_append]

theorem cellsText_data_cons (pk : K → String) (pd : D → String) (i : Nat) (b : Bucket K D)
    (rest : List (Bucket K D)) :
    (cellsText pk pd i (b :: rest)).data =
      '[' :: ((toString i).data ++ ']' :: ((elementsText pk pd b.head).data ++
        '\t' :: '\n' :: (cellsText pk pd (i + 1) rest).data)) := by
  have h1 : "[".data = ['['] := rfl
  have h2 : "]".data = [']'] := rfl
  have h3 : "\t\n".data = ['\t', '\n'] := rfl
  simp only [cellsText, cellText, String.data_append, h1, h2, h3, List.append_assoc,
    List.singleton_append, List.cons_append, List.nil_append]

/-! ### Lines of the printed text -/

theorem elementsText_lines (pk : K → String) (pd : D → String) (l : List (Element K D))
    (hp : ∀ e ∈ l, '\n' ∉ (pk e.key).data ∧ '\n' ∉ (pd e.data).data) :
    (elementsText pk pd l).data.count '\n' = 0 := by
  induction l with
  | nil => rfl
  | cons e rest ih =>
    obtain ⟨h1, h2⟩ := hp e (List.mem_cons_self _ _)
    have ih1 := ih (fun e1 he1 => hp e1 (List.mem_cons_of_mem _ he1))
    rw [elementsText_data_cons]
    simp only [List.count_cons, List.count_append, List.count_eq_zero.2 h1,
      List.count_eq_zero.2 h2, ih1]
    decide

theorem cellsText_lines (pk : K → String) (pd : D → String) (i : Nat) (bs : List (Bucket K D))
    (hp : ∀ b ∈ bs, ∀ e ∈ b.head, '\n' ∉ (pk e.key).data ∧ '\n' ∉ (pd e.data).data) :
    lineCount (cellsText pk pd i bs) = bs.length := by
  unfold lineCount
  induction bs generalizing i with
  | nil => rfl
  | cons b rest ih =>
    have ih1 := ih (i + 1) (fun b1 hb1 => hp b1 (List.mem_cons_of_mem _ hb1))
    have hdig : (toString i).data.count '\n' = 0 :=
      List.count_eq_zero.2 (fun hmem => (toString_plain i _ hmem).1 rfl)
    have hel := elementsText_lines pk pd b.head (hp b (List.mem_cons_self _ _))
    rw [cellsText_data_cons]
    simp only [List.count_cons, List.count_append, hdig, hel, ih1, List.length_cons]
    have e1 : (('[' == '\n') = true) = False := by decide
    have e2 : ((']' == '\n') = true) = False := by decide
    have e3 : (('\t' == '\n') = true) = False := by decide
    have e4 : (('\n' == '\n') = true) = True := by decide
    simp only [e1, e2, e3, e4, if_true, if_false]
    omega

/-! ### Markers of the printed text -/

theorem countMarker_skip (a : Char) (rest : List Char) (ha : a ≠ '-') :
    countMarker (a :: rest) = countMarker rest := by
  have hm : markerAt (a :: rest) = false := by
    cases rest with
    | nil => rfl
    | cons b r =>
      cases r with
      | nil => rfl
      | cons c r1 => simp [markerAt, ha]
  rw [countMarker, hm]
  simp

theorem markerAt_plain (s t : List Char) (c : Char) (hs : '>' ∉ s) (hne : s ≠ [])
    (h1 : c ≠ '-') (h2 : c ≠ '>') : markerAt (s ++ c :: t) = false := by
  cases s with
  | nil => exact (hne rfl).elim
  | cons a s1 =>
    cases s1 with
    | nil =>
      cases t with
      | nil => rfl
      | cons t0 t1 => simp [markerAt, h1]
    | cons x s2 =>
      cases s2 with
      | nil => simp [markerAt, h2]
      | cons y s3 =>
        have hy : y ≠ '>' := by
          intro hy
          apply hs
          rw [hy]
          simp
        simp [markerAt, hy]

theorem countMarker_plain (s t : List Char) (c : Char) (hs : '>' ∉ s) (h1 : c ≠ '-')
    (h2 : c ≠ '>') : countMarker (s ++ c :: t) = countMarker (c :: t) := by
  induction s with
  | nil => rfl
  | cons a s1 ih =>
    have hs1 : '>' ∉ s1 := fun hmem => hs (List.mem_cons_of_mem _ hmem)
    have hm := markerAt_plain (a :: s1) t c hs (List.cons_ne_nil _ _) h1 h2
    rw [List.cons_append] at hm ⊢
    rw [countMarker, hm, ih hs1]
    simp

theorem countMarker_suffix (t : List Char) :
    countMarker ('\t' :: '-' :: '-' :: '>' :: t) = 1 + countMarker t := by
  rw [countMarker_skip _ _ (by decide)]
  have hm1 : markerAt ('-' :: '-' :: '>' :: t) = true := by simp [markerAt]
  have hm2 : markerAt ('-' :: '>' :: t) = false := by
    cases t with
    | nil => rfl
    | cons t0 t1 => simp [markerAt]
  rw [countMarker, hm1, countMarker, hm2, countMarker_skip _ _ (by decide)]
  simp

theorem elementsText_markers (pk : K → String) (pd : D → String) (l : List (Element K D))
    (t : List Char) (hp : ∀ e ∈ l, '>' ∉ (pk e.key).data ∧ '>' ∉ (pd e.data).data) :
    countMarker ((elementsText pk pd l).data ++ t) = l.length + countMarker t := by
  induction l with
  | nil =>
    show countMarker ([] ++ t) = 0 + countMarker t
    simp
  | cons e rest ih =>
    obtain ⟨h1, h2⟩ := hp e (List.mem_cons_self _ _)
    have ih1 := ih (fun e1 he1 => hp e1 (List.mem_cons_of_mem _ he1))
    rw [elementsText_data_cons]
    simp only [List.cons_append, List.append_assoc]
    rw [countMarker_skip _ _ (by decide), countMarker_plain _ _ _ h1 (by decide) (by decide),
      countMarker_skip _ _ (by decide), countMarker_plain _ _ _ h2 (by decide) (by decide),
      countMarker_suffix, ih1, List.length_cons]
    omega

theorem cellsText_markers (pk : K → String) (pd : D → String) (i : Nat)
    (bs : List (Bucket K D))
    (hp : ∀ b ∈ bs, ∀ e ∈ b.head, '>' ∉ (pk e.key).data ∧ '>' ∉ (pd e.data).data) :
    countMarker (cellsText pk pd i bs).data = (bs.map (fun b => b.head.length)).sum := by
  induction bs generalizing i with
  | nil => rfl
  | cons b rest ih =>
    have ih1 := ih (i + 1) (fun b1 hb1 => hp b1 (List.mem_cons_of_mem _ hb1))
    have hdig : '>' ∉ (toString i).data := fun hmem => (toString_plain i _ hmem).2 rfl
    rw [cellsText_data_cons, countMarker_skip _ _ (by decide),
      countMarker_plain _ _ _ hdig (by decide) (by decide), countMarker_skip _ _ (by decide),
      elementsText_markers pk pd b.head _ (hp b (List.mem_cons_self _ _)),
      countMarker_skip _ _ (by decide), countMarker_skip _ _ (by decide), ih1]
    simp

theorem totalElements_eq {T : Table K D} (hw : WF T) :
    totalElements T = (T.table.map (fun b => b.head.length)).sum := by
  unfold totalElements
  congr 1
  apply List.map_congr_left
  intro b hb
  exact (hw.bucket b hb).1

/-! ## The machine model on tables whose capacity fits `int` -/

theorem wrapInt_small {z : Int} (h0 : INT_MIN ≤ z) (h1 : z ≤ INT_MAX) : wrapInt z = z := by
  have a : (-2147483648 : Int) ≤ z := h0
  have b : z ≤ 2147483647 := h1
  unfold wrapInt
  norm_num
  omega

theorem fits_sizeFactor {T : Table K D} (hw : WF T) (hf : Fits T) :
    (T.sizeFactor : Int) ≤ INT_MAX ∧ castInt T.sizeFactor = (T.sizeFactor : Int) := by
  have h1 : T.sizeFactor ≤ T.tableSize := by
    rw [hw.size]
    exact Nat.le_mul_of_pos_left _ hw.orig
  have h2 : (T.sizeFactor : Int) ≤ INT_MAX := le_trans (by exact_mod_cast h1) hf
  exact ⟨h2, castInt_small h2⟩

theorem fits_tableSize {T : Table K D} (hw : WF T) (hf : Fits T) :
    castInt T.tableSize = (T.tableSize : Int) ∧
      wrapInt (castInt T.tableSize - 1) = (T.tableSize : Int) - 1 := by
  have h1 : castInt T.tableSize = (T.tableSize : Int) := castInt_small hf
  have h2 : 1 ≤ T.tableSize := by
    rw [hw.size]
    exact Nat.mul_pos hw.orig hw.sf
  refine ⟨h1, ?_⟩
  rw [h1]
  apply wrapInt_small
  · show (-2147483648 : Int) ≤ _
    omega
  · have : (T.tableSize : Int) ≤ 2147483647 := hf
    show _ ≤ (2147483647 : Int)
    omega

theorem machine_hash_eq {T : Table K D} {k : K} (hw : WF T) (hf : Fits T)
    (hn : NoOverflow T k) : Machine.generateHashCode T k = generateHashCode T k := by
  unfold Machine.generateHashCode generateHashCode
  rw [(fits_sizeFactor hw hf).2]
  exact wrapInt_small hn.1 hn.2

theorem machine_findData_eq {T : Table K D} {k : K} (a l : Int) (hw : WF T) (hf : Fits T)
    (hn : NoOverflow T k) :
    Machine.findData (some T) (some k) a l = findData (some T) (some k) a l := by
  unfold Machine.findData findData
  simp only [machine_hash_eq hw hf hn, (fits_tableSize hw hf).2, (fits_sizeFactor hw hf).2,
    Int.toNat_ofNat]

theorem machine_findData_null {T : Option (Table K D)} {key : Option K} (a l : Int)
    (h : T = none ∨ key = none) :
    Machine.findData T key a l =
      .ret { data := none, arrCell := a, listNode := l, errs := [TableError.GENERAL_ERROR] } := by
  rcases h with h | h
  · subst h
    rfl
  · subst h
    cases T <;> rfl

theorem machine_reachElement_eq {T : Table K D} (a l : Int) (hw : WF T) (hf : Fits T) :
    Machine.reachElement T a l = reachElement T a l := by
  unfold Machine.reachElement reachElement
  rw [(fits_tableSize hw hf).2]
  by_cases h1 : ¬ (a ≥ INITIAL_INDEX ∨ a < (T.tableSize : Int) - 1)
  · rw [if_pos h1, if_pos h1]
  · rw [if_neg h1, if_neg h1]
    by_cases h2 : a < 0
    · rw [if_pos h2, if_pos h2]
    · rw [if_neg h2, if_neg h2]
      cases hb : T.table[a.toNat]? with
      | none => rfl
      | some b =>
        have hbs : b.bucketSize = MAX_ROW_ELEMENTS := (wf_bucket hw hb).2.2
        have hc : castInt b.bucketSize = (b.bucketSize : Int) := by
          rw [hbs]
          rfl
        simp only [hc]

theorem machine_removeData_null {T : Option (Table K D)} {key : Option K}
    (h : T = none ∨ key = none) :
    Machine.removeData T key =
      .ret { data := none, table := T, errs := [TableError.GENERAL_ERROR] } := by
  rcases h with h | h
  · subst h
    rfl
  · subst h
    cases T <;> rfl

theorem machine_getDataAt_eq {T : Table K D} (a l : Int) (hw : WF T) (hf : Fits T) :
    Machine.getDataAt (some T) a l = getDataAt (some T) a l := by
  unfold Machine.getDataAt getDataAt
  simp only [machine_reachElement_eq _ _ hw hf, (fits_tableSize hw hf).2]

theorem machine_getKeyAt_eq {T : Table K D} (a l : Int) (hw : WF T) (hf : Fits T) :
    Machine.getKeyAt (some T) a l = getKeyAt (some T) a l := by
  unfold Machine.getKeyAt getKeyAt
  simp only [machine_reachElement_eq _ _ hw hf, (fits_tableSize hw hf).2]

theorem machine_printTable_eq {T : Table K D} (hw : WF T) (hf : Fits T) :
    Machine.printTable (some T) = printTable (some T) := by
  unfold Machine.printTable printTable
  simp only [(fits_tableSize hw hf).1, Int.toNat_ofNat]

theorem machine_bucketsLoop_spec (n : Nat) (o : Alloc) :
    ∃ m, m ≤ n ∧
      (Machine.setTableBucketsLoop (K := K) (D := D) n o).1 = List.replicate m emptyBucket := by
  induction n generalizing o with
  | zero => exact ⟨0, le_refl _, rfl⟩
  | succ n ih =>
    unfold Machine.setTableBucketsLoop initializeBucket
    rcases hm : malloc o with ⟨b, o2⟩
    cases b with
    | false => exact ⟨0, Nat.zero_le _, rfl⟩
    | true =>
      obtain ⟨m, hm1, hm2⟩ := ih o2
      refine ⟨m + 1, by omega, ?_⟩
      dsimp only
      rw [hm2]
      rfl

theorem machine_setTableBuckets_some {N : Nat} {o o1 : Alloc} {bs : List (Bucket K D)}
    (h : Machine.setTableBuckets N o = .ret (some bs, o1)) :
    0 ≤ castInt N ∧ bs = List.replicate (castInt N).toNat emptyBucket := by
  unfold Machine.setTableBuckets at h
  obtain ⟨m, -, hm2⟩ := machine_bucketsLoop_spec (K := K) (D := D) (castInt N).toNat o
  rcases hl : Machine.setTableBucketsLoop (K := K) (D := D) (castInt N).toNat o with ⟨bs1, o2⟩
  rw [hl] at h hm2
  dsimp only at h hm2
  by_cases hc : (bs1.length : Int) ≠ castInt N
  · rw [if_pos hc] at h
    by_cases h0 : bs1.length = 0
    · rw [if_pos h0] at h
      simp at h
    · rw [if_neg h0] at h
      cases h
  · rw [if_neg hc] at h
    simp only [Exec.ret.injEq, Prod.mk.injEq, Option.some.injEq] at h
    have hc1 : (bs1.length : Int) = castInt N := not_not.1 hc
    have h0 : 0 ≤ castInt N := by
      rw [← hc1]
      exact Int.ofNat_nonneg _
    refine ⟨h0, ?_⟩
    rw [← h.1, hm2]
    have hlen : bs1.length = m := by rw [hm2, List.length_replicate]
    have : (castInt N).toNat = m := by
      rw [← hc1, hlen]
      exact Int.toNat_ofNat m
    rw [this]

theorem machine_setTableBuckets_neg {N : Nat} (o : Alloc) (h : castInt N < 0) :
    Machine.setTableBuckets (K := K) (D := D) N o = .ret (none, o) := by
  unfold Machine.setTableBuckets
  have h0 : (castInt N).toNat = 0 := Int.toNat_eq_zero.2 (le_of_lt h)
  rw [h0]
  have hl : Machine.setTableBucketsLoop (K := K) (D := D) 0 o = ([], o) := rfl
  rw [hl]
  dsimp only
  have hc : ((([] : List (Bucket K D)).length : Nat) : Int) ≠ castInt N := by
    simp only [List.length_nil, Nat.cast_zero]
    omega
  rw [if_pos hc]
  rfl

theorem machine_created_spec {n : Nat} {T0 : Table K D} (h : Machine.Created n T0) :
    1 ≤ n ∧ 0 ≤ castInt n ∧ T0.table = List.replicate (castInt n).toNat emptyBucket ∧
      T0.tableSize = n ∧ T0.originalSize = n ∧ T0.sizeFactor = 1 := by
  obtain ⟨ck, fk, hf, pk, pd, fc, o, res, h, ht⟩ := h
  unfold Machine.createTable at h
  by_cases hn : n < MINIMAL_TABLE_SIZE
  · rw [if_pos hn] at h
    simp only [Exec.ret.injEq] at h
    rw [← h] at ht
    cases ht
  · rw [if_neg hn] at h
    have hn1 : 1 ≤ n := not_lt.1 hn
    cases ck <;> cases fk <;> cases hf <;> cases pk <;> cases pd <;> cases fc <;>
      try (simp only [Exec.ret.injEq] at h; rw [← h] at ht; cases ht)
    rename_i ck fk hf pk pd fc
    dsimp only at h
    unfold Machine.initializeTable at h
    rcases hm : malloc o with ⟨b1, o1⟩
    rw [hm] at h
    cases b1 with
    | false => simp only [Exec.ret.injEq] at h; rw [← h] at ht; cases ht
    | true =>
      dsimp only at h
      rcases hm2 : malloc o1 with ⟨b2, o2⟩
      rw [hm2] at h
      cases b2 with
      | false => simp only [Exec.ret.injEq] at h; rw [← h] at ht; cases ht
      | true =>
        dsimp only at h
        cases hs : Machine.setTableBuckets (K := K) (D := D) n o2 with
        | abort => rw [hs] at h; cases h
        | timeout => rw [hs] at h; cases h
        | ret p =>
          obtain ⟨r, o3⟩ := p
          rw [hs] at h
          cases r with
          | none => simp only [Exec.ret.injEq] at h; rw [← h] at ht; cases ht
          | some bs =>
            simp only [Exec.ret.injEq] at h
            rw [← h] at ht
            simp only [Option.some.injEq] at ht
            subst ht
            obtain ⟨q1, q2⟩ := machine_setTableBuckets_some hs
            exact ⟨hn1, q1, q2, rfl, rfl, rfl⟩

theorem machine_created_small {n : Nat} {T0 : Table K D} (h : Machine.Created n T0)
    (hn : (n : Int) ≤ INT_MAX) :
    1 ≤ n ∧ T0.table = List.replicate n emptyBucket ∧ T0.tableSize = n ∧
      T0.originalSize = n ∧ T0.sizeFactor = 1 := by
  obtain ⟨h1, -, h3, h4, h5, h6⟩ := machine_created_spec h
  rw [castInt_small hn, Int.toNat_ofNat] at h3
  exact ⟨h1, h3, h4, h5, h6⟩

theorem machine_created_wf {n : Nat} {T0 : Table K D} (h : Machine.Created n T0)
    (hn : (n : Int) ≤ INT_MAX) : WF T0 ∧ Fits T0 := by
  obtain ⟨h1, h2, h3, h4, h5⟩ := machine_created_small h hn
  refine ⟨⟨by rw [h3, h4, h5]; omega, by rw [h2, h3, List.length_replicate], by omega,
    by omega, ?_⟩, ?_⟩
  · intro b hb
    rw [h2] at hb
    rw [List.eq_of_mem_replicate hb]
    exact emptyBucket_ok
  · unfold Fits
    rw [h3]
    exact hn

theorem castInt_double {n : Nat} (h : (n : Int) ≤ INT_MAX) :
    (n * RESIZE_FACTOR) % 2 ^ 64 = n * 2 ∧
      (0 ≤ castInt (n * 2) → ((n * 2 : Nat) : Int) ≤ INT_MAX) ∧
      (INT_MAX < ((n * 2 : Nat) : Int) → castInt (n * 2) < 0) := by
  have h1 : n ≤ 2147483647 := by
    have : (n : Int) ≤ 2147483647 := h
    omega
  refine ⟨?_, ?_, ?_⟩
  · show n * 2 % 2 ^ 64 = n * 2
    omega
  · intro h0
    show ((n * 2 : Nat) : Int) ≤ 2147483647
    unfold castInt at h0
    by_cases hc : n * 2 % 2 ^ 32 < 2 ^ 31
    · omega
    · rw [if_neg hc] at h0
      omega
  · intro h0
    have h2 : (2147483647 : Int) < ((n * 2 : Nat) : Int) := h0
    unfold castInt
    have hc : ¬ n * 2 % 2 ^ 32 < 2 ^ 31 := by omega
    rw [if_neg hc]
    omega

theorem machine_resizeCopyLoop_eq (old : List (Bucket K D)) (ns n i : Nat)
    (nt : List (Bucket K D)) (h1 : (ns : Int) ≤ INT_MAX) (h2 : (i + n) * 2 ≤ ns) :
    Machine.resizeCopyLoop old ns n i nt = resizeCopyLoop old ns n i nt := by
  induction n generalizing i nt with
  | zero => rfl
  | succ n ih =>
    unfold Machine.resizeCopyLoop resizeCopyLoop
    have hns : (ns : Int) ≤ 2147483647 := h1
    have hw : wrapInt ((i : Int) * (RESIZE_FACTOR : Int)) = (i : Int) * 2 := by
      apply wrapInt_small
      · show (-2147483648 : Int) ≤ (i : Int) * 2
        omega
      · show (i : Int) * 2 ≤ 2147483647
        omega
    have ha : ¬ ¬ (wrapInt ((i : Int) * (RESIZE_FACTOR : Int)) < castInt ns) := by
      rw [hw, castInt_small h1]
      omega
    have hb : ¬ ¬ (i * RESIZE_FACTOR < ns) := by
      show ¬ ¬ (i * 2 < ns)
      omega
    rw [if_neg ha, if_neg hb]
    cases old[i]? with
    | none => rfl
    | some b =>
      dsimp only
      by_cases hl : i * RESIZE_FACTOR < nt.length
      · rw [if_pos hl, if_pos hl]
        exact ih (i + 1) _ (by omega)
      · rw [if_neg hl, if_neg hl]

theorem machine_resizeTable_false {T T1 : Table K D} {o o1 : Alloc}
    (h : Machine.resizeTable T o = .ret (false, T1, o1)) : T1 = T := by
  unfold Machine.resizeTable at h
  dsimp only at h
  rcases hm : malloc o with ⟨b, o2⟩
  rw [hm] at h
  cases b with
  | false => simp only [Exec.ret.injEq, Prod.mk.injEq, true_and] at h; exact h.1.symm
  | true =>
    dsimp only at h
    cases hs : Machine.setTableBuckets (K := K) (D := D)
        (T.tableSize * RESIZE_FACTOR % 2 ^ 64) o2 with
    | abort => rw [hs] at h; cases h
    | timeout => rw [hs] at h; cases h
    | ret p =>
      obtain ⟨r, o3⟩ := p
      rw [hs] at h
      cases r with
      | none => simp only [Exec.ret.injEq, Prod.mk.injEq, true_and] at h; exact h.1.symm
      | some fresh =>
        dsimp only at h
        cases hl : Machine.resizeCopyLoop T.table (T.tableSize * RESIZE_FACTOR % 2 ^ 64)
            (castInt T.tableSize).toNat (Int.toNat INITIAL_INDEX) fresh with
        | ret nt => rw [hl] at h; simp at h
        | abort => rw [hl] at h; cases h
        | timeout => rw [hl] at h; cases h

theorem machine_resizeTable_nomem (T : Table K D) {o : Alloc} (h : (malloc o).1 = false) :
    Machine.resizeTable T o = .ret (false, T, (malloc o).2) := by
  unfold Machine.resizeTable
  dsimp only
  rcases hm : malloc o with ⟨b, o2⟩
  rw [hm] at h
  dsimp only at h
  subst h
  rfl

theorem machine_resizeTable_limit {T : Table K D} (o : Alloc) (hf : Fits T)
    (hl : INT_MAX < ((T.tableSize * 2 : Nat) : Int)) :
    Machine.resizeTable T o = .ret (false, T, (malloc o).2) := by
  obtain ⟨c1, -, c3⟩ := castInt_double hf
  unfold Machine.resizeTable
  dsimp only
  rw [c1]
  rcases hm : malloc o with ⟨b, o2⟩
  cases b with
  | false => rfl
  | true =>
    dsimp only
    rw [machine_setTableBuckets_neg o2 (c3 hl)]

theorem machine_resizeTable_true {T T1 : Table K D} {o o1 : Alloc} (hw : WF T) (hf : Fits T)
    (h : Machine.resizeTable T o = .ret (true, T1, o1)) :
    ((T.tableSize * 2 : Nat) : Int) ≤ INT_MAX ∧
      ∃ o2 o3, AllocOK o2 ∧ resizeTable T o2 = .ret (true, T1, o3) := by
  obtain ⟨c1, c2, c3⟩ := castInt_double hf
  have hl : ((T.tableSize * 2 : Nat) : Int) ≤ INT_MAX := by
    by_contra hc
    rw [machine_resizeTable_limit o hf (not_le.1 hc)] at h
    simp at h
  refine ⟨hl, ?_⟩
  have hsf : T.sizeFactor * RESIZE_FACTOR % 2 ^ 32 = T.sizeFactor * RESIZE_FACTOR := by
    have := (fits_sizeFactor hw hf).1
    have h5 : (T.sizeFactor : Int) ≤ 2147483647 := this
    show T.sizeFactor * 2 % 2 ^ 32 = T.sizeFactor * 2
    omega
  have hnil : AllocOK ([] : Alloc) := fun b hb => by cases hb
  obtain ⟨o3, hs, -⟩ := setTableBuckets_ok (K := K) (D := D) (T.tableSize * 2) hnil
  refine ⟨[], o3, hnil, ?_⟩
  unfold Machine.resizeTable at h
  dsimp only at h
  rw [c1] at h
  rcases hm : malloc o with ⟨b, o4⟩
  rw [hm] at h
  cases b with
  | false => simp at h
  | true =>
    dsimp only at h
    cases hs1 : Machine.setTableBuckets (K := K) (D := D) (T.tableSize * 2) o4 with
    | abort => rw [hs1] at h; cases h
    | timeout => rw [hs1] at h; cases h
    | ret p =>
      obtain ⟨r, o5⟩ := p
      rw [hs1] at h
      cases r with
      | none => simp at h
      | some fresh =>
        dsimp only at h
        obtain ⟨-, q2⟩ := machine_setTableBuckets_some hs1
        rw [castInt_small hl, Int.toNat_ofNat] at q2
        rw [(fits_tableSize hw hf).1, Int.toNat_ofNat,
          machine_resizeCopyLoop_eq _ _ _ _ _ hl (by show (0 + T.tableSize) * 2 ≤ _; omega),
          q2, show Int.toNat INITIAL_INDEX = 0 from rfl] at h
        unfold resizeTable
        dsimp only
        rw [show malloc ([] : Alloc) = (true, []) from rfl]
        dsimp only
        rw [show T.tableSize * RESIZE_FACTOR = T.tableSize * 2 from rfl, hs]
        dsimp only
        cases hc : resizeCopyLoop T.table (T.tableSize * 2) T.tableSize 0
            (List.replicate (T.tableSize * 2) emptyBucket) with
        | abort => rw [hc] at h; cases h
        | timeout => rw [hc] at h; cases h
        | ret nt =>
          rw [hc] at h
          simp only [Exec.ret.injEq, Prod.mk.injEq, true_and] at h
          unfold Machine.updateSizeFactor at h
          dsimp only at h
          rw [hsf] at h
          rw [← h.1]
          rfl

theorem machine_resizeTable_doubled {T T1 : Table K D} {o o1 : Alloc} (hw : WF T)
    (hf : Fits T) (h : Machine.resizeTable T o = .ret (true, T1, o1)) :
    Doubled T T1 ∧ Fits T1 := by
  obtain ⟨hl, o2, o3, -, hr⟩ := machine_resizeTable_true hw hf h
  have hd := resizeTable_true hr
  refine ⟨hd, ?_⟩
  unfold Fits
  rw [hd.1]
  exact hl

/-- The ways in which the machine `findData` returns, on any table. -/
theorem machine_findData_cases {T : Table K D} {k : K} {a l : Int} {f : FindRet D}
    (h : Machine.findData (some T) (some k) a l = .ret f) :
    (Machine.generateHashCode T k < 0 ∧
      f = { data := none, arrCell := INVALID_INDEX, listNode := INVALID_INDEX,
            errs := [TableError.GENERAL_ERROR] }) ∨
    (0 ≤ Machine.generateHashCode T k ∧
      f = { data := none, arrCell := INVALID_INDEX, listNode := INVALID_INDEX, errs := [] }) ∨
    (0 ≤ Machine.generateHashCode T k ∧
      ∃ (d : D) (c s : Nat) (b : Bucket K D) (e : Element K D),
        T.table[c]? = some b ∧ FirstAt T.fcomp k b.head s e ∧ e.data = d ∧
        f = { data := some d, arrCell := (c : Int), listNode := (s : Int), errs := [] }) := by
  unfold Machine.findData at h
  dsimp only at h
  by_cases h0 : Machine.generateHashCode T k < HASH_CODE_LOWER_BOUND
  · left
    rw [if_pos h0] at h
    exact ⟨h0, (Exec.ret.inj h).symm⟩
  · right
    rw [if_neg h0] at h
    have h0' : 0 ≤ Machine.generateHashCode T k := not_lt.1 h0
    by_cases h1 : ¬ (Machine.generateHashCode T k ≤ wrapInt (castInt T.tableSize - 1))
    · rw [if_pos h1] at h
      cases h
    · rw [if_neg h1] at h
      cases hl : findDataLoop T k (Machine.generateHashCode T k).toNat
          (castInt T.sizeFactor).toNat (Int.toNat INITIAL_INDEX) with
      | abort => rw [hl] at h; cases h
      | timeout => rw [hl] at h; cases h
      | ret r =>
        rw [hl] at h
        cases r with
        | none => exact Or.inl ⟨h0', (Exec.ret.inj h).symm⟩
        | some r =>
          obtain ⟨d, c, s⟩ := r
          right
          obtain ⟨j, -, -, -, b, e, hb, he, hd⟩ := (findDataLoop_some ..).1 hl
          exact ⟨h0', d, c, s, b, e, hb, he, hd, (Exec.ret.inj h).symm⟩

theorem machine_insert_null {T : Option (Table K D)} {key : Option K} {object : Option D}
    (fuel : Nat) (o : Alloc) (h : T = none ∨ key = none ∨ object = none) :
    Machine.insert (fuel + 1) T key object o =
      .ret { ok := false, table := T, alloc := o, errs := [TableError.GENERAL_ERROR],
             resizes := 0 } := by
  rcases h with h | h | h
  · subst h
    rfl
  · subst h
    cases T <;> rfl
  · subst h
    cases T <;> cases key <;> rfl

/-- Every returning call of the machine `insert` on a well-formed table whose capacity fits
`int` yields such a table again. -/
theorem machine_insert_step (fuel : Nat) {T T1 : Table K D} {key : Option K}
    {object : Option D} {o : Alloc} {res : InsertRet K D} (hw : WF T) (hf : Fits T)
    (h : Machine.insert fuel (some T) key object o = .ret res) (ht : res.table = some T1) :
    StepOK T T1 res.resizes ∧ Fits T1 := by
  induction fuel generalizing T o res with
  | zero => cases h
  | succ fuel ih =>
    cases key with
    | none =>
      rw [machine_insert_null fuel o (Or.inr (Or.inl rfl))] at h
      rw [← Exec.ret.inj h] at ht ⊢
      cases ht
      exact ⟨stepOK_refl hw, hf⟩
    | some k =>
      cases object with
      | none =>
        rw [machine_insert_null fuel o (Or.inr (Or.inr rfl))] at h
        rw [← Exec.ret.inj h] at ht ⊢
        cases ht
        exact ⟨stepOK_refl hw, hf⟩
      | some v =>
        unfold Machine.insert at h
        cases hfd : Machine.findData (some T) (some k) INVALID_INDEX INVALID_INDEX with
        | abort => rw [hfd] at h; cases h
        | timeout => rw [hfd] at h; cases h
        | ret f =>
          rw [hfd] at h
          dsimp only at h
          by_cases hcond : f.data.isSome ∧ f.arrCell ≠ INVALID_INDEX ∧ f.listNode ≠ INVALID_INDEX
          · rw [if_pos hcond] at h
            cases hre : Machine.reachElement T f.arrCell f.listNode with
            | abort => rw [hre] at h; cases h
            | timeout => rw [hre] at h; cases h
            | ret e =>
              rw [hre] at h
              cases e with
              | none => cases h
              | some e =>
                dsimp only at h
                rw [← Exec.ret.inj h] at ht ⊢
                cases ht
                refine ⟨writeElementData_stepOK _ _ v hw, ?_⟩
                unfold Fits
                rw [(writeElementData_fields T _ _ v).2.2.2]
                exact hf
          · rw [if_neg hcond] at h
            by_cases h0 : Machine.generateHashCode T k < HASH_CODE_LOWER_BOUND
            · rw [if_pos h0] at h
              rw [← Exec.ret.inj h] at ht ⊢
              cases ht
              exact ⟨stepOK_refl hw, hf⟩
            · rw [if_neg h0] at h
              by_cases h1 : ¬ (Machine.generateHashCode T k ≤ wrapInt (castInt T.tableSize - 1))
              · rw [if_pos h1] at h
                cases h
              · rw [if_neg h1] at h
                cases hl : insertLoop T k v (Machine.generateHashCode T k).toNat o
                    (castInt T.sizeFactor).toNat (Int.toNat INITIAL_INDEX) with
                | abort => rw [hl] at h; cases h
                | timeout => rw [hl] at h; cases h
                | ret q =>
                  rw [hl] at h
                  cases q with
                  | some r =>
                    dsimp only at h
                    obtain ⟨j, b, -, hb, hroom, -, hi⟩ := (insertLoop_some ..).1 hl
                    rw [← Exec.ret.inj h] at ht ⊢
                    dsimp only at ht ⊢
                    rcases insertAt_cases hroom hi with ⟨-, h2, -, h4⟩ | ⟨-, h2, -, h4⟩
                    · rw [h2] at ht
                      cases ht
                      rw [h4]
                      exact ⟨placed_stepOK hw hb hroom, hf⟩
                    · rw [h2] at ht
                      cases ht
                      rw [h4]
                      exact ⟨stepOK_refl hw, hf⟩
                  | none =>
                    dsimp only at h
                    cases hr : Machine.resizeTable T o with
                    | abort => rw [hr] at h; cases h
                    | timeout => rw [hr] at h; cases h
                    | ret q =>
                      obtain ⟨ok, T2, o1⟩ := q
                      rw [hr] at h
                      cases ok with
                      | false =>
                        dsimp only at h
                        have := machine_resizeTable_false hr
                        subst this
                        rw [← Exec.ret.inj h] at ht ⊢
                        cases ht
                        exact ⟨stepOK_refl hw, hf⟩
                      | true =>
                        dsimp only at h
                        obtain ⟨hd, hf2⟩ := machine_resizeTable_doubled hw hf hr
                        cases hi : Machine.insert fuel (some T2) (some k) (some v) o1 with
                        | abort => rw [hi] at h; cases h
                        | timeout => rw [hi] at h; cases h
                        | ret r =>
                          rw [hi] at h
                          dsimp only at h
                          rw [← Exec.ret.inj h] at ht ⊢
                          dsimp only at ht ⊢
                          obtain ⟨s2, f2⟩ := ih (doubled_wf hd hw) hf2 hi ht
                          have := stepOK_trans (doubled_stepOK hd hw) s2
                          rw [Nat.add_comm] at this
                          exact ⟨this, f2⟩

theorem machine_removeData_step {T T1 : Table K D} {key : Option K} {res : RemoveRet K D}
    (hw : WF T) (hf : Fits T) (h : Machine.removeData (some T) key = .ret res)
    (ht : res.table = some T1) : StepOK T T1 0 ∧ Fits T1 := by
  cases key with
  | none =>
    rw [machine_removeData_null (Or.inr rfl)] at h
    rw [← Exec.ret.inj h] at ht
    cases ht
    exact ⟨stepOK_refl hw, hf⟩
  | some k =>
    unfold Machine.removeData at h
    dsimp only at h
    cases hfd : Machine.findData (some T) (some k) INVALID_INDEX INVALID_INDEX with
    | abort => rw [hfd] at h; cases h
    | timeout => rw [hfd] at h; cases h
    | ret f =>
      rw [hfd] at h
      dsimp only at h
      rcases machine_findData_cases hfd with ⟨-, rfl⟩ | ⟨-, rfl⟩ | ⟨-, d, c, s, b, e, hb, he, -, rfl⟩
      · simp only [Option.isSome_none, Bool.false_eq_true, false_and, if_false] at h
        rw [← Exec.ret.inj h] at ht
        cases ht
        exact ⟨stepOK_refl hw, hf⟩
      · simp only [Option.isSome_none, Bool.false_eq_true, false_and, if_false] at h
        rw [← Exec.ret.inj h] at ht
        cases ht
        exact ⟨stepOK_refl hw, hf⟩
      · have hc : ((c : Int) ≠ INVALID_INDEX) := by show (c : Int) ≠ -1; omega
        have hs : ((s : Int) ≠ INVALID_INDEX) := by show (s : Int) ≠ -1; omega
        simp only [Option.isSome_some, hc, hs, ne_eq, not_false_eq_true, and_self, if_true,
          Int.toNat_ofNat, hb] at h
        unfold bucketRemoveElement at h
        rw [bucketRemoveLoop_of_firstAt _ _ _ _ _ he] at h
        rw [← Exec.ret.inj h] at ht
        simp only [Option.some.injEq] at ht
        rw [← ht]
        exact ⟨removed_stepOK hw hb (firstAt_lt he), hf⟩

theorem machine_resizeTable_step {T T1 : Table K D} {o o1 : Alloc} {ok : Bool} (hw : WF T)
    (hf : Fits T) (h : Machine.resizeTable T o = .ret (ok, T1, o1)) :
    StepOK T T1 (if ok then 1 else 0) ∧ Fits T1 := by
  cases ok with
  | false =>
    have := machine_resizeTable_false h
    subst this
    exact ⟨stepOK_refl hw, hf⟩
  | true =>
    obtain ⟨hd, hf2⟩ := machine_resizeTable_doubled hw hf h
    exact ⟨doubled_stepOK hd hw, hf2⟩

theorem machine_reachFrom_stepOK {T0 T : Table K D} {r : Nat} (hw : WF T0) (hf : Fits T0)
    (h : Machine.ReachFrom T0 r T) : StepOK T0 T r ∧ Fits T := by
  induction h with
  | start => exact ⟨stepOK_refl hw, hf⟩
  | insert _ hi ht ih =>
    obtain ⟨s1, f1⟩ := machine_insert_step _ ih.1.1 ih.2 hi ht
    exact ⟨stepOK_trans ih.1 s1, f1⟩
  | removeData _ hi ht ih =>
    obtain ⟨s1, f1⟩ := machine_removeData_step ih.1.1 ih.2 hi ht
    exact ⟨stepOK_trans ih.1 s1, f1⟩
  | resizeTable _ hi ih =>
    obtain ⟨s1, f1⟩ := machine_resizeTable_step ih.1.1 ih.2 hi
    exact ⟨stepOK_trans ih.1 s1, f1⟩

theorem machine_reachable_wf {T : Table K D} (h : Machine.Reachable T) : WF T ∧ Fits T := by
  obtain ⟨n, T0, r, hn, hc, hr⟩ := h
  obtain ⟨hw, hf⟩ := machine_created_wf hc hn
  obtain ⟨s, f⟩ := machine_reachFrom_stepOK hw hf hr
  exact ⟨s.1, f⟩

theorem machine_reachFrom_trans {T0 T1 T2 : Table K D} {r1 r2 : Nat}
    (h1 : Machine.ReachFrom T0 r1 T1) (h2 : Machine.ReachFrom T1 r2 T2) :
    Machine.ReachFrom T0 (r1 + r2) T2 := by
  induction h2 with
  | start => exact h1
  | insert _ hi ht ih =>
    rw [← Nat.add_assoc]
    exact Machine.ReachFrom.insert ih hi ht
  | removeData _ hi ht ih => exact Machine.ReachFrom.removeData ih hi ht
  | resizeTable _ hi ih =>
    rw [← Nat.add_assoc]
    exact Machine.ReachFrom.resizeTable ih hi

/-! ## The claims that depend on the `int` arithmetic -/

theorem machine_exT0_created : Machine.Created 2 exT0 :=
  ⟨some cloneInt, some freeInt, some intHash, some intPrint, some intPrint, some intComp, [],
    _, rfl, rfl⟩

theorem machine_exT1_insert :
    Machine.insert 2 (some exT0) (some 543) (some 543) [] =
      .ret { ok := true, table := some exT1, alloc := [], errs := [], resizes := 0 } := by
  rfl

theorem machine_exT2_insert :
    Machine.insert 2 (some exT1) (some 6543) (some 6543) [] =
      .ret { ok := true, table := some exT2, alloc := [], errs := [], resizes := 0 } := by
  rfl

theorem machine_exT3_insert :
    Machine.insert 2 (some exT2) (some 3) (some 3) [] =
      .ret { ok := true, table := some exT3, alloc := [], errs := [], resizes := 1 } := by
  rfl

theorem machine_exT1_reach : Machine.ReachFrom exT0 0 exT1 :=
  Machine.ReachFrom.insert .start machine_exT1_insert rfl

theorem machine_exT2_reach : Machine.ReachFrom exT0 0 exT2 :=
  Machine.ReachFrom.insert machine_exT1_reach machine_exT2_insert rfl

theorem machine_exT3_reach : Machine.ReachFrom exT0 1 exT3 :=
  Machine.ReachFrom.insert machine_exT2_reach machine_exT3_insert rfl

theorem two_le_intMax : ((2 : Nat) : Int) ≤ INT_MAX := by decide

theorem machine_exT2_reachable : Machine.Reachable exT2 :=
  ⟨2, exT0, 0, two_le_intMax, machine_exT0_created, machine_exT2_reach⟩

theorem machine_exT3_reachable : Machine.Reachable exT3 :=
  ⟨2, exT0, 1, two_le_intMax, machine_exT0_created, machine_exT3_reach⟩

theorem machine_exBig2_created : Machine.Created (2 ^ 61 + 2) exBig2 :=
  ⟨some cloneInt, some freeInt, some intHash, some intPrint, some intPrint, some intComp, [],
    _, rfl, rfl⟩

theorem machine_insert_error {T : Table K D} {k : K} (fuel : Nat) (v : D) (o : Alloc)
    (h0 : Machine.generateHashCode T k < 0) :
    Machine.insert (fuel + 1) (some T) (some k) (some v) o =
      .ret { ok := false, table := some T, alloc := o,
             errs := [TableError.GENERAL_ERROR, TableError.GENERAL_ERROR], resizes := 0 } := by
  have hfd : Machine.findData (some T) (some k) INVALID_INDEX INVALID_INDEX =
      .ret { data := none, arrCell := INVALID_INDEX, listNode := INVALID_INDEX,
             errs := [TableError.GENERAL_ERROR] } := by
    unfold Machine.findData
    simp [h0]
  unfold Machine.insert
  rw [hfd]
  simp [h0]

theorem machine_findData_error {T : Table K D} {k : K} (a l : Int)
    (h0 : Machine.generateHashCode T k < 0) :
    Machine.findData (some T) (some k) a l =
      .ret { data := none, arrCell := INVALID_INDEX, listNode := INVALID_INDEX,
             errs := [TableError.GENERAL_ERROR] } := by
  unfold Machine.findData
  simp [h0]

theorem machine_removeData_error {T : Table K D} {k : K}
    (h0 : Machine.generateHashCode T k < 0) :
    Machine.removeData (some T) (some k) =
      .ret { data := none, table := some T, errs := [TableError.GENERAL_ERROR] } := by
  unfold Machine.removeData
  dsimp only
  rw [machine_findData_error _ _ h0]
  simp

theorem machine_findData_abort {T : Table K D} {k : K} (a l : Int) (hw : WF T) (hf : Fits T)
    (hn : NoOverflow T k) (h0 : 0 ≤ generateHashCode T k)
    (h1 : ¬ generateHashCode T k ≤ (T.tableSize : Int) - 1) :
    Machine.findData (some T) (some k) a l = .abort := by
  rw [machine_findData_eq _ _ hw hf hn]
  exact findData_abort a l h0 h1

theorem machine_exS0_created : Machine.Created 2 exS0 :=
  ⟨some cloneStr, some freeStr, some strHash, some strPrint, some intPrint, some strComp, [],
    _, rfl, rfl⟩

theorem machine_exS1_insert :
    Machine.insert 1 (some exS0) (some [10]) (some 5) [] =
      .ret { ok := true, table := some exS1, alloc := [], errs := [], resizes := 0 } := by
  rfl

theorem machine_exS2_insert :
    Machine.insert 1 (some exS0) (some [45, 45, 62]) (some 7) [] =
      .ret { ok := true, table := some exS2, alloc := [], errs := [], resizes := 0 } := by
  rfl

theorem machine_exS1_reachable : Machine.Reachable exS1 :=
  ⟨2, exS0, 0, two_le_intMax, machine_exS0_created,
    Machine.ReachFrom.insert .start machine_exS1_insert rfl⟩

theorem machine_exS2_reachable : Machine.Reachable exS2 :=
  ⟨2, exS0, 0, two_le_intMax, machine_exS0_created,
    Machine.ReachFrom.insert .start machine_exS2_insert rfl⟩

/-- C32, as stated, fails.  With the string strategy of the repository, the reachable table
of capacity 2 that holds the one-character key `"\n"` is printed as a text of 3 lines, and
the one that holds the key `"-->"` is printed with 2 markers `-->` although it has 1
element.  And the table `createTable (2 ^ 61 + 2)` returns is printed as the 2 cells of
its `(int) tableSize = 2` slots, not as `tableSize` lines. -/
theorem printTable_counts_fail :
    Machine.Reachable exS1 ∧ exS1.tableSize = 2 ∧
    Machine.printTable (some exS1) = .ret ("[0]\t\n,5\t-->\t\n[1]\t\n", []) ∧
    lineCount "[0]\t\n,5\t-->\t\n[1]\t\n" = 3 ∧
    Machine.Reachable exS2 ∧ totalElements exS2 = 1 ∧
    Machine.printTable (some exS2) = .ret ("[0]\t-->,7\t-->\t\n[1]\t\n", []) ∧
    countMarker "[0]\t-->,7\t-->\t\n[1]\t\n".data = 2 ∧
    Machine.Created (2 ^ 61 + 2) exBig2 ∧ exBig2.tableSize = 2 ^ 61 + 2 ∧
    Machine.printTable (some exBig2) = .ret ("[0]\t\n[1]\t\n", []) ∧
    lineCount "[0]\t\n[1]\t\n" = 2 :=
  ⟨machine_exS1_reachable, rfl, by decide, by decide, machine_exS2_reachable, rfl, by decide,
    by decide, machine_exBig2_created, rfl, by decide, by decide⟩

/-- C32 (amended): `printTable` output.  For every table reachable from a `createTable` with
capacity at most `INT_MAX`, `printTable` writes, for each slot index `i` from 0 to
`tableSize - 1` in increasing order, the text `[i]` followed, for each element of bucket
`i` in chain order (head first), by a tab, the key as rendered by `printKeyFun`, a comma,
the value as rendered by `printDataFun` and the text `\t-->`, and then the cell terminator
`\t\n`.  When no rendering of a stored key or value contains a newline, the output has
exactly `tableSize` lines; when no rendering of a stored key or value contains the character
`>`, the number of `-->` markers equals the total number of elements.  (`printTable` is a
function of the table value and hands back no table.) -/
theorem printTable_output (T : Table K D) (h : Machine.Reachable T) :
    Machine.printTable (some T) =
      .ret (cellsText T.printKeyFun T.printDataFun 0 T.table, []) ∧
    T.table.length = T.tableSize ∧
    ((∀ b ∈ T.table, ∀ e ∈ b.head,
        '\n' ∉ (T.printKeyFun e.key).data ∧ '\n' ∉ (T.printDataFun e.data).data) →
      lineCount (cellsText T.printKeyFun T.printDataFun 0 T.table) = T.tableSize) ∧
    ((∀ b ∈ T.table, ∀ e ∈ b.head,
        '>' ∉ (T.printKeyFun e.key).data ∧ '>' ∉ (T.printDataFun e.data).data) →
      countMarker (cellsText T.printKeyFun T.printDataFun 0 T.table).data =
        totalElements T) := by
  obtain ⟨hw, hfit⟩ := machine_reachable_wf h
  refine ⟨by rw [machine_printTable_eq hw hfit]; exact printTable_eq hw, hw.len, ?_, ?_⟩
  · intro hp
    rw [cellsText_lines _ _ _ _ hp, hw.len]
  · intro hp
    rw [cellsText_markers _ _ _ _ hp, totalElements_eq hw]

theorem printTable_output_witness :
    Machine.Reachable exT3 ∧
    Machine.printTable (some exT3) =
      .ret ("[0]\t\n[1]\t\n[2]\t543,543\t-->\t6543,6543\t-->\t\n[3]\t3,3\t-->\t\n", []) ∧
    Machine.printTable (some exT3) =
      .ret (cellsText exT3.printKeyFun exT3.printDataFun 0 exT3.table, []) ∧
    lineCount (cellsText exT3.printKeyFun exT3.printDataFun 0 exT3.table) = exT3.tableSize ∧
    countMarker (cellsText exT3.printKeyFun exT3.printDataFun 0 exT3.table).data =
      totalElements exT3 :=
  have h := printTable_output exT3 machine_exT3_reachable
  ⟨machine_exT3_reachable, by decide, h.1, h.2.2.1 (by decide), h.2.2.2 (by decide)⟩

theorem machine_idT0_created : Machine.Created 2 idT0 :=
  ⟨some cloneInt, some freeInt, some idHash, some intPrint, some intPrint, some intComp, [],
    _, rfl, rfl⟩

theorem machine_idT0_reachable : Machine.Reachable idT0 :=
  ⟨2, idT0, 0, two_le_intMax, machine_idT0_created, .start⟩

theorem machine_idT0_resize : Machine.resizeTable idT0 [] = .ret (true, idT0r, []) := by
  rfl

theorem machine_idT0r_reachable : Machine.Reachable idT0r :=
  ⟨2, idT0, 1, two_le_intMax, machine_idT0_created,
    Machine.ReachFrom.resizeTable .start machine_idT0_resize⟩

theorem machine_hash_neg {T : Table K D} {k : K} (hw : WF T) (hf : Fits T)
    (h : T.hfun k T.originalSize < 0)
    (hm : INT_MIN ≤ (T.sizeFactor : Int) * T.hfun k T.originalSize) :
    Machine.generateHashCode T k < 0 := by
  have h0 := hash_neg hw h
  have hn : NoOverflow T k := by
    refine ⟨hm, ?_⟩
    unfold generateHashCode at h0
    show _ ≤ (2147483647 : Int)
    omega
  rw [machine_hash_eq hw hf hn]
  exact h0

theorem machine_hash_too_large {T : Table K D} {k : K} (hw : WF T)
    (h : (T.originalSize : Int) ≤ T.hfun k T.originalSize)
    (hm : (T.sizeFactor : Int) * T.hfun k T.originalSize ≤ INT_MAX) :
    NoOverflow T k ∧ 0 ≤ generateHashCode T k ∧
      ¬ generateHashCode T k ≤ (T.tableSize : Int) - 1 := by
  obtain ⟨h0, h1⟩ := hash_too_large hw h
  refine ⟨⟨?_, hm⟩, h0, h1⟩
  unfold generateHashCode at h0
  show (-2147483648 : Int) ≤ _
  omega

/-- C13, as stated, fails.  Called with an absent key and with the out-parameters holding
`(2, 1)` (the coordinates a previous search returned), `findData` returns `NULL` and leaves
the out-parameters at `(2, 1)`, not at `(-1, -1)`.  And on the table of capacity 2 and size
factor 2 whose hash function returns the key itself, the key `INT_MIN` has a negative hash,
but the `int` product `2 * INT_MIN` of `generateHashCode` wraps to 0: `insert` returns
`true` and stores the key in slot 0. -/
theorem null_key_and_wrapped_hash_undetected :
    Machine.findData (some exT3) (none : Option Int) 2 1 =
        .ret { data := none, arrCell := 2, listNode := 1, errs := [TableError.GENERAL_ERROR] } ∧
    (¬ ∃ errs, Machine.findData (some exT3) (none : Option Int) 2 1 =
        .ret { data := none, arrCell := -1, listNode := -1, errs := errs }) ∧
    Machine.Reachable idT0r ∧ idT0r.sizeFactor = 2 ∧
    idT0r.hfun (-2147483648) idT0r.originalSize = -2147483648 ∧
    Machine.generateHashCode idT0r (-2147483648) = 0 ∧
    Machine.insert 1 (some idT0r) (some (-2147483648)) (some 9) [] =
      .ret { ok := true, table := some idT0s, alloc := [], errs := [], resizes := 0 } ∧
    idT0s.table ≠ idT0r.table := by
  refine ⟨rfl, ?_, machine_idT0r_reachable, rfl, rfl, by decide, rfl, by decide⟩
  rintro ⟨errs, h⟩
  have h1 : Machine.findData (some exT3) (none : Option Int) 2 1 =
      .ret { data := none, arrCell := 2, listNode := 1,
             errs := [TableError.GENERAL_ERROR] } := rfl
  rw [h1] at h
  have h2 : (2 : Int) = -1 := congrArg FindRet.arrCell (Exec.ret.inj h)
  exact absurd h2 (by decide)

/-- C13 (amended): invalid arguments are detected before any mutation.  `insert` returns
`false` when the table, the key or the value is absent; `removeData` returns `NULL` when the
table or the key is absent; `findData` returns `NULL` in these cases, with the
out-parameters left as they were.  On a table reachable from a `createTable` with capacity
at most `INT_MAX`, when the hash `h` of the key is negative and the `int` product
`sizeFactor * h` does not overflow (`sizeFactor * h >= INT_MIN`; always so for the error
value `-1` of Key.h), `insert` returns `false`, `removeData` returns `NULL` and `findData`
returns `NULL` with both out-parameters `-1`.  Every such call reports `GENERAL_ERROR`,
consumes no allocation and hands back the table it was given. -/
theorem invalid_arguments_detected (T : Table K D) (h : Machine.Reachable T)
    (t : Option (Table K D)) (key : Option K) (object : Option D) (k : K) (v : D) (fuel : Nat)
    (o : Alloc) (a l : Int) :
    ((t = none ∨ key = none ∨ object = none) →
      Machine.insert (fuel + 1) t key object o =
        .ret { ok := false, table := t, alloc := o, errs := [TableError.GENERAL_ERROR],
               resizes := 0 }) ∧
    ((t = none ∨ key = none) →
      Machine.findData t key a l =
          .ret { data := none, arrCell := a, listNode := l,
                 errs := [TableError.GENERAL_ERROR] } ∧
        Machine.removeData t key =
          .ret { data := none, table := t, errs := [TableError.GENERAL_ERROR] }) ∧
    (T.hfun k T.originalSize < 0 →
      INT_MIN ≤ (T.sizeFactor : Int) * T.hfun k T.originalSize →
      Machine.insert (fuel + 1) (some T) (some k) (some v) o =
          .ret { ok := false, table := some T, alloc := o,
                 errs := [TableError.GENERAL_ERROR, TableError.GENERAL_ERROR],
                 resizes := 0 } ∧
        Machine.findData (some T) (some k) a l =
          .ret { data := none, arrCell := -1, listNode := -1,
                 errs := [TableError.GENERAL_ERROR] } ∧
        Machine.removeData (some T) (some k) =
          .ret { data := none, table := some T, errs := [TableError.GENERAL_ERROR] }) ∧
    (T.hfun k T.originalSize = INVALID_HASH_CODE →
      INT_MIN ≤ (T.sizeFactor : Int) * T.hfun k T.originalSize) := by
  obtain ⟨hw, hfit⟩ := machine_reachable_wf h
  refine ⟨fun hn => machine_insert_null fuel o hn,
    fun hn => ⟨machine_findData_null a l hn, machine_removeData_null hn⟩, ?_, ?_⟩
  · intro hneg hm
    have h0 := machine_hash_neg hw hfit hneg hm
    exact ⟨machine_insert_error fuel v o h0, machine_findData_error a l h0,
      machine_removeData_error h0⟩
  · intro he
    rw [he]
    have h1 : (T.sizeFactor : Int) ≤ 2147483647 := (fits_sizeFactor hw hfit).1
    show (-2147483648 : Int) ≤ (T.sizeFactor : Int) * (-1)
    omega

theorem invalid_arguments_detected_witness :
    Machine.Reachable idT0r ∧ idT0r.hfun (-3) idT0r.originalSize < 0 ∧
      INT_MIN ≤ (idT0r.sizeFactor : Int) * idT0r.hfun (-3) idT0r.originalSize ∧
      Machine.insert (0 + 1) (some idT0r) (some (-3)) (some 7) [true] =
        .ret { ok := false, table := some idT0r, alloc := [true],
               errs := [TableError.GENERAL_ERROR, TableError.GENERAL_ERROR],
               resizes := 0 } ∧
      Machine.findData (some idT0r) (none : Option Int) 2 1 =
        .ret { data := none, arrCell := 2, listNode := 1,
               errs := [TableError.GENERAL_ERROR] } :=
  have h := invalid_arguments_detected idT0r machine_idT0r_reachable (some idT0r) none
    (some 7) (-3) 7 0 [true] 2 1
  ⟨machine_idT0r_reachable, by decide, by decide, (h.2.2.1 (by decide) (by decide)).1,
    (h.2.1 (Or.inr rfl)).1⟩

/-- C14, as stated, fails.  On the table `createTable 2` returns for a hash function that
returns the key itself, the key `2` has the hash `2 >= originalSize`; `findData` and
`insert` then do not return at all (the assertion `hashCode <= (int) tableSize - 1` fails).
After one resize (size factor 2) the key `2 ^ 30` has the hash `2 ^ 30 >= originalSize`,
the `int` product wraps to `INT_MIN`, and the error is reported; and the key `INT_MIN` has
a negative hash, the product wraps to 0, and `insert` returns `true` and changes the
table. -/
theorem hash_above_range_not_reported :
    Machine.Reachable idT0 ∧ idT0.hfun 2 idT0.originalSize = 2 ∧ idT0.originalSize = 2 ∧
    Machine.findData (some idT0) (some 2) INVALID_INDEX INVALID_INDEX = .abort ∧
    Machine.insert 2 (some idT0) (some 2) (some 2) [] = .abort ∧
    (¬ ∃ res, Machine.insert 2 (some idT0) (some 2) (some 2) [] = .ret res) ∧
    (¬ ∃ f, Machine.findData (some idT0) (some 2) INVALID_INDEX INVALID_INDEX = .ret f) ∧
    Machine.Reachable idT0r ∧ idT0r.hfun 1073741824 idT0r.originalSize = 1073741824 ∧
    Machine.generateHashCode idT0r 1073741824 = -2147483648 ∧
    Machine.findData (some idT0r) (some 1073741824) INVALID_INDEX INVALID_INDEX =
      .ret { data := none, arrCell := -1, listNode := -1,
             errs := [TableError.GENERAL_ERROR] } ∧
    idT0r.hfun (-2147483648) idT0r.originalSize < 0 ∧
    Machine.insert 1 (some idT0r) (some (-2147483648)) (some 9) [] =
      .ret { ok := true, table := some idT0s, alloc := [], errs := [], resizes := 0 } := by
  have h1 : Machine.findData (some idT0) (some 2) INVALID_INDEX INVALID_INDEX = .abort := rfl
  have h2 : Machine.insert 2 (some idT0) (some 2) (some 2) [] = .abort := rfl
  refine ⟨machine_idT0_reachable, rfl, rfl, h1, h2, ?_, ?_, machine_idT0r_reachable, rfl,
    by decide, by decide, by decide, rfl⟩
  · rintro ⟨res, h⟩
    rw [h2] at h
    cases h
  · rintro ⟨f, h⟩
    rw [h1] at h
    cases h

/-- C14 (amended): for every table reachable from a `createTable` with capacity at most
`INT_MAX` and every key whose hash `h` is negative, the `int` product `sizeFactor * h` not
overflowing (`sizeFactor * h >= INT_MIN`), `insert` returns `false`, `findData` returns
`NULL` with both coordinates `-1` and `removeData` returns `NULL`; `GENERAL_ERROR` is
reported, no allocation is consumed, no slot is read (a read outside the slot array would
end the run) and the table is handed back as it was.  A hash `h >= originalSize` with
`sizeFactor * h <= INT_MAX` is not reported: the assertion
`hashCode <= (int) tableSize - 1` of `findData` fails before any slot is read or written,
so `findData`, `insert` and `removeData` do not return. -/
theorem out_of_range_hash (T : Table K D) (k : K) (v : D) (fuel : Nat) (o : Alloc) (a l : Int)
    (h : Machine.Reachable T) :
    (T.hfun k T.originalSize < 0 →
      INT_MIN ≤ (T.sizeFactor : Int) * T.hfun k T.originalSize →
      Machine.insert (fuel + 1) (some T) (some k) (some v) o =
          .ret { ok := false, table := some T, alloc := o,
                 errs := [TableError.GENERAL_ERROR, TableError.GENERAL_ERROR],
                 resizes := 0 } ∧
        Machine.findData (some T) (some k) a l =
          .ret { data := none, arrCell := -1, listNode := -1,
                 errs := [TableError.GENERAL_ERROR] } ∧
        Machine.removeData (some T) (some k) =
          .ret { data := none, table := some T, errs := [TableError.GENERAL_ERROR] }) ∧
    ((T.originalSize : Int) ≤ T.hfun k T.originalSize →
      (T.sizeFactor : Int) * T.hfun k T.originalSize ≤ INT_MAX →
      Machine.insert (fuel + 1) (some T) (some k) (some v) o = .abort ∧
        Machine.findData (some T) (some k) a l = .abort ∧
        Machine.removeData (some T) (some k) = .abort) := by
  obtain ⟨hw, hfit⟩ := machine_reachable_wf h
  constructor
  · intro hneg hm
    have h0 := machine_hash_neg hw hfit hneg hm
    exact ⟨machine_insert_error fuel v o h0, machine_findData_error a l h0,
      machine_removeData_error h0⟩
  · intro hbig hm
    obtain ⟨hn, h0, h1⟩ := machine_hash_too_large hw hbig hm
    have hfd : ∀ a l : Int, Machine.findData (some T) (some k) a l = .abort :=
      fun a l => machine_findData_abort a l hw hfit hn h0 h1
    refine ⟨?_, hfd a l, ?_⟩
    · unfold Machine.insert
      rw [hfd]
    · unfold Machine.removeData
      dsimp only
      rw [hfd]

theorem out_of_range_hash_witness :
    Machine.Reachable idT0 ∧ idT0.hfun (-3) idT0.originalSize < 0 ∧
      INT_MIN ≤ (idT0.sizeFactor : Int) * idT0.hfun (-3) idT0.originalSize ∧
      Machine.insert (0 + 1) (some idT0) (some (-3)) (some 9) [] =
        .ret { ok := false, table := some idT0, alloc := [],
               errs := [TableError.GENERAL_ERROR, TableError.GENERAL_ERROR],
               resizes := 0 } ∧
      Machine.findData (some idT0) (some (-3)) 0 0 =
        .ret { data := none, arrCell := -1, listNode := -1,
               errs := [TableError.GENERAL_ERROR] } :=
  have hneg : idT0.hfun (-3) idT0.originalSize < 0 := by decide
  have hm : INT_MIN ≤ (idT0.sizeFactor : Int) * idT0.hfun (-3) idT0.originalSize := by decide
  have h := (out_of_range_hash idT0 (-3) 9 0 [] 0 0 machine_idT0_reachable).1 hneg hm
  ⟨machine_idT0_reachable, hneg, hm, h.1, h.2.1⟩

/-- C16, code defect: the failing path of `resizeTable` does not leave the table untouched.
On the reachable table of capacity 2 whose slot 1 is full, let the allocation of the new
slot array and of its first bucket succeed and the allocation of its second bucket fail.
The release loop of `setTableBuckets` then passes the never-written slot `newTable[1]` to
`freeBucket`: the run of `resizeTable`, and of the `insert` that called it, is not defined
by the values of the table (`Exec.abort`), so `insert` does not return `false`.  On the
heap (record 0, slot array 1, buckets 2 and 3): when the never-written slot holds the stale
pointer 2, `resizeTable` returns `false` after it has released block 2, the bucket of slot
0 of the table, and without releasing the fresh bucket 5; when it holds `NULL`,
`resizeTable` returns `false` with the blocks of the table live and the fresh bucket 5
never released.  Only when the slot array or the first bucket cannot be allocated does
`resizeTable` return `false` with nothing touched. -/
theorem failed_resize_releases_table_bucket :
    Machine.Reachable exT2 ∧
    Machine.resizeTable exT2 [true, true, false] = .abort ∧
    Machine.insert 2 (some exT2) (some 3) (some 3) [true, true, false] = .abort ∧
    createTableHeap 2 none [] emptyHeap =
      .ret (some 0, [], [], { next := 4, live := [0, 1, 2, 3], released := [] }) ∧
    resizeTableHeap 1 [some 2, some 3] 2 (some 2) [true, true, false]
        { next := 4, live := [0, 1, 2, 3], released := [] } =
      .ret (false, 1, [some 2, some 3], [],
        { next := 6, live := [0, 1, 3, 5], released := [2, 4] }) ∧
    resizeTableHeap 1 [some 2, some 3] 2 none [true, true, false]
        { next := 4, live := [0, 1, 2, 3], released := [] } =
      .ret (false, 1, [some 2, some 3], [],
        { next := 6, live := [0, 1, 2, 3, 5], released := [4] }) ∧
    Machine.resizeTable exT2 [false] = .ret (false, exT2, []) ∧
    Machine.resizeTable exT2 [true, false] = .ret (false, exT2, []) ∧
    Machine.insert 2 (some exT2) (some 3) (some 3) [false] =
      .ret { ok := false, table := some exT2, alloc := [], errs := [TableError.MEM_OUT],
             resizes := 0 } :=
  ⟨machine_exT2_reachable, rfl, rfl, by decide, by decide, by decide, rfl, rfl, rfl⟩

end GenericHashTable
